import Mathlib

/-!
# rawadf: the extended ADF container codec and its merge engine

A shallow embedding of `rawadf.c`.

Conventions of the embedding.

* C integers are naturals or integers.  The data model is LP64: `unsigned long`
  and `size_t` are 64 bits wide, `long` is a 64-bit two's complement integer.
  Where a C addition can leave the range of its type the wrap is explicit
  (`% ULONG_MOD`); conversions from `unsigned long` to `long` go through
  `longFromULong`.
* A byte is a natural number; the C code masks every byte it decodes with
  `& 0xff`, and so does the embedding.
* A source stream (`FILE`) is an in-memory byte sequence with a position and the
  two stdio indicators.  A read is short only at the end of the data.
* A destination stream (`OutFILE`) collects the bytes written to it and may have
  a bounded capacity, so that a write can be short.
* The fixed-size arrays of `EADFHeader`, and the `trackSources` array, are total
  maps from indices; entries the code never writes keep the value they had
  before the call (the memory is not initialised by the callers).
* `eadf_errno` is the error carried by `Except.error`; the status is
  `EADFSTATUS_SUCCESS` exactly when the result is `Except.ok`.
-/

namespace Rawadf

/-! ## Constants -/

abbrev EADF_MAXTRACKS : Nat := 166
abbrev EADF_BYTESPERRECORD : Nat := 12
abbrev EADF_MAGICLEN : Nat := 8
abbrev EADF_BUFSIZE : Nat := 1024

/-- The C string "UAE-1ADF": eight characters and the terminating NUL. -/
def EADF_MAGIC : List Nat := [85, 65, 69, 45, 49, 65, 68, 70, 0]

abbrev EADFTRACKTYPE_DOS : Nat := 0
abbrev EADFTRACKTYPE_RAW : Nat := 1

/-- Number of values of an `unsigned long` (and of a `size_t`). -/
abbrev ULONG_MOD : Nat := 2 ^ 64

inductive EADFTrackSource where
  | NONE
  | SOURCE1
  | SOURCE2
  deriving DecidableEq

inductive EADFError where
  | NOERROR
  | WRONGMAGIC
  | INVALIDNUMTRACKS
  | INVALIDTRACKTYPE
  | READERROR
  | WRITEERROR
  | SEEKERROR
  | EOFERROR
  | UNKNOWNERROR
  deriving DecidableEq

structure EADFHeader where
  magic : List Nat
  numTracks : Nat
  trackType : Nat → Nat
  trackSizeBytes : Nat → Nat
  trackSizeBits : Nat → Nat
  trackOffset : Nat → Nat

/-! ## Integer conversions and the big-endian codec -/

/-- Conversion of an `unsigned long` to `long` (two's complement, 64 bits). -/
def longFromULong (x : Nat) : Int :=
  if x % ULONG_MOD < 2 ^ 63 then ((x % ULONG_MOD : Nat) : Int)
  else ((x % ULONG_MOD : Nat) : Int) - (ULONG_MOD : Int)

/-- Convert a four-byte char array in big-endian format to a long.
`nptr` is the memory from the pointer onwards. -/
def longFromBigEndianBytes (nptr : List Nat) : Nat :=
  let result := 0
  let temp := nptr.getD 0 0 &&& 0xff
  let result := result + (temp <<< 24)
  let temp := nptr.getD 1 0 &&& 0xff
  let result := result + (temp <<< 16)
  let temp := nptr.getD 2 0 &&& 0xff
  let result := result + (temp <<< 8)
  let temp := nptr.getD 3 0 &&& 0xff
  let result := result + temp
  result

/-- Convert a long to a four-byte char array in big-endian format.
The result is `[buf[0], buf[1], buf[2], buf[3]]`. -/
def bigEndianBytesFromLong (l : Int) : List Nat :=
  let buf3 := (Int.land l 0xff).toNat
  let buf2 := (Int.land (l >>> (8 : Nat)) 0xff).toNat
  let buf1 := (Int.land (l >>> (16 : Nat)) 0xff).toNat
  let buf0 := (Int.land (l >>> (24 : Nat)) 0xff).toNat
  [buf0, buf1, buf2, buf3]


/-! ## Streams -/

/-- A source stream: its bytes, the file position, and the end-of-file and error
indicators. -/
structure FILE where
  data : List Nat
  pos : Nat
  eof : Bool
  err : Bool

/-- A stream as `fopen(name, "rb")` returns it: positioned at the start, both
indicators clear. -/
def openStream (bytes : List Nat) : FILE :=
  { data := bytes, pos := 0, eof := false, err := false }

/-- The call `fread(buffer, 1, count, f)`: the bytes stored in the buffer (their number
is the return value) and the stream afterwards.  A short read sets the end-of-file
indicator. -/
def fread (count : Nat) (f : FILE) : List Nat × FILE :=
  let got := (f.data.drop f.pos).take count
  (got, { f with pos := f.pos + got.length, eof := f.eof || decide (got.length < count) })

def feof (f : FILE) : Bool := f.eof

def ferror (f : FILE) : Bool := f.err

/-- The call `fseek(f, offset, SEEK_SET)`: the return value and the stream afterwards.
A negative offset is refused; otherwise the position is set (also beyond the end of
the data) and the end-of-file indicator is cleared. -/
def fseek (f : FILE) (offset : Int) : Int × FILE :=
  if offset < 0 then (-1, f)
  else (0, { f with pos := offset.toNat, eof := false })

/-- A destination stream: the bytes written so far and, when bounded, the number of
bytes that can still be written. -/
structure OutFILE where
  data : List Nat
  room : Option Nat

/-- A destination as `fopen(name, "wb")` returns it: empty. -/
def createStream (room : Option Nat) : OutFILE :=
  { data := [], room := room }

/-- The call `fwrite(buffer, 1, n, dest)` with `bytes` the first `n` bytes of the buffer:
the number of bytes written and the stream afterwards. -/
def fwrite (bytes : List Nat) (dest : OutFILE) : Nat × OutFILE :=
  match dest.room with
  | none => (bytes.length, { dest with data := dest.data ++ bytes })
  | some r =>
    if bytes.length ≤ r then
      (bytes.length, { data := dest.data ++ bytes, room := some (r - bytes.length) })
    else
      (r, { data := dest.data ++ bytes.take r, room := some 0 })

/-- The C library `strcmp` on NUL-terminated byte strings; the end of the list counts as a
terminator. -/
def strcmp : List Nat → List Nat → Int
  | [], [] => 0
  | [], b :: _ => 0 - (b : Int)
  | a :: _, [] => (a : Int)
  | a :: s1, b :: s2 =>
    if a ≠ b then (a : Int) - (b : Int)
    else if a = 0 then 0
    else strcmp s1 s2

/-! ## Parsing the header -/

/-- The value `eadf_errno` receives after a short read:
`UNKNOWNERROR`, replaced by `EOFERROR` if `feof`, else by `READERROR` if `ferror`. -/
def readErrno (f : FILE) : EADFError :=
  if feof f then EADFError.EOFERROR
  else if ferror f then EADFError.READERROR
  else EADFError.UNKNOWNERROR

/-- The record loop of `eadfHeaderInitWithFile`:
`for (i = 0; i < h->numTracks; i++)`.  The first argument counts the iterations
that remain (`h->numTracks - i`). -/
def initTracks (buffer : List Nat) : Nat → Nat → Nat → EADFHeader → Except EADFError EADFHeader
  | 0, _, _, h => Except.ok h
  | k + 1, i, fileOffset, h =>
    let bufOffset := i * EADF_BYTESPERRECORD
    let v := longFromBigEndianBytes (buffer.drop bufOffset)
    let h := { h with trackType := Function.update h.trackType i v }
    if h.trackType i ≠ EADFTRACKTYPE_DOS ∧ h.trackType i ≠ EADFTRACKTYPE_RAW then
      Except.error EADFError.INVALIDTRACKTYPE
    else
      let v := longFromBigEndianBytes (buffer.drop (bufOffset + 4))
      let h := { h with trackSizeBytes := Function.update h.trackSizeBytes i v }
      let v := longFromBigEndianBytes (buffer.drop (bufOffset + 8))
      let h := { h with trackSizeBits := Function.update h.trackSizeBits i v }
      let h := { h with trackOffset := Function.update h.trackOffset i fileOffset }
      let fileOffset := (fileOffset + h.trackSizeBytes i) % ULONG_MOD
      initTracks buffer k (i + 1) fileOffset h

/-- Initialise an EADFHeader with the contents of a file.  `h` is the header memory
before the call. -/
def eadfHeaderInitWithFile (h : EADFHeader) (f : FILE) : Except EADFError (EADFHeader × FILE) :=
  let fileOffset : Nat := 0
  let r := fread EADF_MAGICLEN f
  let numRead := r.1.length
  let f := r.2
  if numRead < EADF_MAGICLEN then
    Except.error (readErrno f)
  else
    let h := { h with magic := r.1 ++ [0] }
    if strcmp h.magic EADF_MAGIC ≠ 0 then
      Except.error EADFError.WRONGMAGIC
    else
      let fileOffset := (fileOffset + numRead) % ULONG_MOD
      let r := fread 4 f
      let buffer := r.1
      let numRead := buffer.length
      let f := r.2
      if numRead ≠ 4 then
        Except.error (readErrno f)
      else
        let fileOffset := (fileOffset + numRead) % ULONG_MOD
        let h := { h with numTracks := longFromBigEndianBytes buffer }
        if h.numTracks > EADF_MAXTRACKS then
          Except.error EADFError.INVALIDNUMTRACKS
        else
          let r := fread (h.numTracks * EADF_BYTESPERRECORD) f
          let buffer := r.1
          let numRead := buffer.length
          let f := r.2
          if numRead ≠ h.numTracks * EADF_BYTESPERRECORD then
            Except.error (readErrno f)
          else
            let fileOffset := (fileOffset + numRead) % ULONG_MOD
            match initTracks buffer h.numTracks 0 fileOffset h with
            | Except.error e => Except.error e
            | Except.ok h => Except.ok (h, f)

/-! ## The merge engine -/

/-- The header loop of `eadfMergeFiles`:
`for (track = 0; track < numTracks; track++)`.  The first argument counts the iterations
that remain.  `buffer` holds the bytes between the start of the C buffer and `upto`, so
that `upto - buffer` is its length and `upto = buffer` is the empty list. -/
def mergeHeaderLoop (h1 h2 : EADFHeader) (trackSources : Nat → EADFTrackSource) :
    Nat → Nat → List Nat → OutFILE → Except EADFError (List Nat × OutFILE)
  | 0, _, buffer, dest => Except.ok (buffer, dest)
  | k + 1, track, buffer, dest =>
    let record :=
      if trackSources track = EADFTrackSource.SOURCE1 ∧ track < h1.numTracks then
        bigEndianBytesFromLong (h1.trackType track : Int)
          ++ bigEndianBytesFromLong (longFromULong (h1.trackSizeBytes track))
          ++ bigEndianBytesFromLong (longFromULong (h1.trackSizeBits track))
      else if trackSources track = EADFTrackSource.SOURCE2 ∧ track < h2.numTracks then
        bigEndianBytesFromLong (h2.trackType track : Int)
          ++ bigEndianBytesFromLong (longFromULong (h2.trackSizeBytes track))
          ++ bigEndianBytesFromLong (longFromULong (h2.trackSizeBits track))
      else
        bigEndianBytesFromLong (EADFTRACKTYPE_RAW : Int)
          ++ bigEndianBytesFromLong 0
          ++ bigEndianBytesFromLong 0
    let buffer := buffer ++ record
    let bufLength := buffer.length
    if bufLength > EADF_BUFSIZE - EADF_BYTESPERRECORD then
      let w := fwrite buffer dest
      if w.1 < bufLength then
        Except.error EADFError.WRITEERROR
      else
        mergeHeaderLoop h1 h2 trackSources k (track + 1) [] w.2
    else
      mergeHeaderLoop h1 h2 trackSources k (track + 1) buffer dest

/-- The copy loop shared by `eadfMergeFiles` and `eadfSplitFile`:
`for (; numBytes > 0; numBytes -= EADF_BUFSIZE)`.  The first argument bounds the number
of iterations; the bound `numBytes ≤ 1024 * fuel` makes the loop condition false when it
reaches zero, so the loop always runs to its own exit. -/
def copyLoop : (fuel : Nat) → (numBytes : Int) → numBytes ≤ 1024 * (fuel : Int) →
    FILE → OutFILE → Except EADFError (FILE × OutFILE)
  | 0, _, _, src, dest => Except.ok (src, dest)
  | fuel + 1, numBytes, hb, src, dest =>
    if numBytes > 0 then
      let count : Nat := if numBytes > (EADF_BUFSIZE : Int) then EADF_BUFSIZE else numBytes.toNat
      let r := fread count src
      if r.1.length < count then
        Except.error (readErrno r.2)
      else
        let w := fwrite r.1 dest
        if w.1 < count then
          Except.error EADFError.WRITEERROR
        else
          copyLoop fuel (numBytes - (EADF_BUFSIZE : Int))
            (by simp only [EADF_BUFSIZE]; push_cast at hb ⊢; omega) r.2 w.2
    else
      Except.ok (src, dest)

/-- The payload loop of `eadfMergeFiles`:
`for (track = 0; track < numTracks; track++)`, first argument as before. -/
def mergePayloadLoop (h1 h2 : EADFHeader) (trackSources : Nat → EADFTrackSource) :
    Nat → Nat → FILE → FILE → OutFILE → Except EADFError (FILE × FILE × OutFILE)
  | 0, _, f1, f2, dest => Except.ok (f1, f2, dest)
  | k + 1, track, f1, f2, dest =>
    if trackSources track = EADFTrackSource.SOURCE1 then
      let numBytes := longFromULong (h1.trackSizeBytes track)
      let sk := fseek f1 (longFromULong (h1.trackOffset track))
      if sk.1 < 0 then
        Except.error EADFError.SEEKERROR
      else
        match copyLoop numBytes.toNat numBytes (by omega) sk.2 dest with
        | Except.error e => Except.error e
        | Except.ok c => mergePayloadLoop h1 h2 trackSources k (track + 1) c.1 f2 c.2
    else if trackSources track = EADFTrackSource.SOURCE2 then
      let numBytes := longFromULong (h2.trackSizeBytes track)
      let sk := fseek f2 (longFromULong (h2.trackOffset track))
      if sk.1 < 0 then
        Except.error EADFError.SEEKERROR
      else
        match copyLoop numBytes.toNat numBytes (by omega) sk.2 dest with
        | Except.error e => Except.error e
        | Except.ok c => mergePayloadLoop h1 h2 trackSources k (track + 1) f1 c.1 c.2
    else
      mergePayloadLoop h1 h2 trackSources k (track + 1) f1 f2 dest

/-- Merge two extended ADF files into one.  The result holds the two source streams and
the destination as the call leaves them. -/
def eadfMergeFiles (h1 : EADFHeader) (f1 : FILE) (h2 : EADFHeader) (f2 : FILE) (dest : OutFILE)
    (trackSources : Nat → EADFTrackSource) : Except EADFError (FILE × FILE × OutFILE) :=
  let buffer := EADF_MAGIC.take EADF_MAGICLEN
  let numTracks := if h1.numTracks > h2.numTracks then h1.numTracks else h2.numTracks
  let buffer := buffer ++ bigEndianBytesFromLong (longFromULong numTracks)
  match mergeHeaderLoop h1 h2 trackSources numTracks 0 buffer dest with
  | Except.error e => Except.error e
  | Except.ok hb =>
    let bufLength := hb.1.length
    let w := fwrite hb.1 hb.2
    if w.1 < bufLength then
      Except.error EADFError.WRITEERROR
    else
      mergePayloadLoop h1 h2 trackSources numTracks 0 f1 f2 w.2

/-! ## The split engine -/

/-- The header loop of `eadfSplitFile`:
`for (track = 0; track < h->numTracks; track++)`, first argument and `buffer` as in
`mergeHeaderLoop`. -/
def splitHeaderLoop (h : EADFHeader) (trackSources : Nat → EADFTrackSource) :
    Nat → Nat → List Nat → OutFILE → Except EADFError (List Nat × OutFILE)
  | 0, _, buffer, dest => Except.ok (buffer, dest)
  | k + 1, track, buffer, dest =>
    let record :=
      if trackSources track = EADFTrackSource.SOURCE1 then
        bigEndianBytesFromLong (h.trackType track : Int)
          ++ bigEndianBytesFromLong (longFromULong (h.trackSizeBytes track))
          ++ bigEndianBytesFromLong (longFromULong (h.trackSizeBits track))
      else
        bigEndianBytesFromLong (EADFTRACKTYPE_RAW : Int)
          ++ bigEndianBytesFromLong 0
          ++ bigEndianBytesFromLong 0
    let buffer := buffer ++ record
    let bufLength := buffer.length
    if bufLength > EADF_BUFSIZE - EADF_BYTESPERRECORD then
      let w := fwrite buffer dest
      if w.1 < bufLength then
        Except.error EADFError.WRITEERROR
      else
        splitHeaderLoop h trackSources k (track + 1) [] w.2
    else
      splitHeaderLoop h trackSources k (track + 1) buffer dest

/-- The payload loop of `eadfSplitFile`:
`for (track = 0; track < h->numTracks; track++)`, first argument as before. -/
def splitPayloadLoop (h : EADFHeader) (trackSources : Nat → EADFTrackSource) :
    Nat → Nat → FILE → OutFILE → Except EADFError (FILE × OutFILE)
  | 0, _, f, dest => Except.ok (f, dest)
  | k + 1, track, f, dest =>
    if trackSources track ≠ EADFTrackSource.SOURCE1 then
      splitPayloadLoop h trackSources k (track + 1) f dest
    else
      let numBytes := longFromULong (h.trackSizeBytes track)
      let sk := fseek f (longFromULong (h.trackOffset track))
      if sk.1 < 0 then
        Except.error EADFError.SEEKERROR
      else
        match copyLoop numBytes.toNat numBytes (by omega) sk.2 dest with
        | Except.error e => Except.error e
        | Except.ok c => splitPayloadLoop h trackSources k (track + 1) c.1 c.2

/-- The function `eadfSplitFile`: copy the tracks marked Source1 of one extended ADF file.
The result holds the source stream and the destination as the call leaves them. -/
def eadfSplitFile (h : EADFHeader) (f : FILE) (dest : OutFILE)
    (trackSources : Nat → EADFTrackSource) : Except EADFError (FILE × OutFILE) :=
  let buffer := EADF_MAGIC.take EADF_MAGICLEN
  let buffer := buffer ++ bigEndianBytesFromLong (longFromULong h.numTracks)
  match splitHeaderLoop h trackSources h.numTracks 0 buffer dest with
  | Except.error e => Except.error e
  | Except.ok hb =>
    let bufLength := hb.1.length
    let w := fwrite hb.1 hb.2
    if w.1 < bufLength then
      Except.error EADFError.WRITEERROR
    else
      splitPayloadLoop h trackSources h.numTracks 0 f w.2

/-! ## Comparing tracks -/

abbrev COMMAND_BUFSIZE : Nat := 1024

inductive CommandError where
  | NOERROROR
  | UNKNOWNCOMMMAND
  | WRONGNUMBEROFARGS
  | NOMEMORY
  | CANNOTOPENFILE
  | INVALIDFILE
  | MERGEERROR
  | INVALIDTRACKSPEC
  | READERROR
  | SEEKERROR
  | EOFERROR
  | INTERNALERROR
  deriving DecidableEq

/-- The C library `memcmp` on the first `n` bytes of two buffers. -/
def memcmp : List Nat → List Nat → Nat → Int
  | a :: s1, b :: s2, n + 1 => if a ≠ b then (a : Int) - (b : Int) else memcmp s1 s2 n
  | _, _, _ => 0

/-- The value `command_errno` receives after a short read in `compareTracks`:
`INVALIDFILE`, replaced by `EOFERROR` if `feof`, else by `READERROR` if `ferror`. -/
def compareErrno (f : FILE) : CommandError :=
  if feof f then CommandError.EOFERROR
  else if ferror f then CommandError.READERROR
  else CommandError.INVALIDFILE

/-- The loop of `compareTracks`:
`for (; numBytes > 0; numBytes -= COMMAND_BUFSIZE)`, bounded as `copyLoop` is.  The
result holds the value stored in `*result` and the two streams. -/
def compareLoop : (fuel : Nat) → (numBytes : Int) → numBytes ≤ 1024 * (fuel : Int) →
    FILE → FILE → Except CommandError (Int × FILE × FILE)
  | 0, _, _, f1, f2 => Except.ok (0, f1, f2)
  | fuel + 1, numBytes, hb, f1, f2 =>
    if numBytes > 0 then
      let count : Nat :=
        if numBytes > (COMMAND_BUFSIZE : Int) then COMMAND_BUFSIZE else numBytes.toNat
      let r1 := fread count f1
      if r1.1.length ≠ count then
        Except.error (compareErrno r1.2)
      else
        let r2 := fread count f2
        if r2.1.length ≠ count then
          Except.error (compareErrno r2.2)
        else if memcmp r1.1 r2.1 count ≠ 0 then
          Except.ok (1, r1.2, r2.2)
        else
          compareLoop fuel (numBytes - (COMMAND_BUFSIZE : Int))
            (by simp only [COMMAND_BUFSIZE]; push_cast at hb ⊢; omega) r1.2 r2.2
    else
      Except.ok (0, f1, f2)

/-- Compare the specified track of two extended ADF files.  The first component of the
result is the value stored in `*result`: zero if the tracks are equal, non-zero
otherwise. -/
def compareTracks (h1 : EADFHeader) (f1 : FILE) (h2 : EADFHeader) (f2 : FILE) (track : Nat) :
    Except CommandError (Int × FILE × FILE) :=
  if track > h1.numTracks
      ∨ track > h2.numTracks
      ∨ h1.trackType track ≠ h2.trackType track
      ∨ h1.trackSizeBytes track ≠ h2.trackSizeBytes track
      ∨ h1.trackSizeBits track ≠ h2.trackSizeBits track then
    Except.ok (1, f1, f2)
  else
    let s1 := fseek f1 (longFromULong (h1.trackOffset track))
    if s1.1 < 0 then
      Except.error CommandError.SEEKERROR
    else
      let s2 := fseek f2 (longFromULong (h2.trackOffset track))
      if s2.1 < 0 then
        Except.error CommandError.SEEKERROR
      else
        let numBytes := longFromULong (h1.trackSizeBytes track)
        compareLoop numBytes.toNat numBytes (by omega) s1.2 s2.2

/-- One line of the table `printComparison` prints: the track number, the type, byte
length and bit length shown for each side, and the character of the last column. -/
structure ComparisonRow where
  track : Nat
  type1 : Nat
  bytes1 : Int
  bits1 : Int
  type2 : Nat
  bytes2 : Int
  bits2 : Int
  diff : Char

/-- The loop of `printComparison`:
`for (track = 0; track < numTracks; track++)`, first argument as before; `rows` are the
lines printed so far. -/
def printComparisonLoop (h1 h2 : EADFHeader) :
    Nat → Nat → FILE → FILE → List ComparisonRow →
      Except CommandError (List ComparisonRow × FILE × FILE)
  | 0, _, f1, f2, rows => Except.ok (rows, f1, f2)
  | k + 1, track, f1, f2, rows =>
    let type1 := if track < h1.numTracks then h1.trackType track else EADFTRACKTYPE_RAW
    let bytes1 := if track < h1.numTracks then longFromULong (h1.trackSizeBytes track) else 0
    let bits1 := if track < h1.numTracks then longFromULong (h1.trackSizeBits track) else 0
    let type2 := if track < h2.numTracks then h2.trackType track else EADFTRACKTYPE_RAW
    let bytes2 := if track < h2.numTracks then longFromULong (h2.trackSizeBytes track) else 0
    let bits2 := if track < h2.numTracks then longFromULong (h2.trackSizeBits track) else 0
    match compareTracks h1 f1 h2 f2 track with
    | Except.error e => Except.error e
    | Except.ok c =>
      let diff := if c.1 = 0 then ' ' else '*'
      let row : ComparisonRow :=
        { track := track, type1 := type1, bytes1 := bytes1, bits1 := bits1,
          type2 := type2, bytes2 := bytes2, bits2 := bits2, diff := diff }
      printComparisonLoop h1 h2 k (track + 1) c.2.1 c.2.2 (rows ++ [row])

/-- The function `printComparison`; the result holds the lines of the table below its
heading. -/
def printComparison (h1 : EADFHeader) (f1 : FILE) (h2 : EADFHeader) (f2 : FILE) :
    Except CommandError (List ComparisonRow × FILE × FILE) :=
  let numTracks := if h1.numTracks > h2.numTracks then h1.numTracks else h2.numTracks
  printComparisonLoop h1 h2 numTracks 0 f1 f2 []

/-! ## Track source policies -/

inductive CommandStatus where
  | SUCCESS
  | FAILURE
  deriving DecidableEq

/-- The loop of `mergeTrackSourceCallback`, first argument as before. -/
def mergeTrackSourceLoop (h1 h2 : EADFHeader) :
    Nat → Nat → (Nat → EADFTrackSource) → (Nat → EADFTrackSource)
  | 0, _, trackSources => trackSources
  | k + 1, track, trackSources =>
    let trackSources :=
      if track ≥ h2.numTracks
          ∨ (track < h1.numTracks ∧ h1.trackSizeBytes track > 0)
          ∨ (track < h1.numTracks ∧ h2.trackSizeBytes track = 0) then
        Function.update trackSources track EADFTrackSource.SOURCE1
      else
        Function.update trackSources track EADFTrackSource.SOURCE2
    mergeTrackSourceLoop h1 h2 k (track + 1) trackSources

/-- Populate an EADFTrackSource array using source1 for each track unless it is an empty
(zero bytes in length) track and the corresponding track in source2 is non-empty.
The `data` argument of the C function is unused. -/
def mergeTrackSourceCallback (trackSources : Nat → EADFTrackSource) (h1 h2 : EADFHeader) :
    CommandStatus × (Nat → EADFTrackSource) :=
  let numTracks := if h1.numTracks > h2.numTracks then h1.numTracks else h2.numTracks
  (CommandStatus.SUCCESS, mergeTrackSourceLoop h1 h2 numTracks 0 trackSources)

/-- The loop of `dosMergeTrackSourceCallback`, first argument as before. -/
def dosMergeTrackSourceLoop (h1 h2 : EADFHeader) :
    Nat → Nat → (Nat → EADFTrackSource) → (Nat → EADFTrackSource)
  | 0, _, trackSources => trackSources
  | k + 1, track, trackSources =>
    let trackSources :=
      if track ≥ h2.numTracks
          ∨ (track < h1.numTracks
              ∧ (h1.trackType track = EADFTRACKTYPE_DOS
                  ∨ h2.trackType track = EADFTRACKTYPE_RAW)) then
        Function.update trackSources track EADFTrackSource.SOURCE1
      else
        Function.update trackSources track EADFTrackSource.SOURCE2
    dosMergeTrackSourceLoop h1 h2 k (track + 1) trackSources

/-- Populate an EADFTrackSource array using source1 for each track unless it is a non-DOS
track and the corresponding track from source2 is a DOS track.
The `data` argument of the C function is unused. -/
def dosMergeTrackSourceCallback (trackSources : Nat → EADFTrackSource) (h1 h2 : EADFHeader) :
    CommandStatus × (Nat → EADFTrackSource) :=
  let numTracks := if h1.numTracks > h2.numTracks then h1.numTracks else h2.numTracks
  (CommandStatus.SUCCESS, dosMergeTrackSourceLoop h1 h2 numTracks 0 trackSources)

/-- The eight magic bytes as they stand in a file (no terminator). -/
def magicBytes : List Nat := EADF_MAGIC.take EADF_MAGICLEN

/-- A stream that holds the magic, a track count of at most 166 and the whole
track table. -/
def CompleteTable (s : List Nat) : Prop :=
  s.take 8 = magicBytes ∧ longFromBigEndianBytes (s.drop 8) ≤ 166
    ∧ 12 + 12 * longFromBigEndianBytes (s.drop 8) ≤ s.length


/-! ## Track specifications

A C string is the list of its characters before the terminating NUL. -/

abbrev LONG_MAX : Int := 2 ^ 63 - 1
abbrev LONG_MIN : Int := -(2 ^ 63)

/-- The character `s[0]` of a C string: its first character, or NUL at the end. -/
def firstChar (s : List Char) : Char := s.headD (Char.ofNat 0)

/-- The C library `isspace` in the C locale: space, and the characters 9 to 13. -/
def isspace (c : Char) : Bool := decide (c.toNat = 32 ∨ (9 ≤ c.toNat ∧ c.toNat ≤ 13))

/-- The C library `isdigit`. -/
def isdigit (c : Char) : Bool := decide (48 ≤ c.toNat ∧ c.toNat ≤ 57)

/-- Skip the white space `strtol` ignores at the start of its subject. -/
def skipSpaces : List Char → List Char
  | [] => []
  | c :: s => if isspace c then skipSpaces s else c :: s

/-- The digit scan of `strtol` in base 10: the value of the digits read (added to `acc`),
whether any digit was read, and the rest of the string. -/
def scanDigits : List Char → Nat → Bool → Nat × Bool × List Char
  | [], acc, seen => (acc, seen, [])
  | c :: s, acc, seen =>
    if isdigit c then scanDigits s (10 * acc + (c.toNat - 48)) true
    else (acc, seen, c :: s)

/-- The call `strtol(nptr, &endptr, 10)`: the value returned and the string `endptr`
points to.  White space is skipped, one sign is accepted, then decimal digits; without a
digit the value is 0 and `endptr` is `nptr`; a value outside `long` is clamped. -/
def strtol (nptr : List Char) : Int × List Char :=
  let s := skipSpaces nptr
  let neg := decide (firstChar s = '-')
  let s := if firstChar s = '-' ∨ firstChar s = '+' then s.tail else s
  let d := scanDigits s 0 false
  if d.2.1 = false then
    (0, nptr)
  else
    let v : Int := if neg then -(d.1 : Int) else (d.1 : Int)
    (if v > LONG_MAX then LONG_MAX else if v < LONG_MIN then LONG_MIN else v, d.2.2)

/-- The range loop of `parseTrackSpecs`:
`for (track = val1; track <= val2; track++)`; the first argument counts the iterations
that remain (`val2 - track + 1`). -/
def fillRange (value : EADFTrackSource) :
    Nat → Int → (Nat → EADFTrackSource) → (Nat → EADFTrackSource)
  | 0, _, trackSources => trackSources
  | k + 1, track, trackSources =>
    fillRange value k (track + 1) (Function.update trackSources track.toNat value)

/-- The function `parseTrackSpecs`, on the arguments `argv[start]` to `argv[argc - 1]`. -/
def parseTrackSpecs : List (List Char) → (Nat → EADFTrackSource) → EADFTrackSource →
    Except CommandError (Nat → EADFTrackSource)
  | [], trackSources, _ => Except.ok trackSources
  | arg :: args, trackSources, value =>
    let r := strtol arg
    let val1 := r.1
    let endptr := r.2
    if (firstChar endptr ≠ Char.ofNat 0 ∧ firstChar endptr ≠ '-')
        ∨ val1 < 0
        ∨ val1 ≥ (EADF_MAXTRACKS : Int) then
      Except.error CommandError.INVALIDTRACKSPEC
    else if firstChar endptr = Char.ofNat 0 then
      parseTrackSpecs args (Function.update trackSources val1.toNat value) value
    else
      let r := strtol endptr.tail
      let val2 := r.1
      let endptr := r.2
      if firstChar endptr ≠ Char.ofNat 0 ∨ val2 < val1 ∨ val2 ≥ (EADF_MAXTRACKS : Int) then
        Except.error CommandError.INVALIDTRACKSPEC
      else
        parseTrackSpecs args (fillRange value (val2 - val1 + 1).toNat val1 trackSources) value

/-! ## The replace command -/

/-- The loop of `replaceTrackSourceCallback`:
`for (track = 0; track < numTracks; track++)`, first argument as before. -/
def replaceTrackSourceLoop (replacements : Nat → EADFTrackSource) :
    Nat → Nat → (Nat → EADFTrackSource) → (Nat → EADFTrackSource)
  | 0, _, trackSources => trackSources
  | k + 1, track, trackSources =>
    replaceTrackSourceLoop replacements k (track + 1)
      (Function.update trackSources track (replacements track))

/-- Populate an EADFTrackSource array using the supplied data (which should be a pointer to
an EADFTrackSource array).  The counters of the C function are `long`. -/
def replaceTrackSourceCallback (trackSources : Nat → EADFTrackSource) (h1 h2 : EADFHeader)
    (data : Nat → EADFTrackSource) : CommandStatus × (Nat → EADFTrackSource) :=
  let replacements := data
  let numTracks : Int :=
    longFromULong (if h1.numTracks > h2.numTracks then h1.numTracks else h2.numTracks)
  (CommandStatus.SUCCESS, replaceTrackSourceLoop replacements numTracks.toNat 0 trackSources)

/-- The loop `for (track = 0; track < EADF_MAXTRACKS; track++) array[track] = value;` of
`executeReplaceCommand` and `executeSplitCommand`, first argument as before. -/
def fillTrackSources (value : EADFTrackSource) :
    Nat → Nat → (Nat → EADFTrackSource) → (Nat → EADFTrackSource)
  | 0, _, array => array
  | k + 1, track, array =>
    fillTrackSources value k (track + 1) (Function.update array track value)

/-- Merge two extended ADF files.  The streams are the three files as `fopen` returns
them; `h1` and `h2` are the header memory `malloc` returns and `trackSources` the array on
the stack, as they are before the call; `command_errno` is the global before the call,
which a failing callback leaves as the error. -/
def mergeFiles (command_errno : CommandError) (h1 h2 : EADFHeader) (f1 f2 : FILE) (f3 : OutFILE)
    (trackSources : Nat → EADFTrackSource)
    (callback : (Nat → EADFTrackSource) → EADFHeader → EADFHeader →
      CommandStatus × (Nat → EADFTrackSource)) :
    Except CommandError (FILE × FILE × OutFILE) :=
  match eadfHeaderInitWithFile h1 f1 with
  | Except.error _ => Except.error CommandError.INVALIDFILE
  | Except.ok (h1, f1) =>
    match eadfHeaderInitWithFile h2 f2 with
    | Except.error _ => Except.error CommandError.INVALIDFILE
    | Except.ok (h2, f2) =>
      let c := callback trackSources h1 h2
      if c.1 = CommandStatus.FAILURE then
        Except.error command_errno
      else
        match eadfMergeFiles h1 f1 h2 f2 f3 c.2 with
        | Except.error _ => Except.error CommandError.MERGEERROR
        | Except.ok r => Except.ok r

/-- The function `executeReplaceCommand`; `specs` are the arguments `argv[5]` to
`argv[argc - 1]`, the streams are the files named by `argv[2]`, `argv[3]` and `argv[4]`,
and `replacements` is the array on the stack before the call. -/
def executeReplaceCommand (command_errno : CommandError) (specs : List (List Char))
    (replacements : Nat → EADFTrackSource) (h1 h2 : EADFHeader) (f1 f2 : FILE) (f3 : OutFILE)
    (trackSources : Nat → EADFTrackSource) : Except CommandError (FILE × FILE × OutFILE) :=
  let argc := 5 + specs.length
  if argc < 6 then
    Except.error CommandError.WRONGNUMBEROFARGS
  else
    let replacements :=
      fillTrackSources EADFTrackSource.SOURCE1 EADF_MAXTRACKS 0 replacements
    match parseTrackSpecs specs replacements EADFTrackSource.SOURCE2 with
    | Except.error e => Except.error e
    | Except.ok replacements =>
      mergeFiles command_errno h1 h2 f1 f2 f3 trackSources
        (fun trackSources h1 h2 => replaceTrackSourceCallback trackSources h1 h2 replacements)

/-! ## The output layout in the words of the specification

These definitions are not translated from the C code: they state what the
specification says the output is, and the theorems compare them with the
functions above. -/

/-- The (type, byte length, bit length) of output track `i` of a merge: source 1's when the
decision is Source1 and `i < count1`, source 2's when the decision is Source2 and
`i < count2`, and (RAW, 0, 0) otherwise. -/
def mergedRecord (h1 h2 : EADFHeader) (trackSources : Nat → EADFTrackSource) (i : Nat) :
    Nat × Nat × Nat :=
  if trackSources i = EADFTrackSource.SOURCE1 ∧ i < h1.numTracks then
    (h1.trackType i, h1.trackSizeBytes i, h1.trackSizeBits i)
  else if trackSources i = EADFTrackSource.SOURCE2 ∧ i < h2.numTracks then
    (h2.trackType i, h2.trackSizeBytes i, h2.trackSizeBits i)
  else
    (EADFTRACKTYPE_RAW, 0, 0)

/-- The wire form of a track record: 4-byte big-endian type code, byte length and bit
length. -/
def recordBytes (r : Nat × Nat × Nat) : List Nat :=
  bigEndianBytesFromLong (r.1 : Int) ++ bigEndianBytesFromLong (r.2.1 : Int)
    ++ bigEndianBytesFromLong (r.2.2 : Int)

/-- The header block of a container with `n` tracks: the magic, the big-endian count and the
`n` records in index order. -/
def headerBlock (n : Nat) (record : Nat → Nat × Nat × Nat) : List Nat :=
  [85, 65, 69, 45, 49, 65, 68, 70] ++ bigEndianBytesFromLong (n : Int)
    ++ (List.range n).flatMap (fun i => recordBytes (record i))

/-- The payload of track `i` of a source: `trackSizeBytes[i]` bytes of the stream starting at
`trackOffset[i]`. -/
def trackBytes (h : EADFHeader) (s : List Nat) (i : Nat) : List Nat :=
  (s.drop (h.trackOffset i)).take (h.trackSizeBytes i)

/-- The same with the offset and the size as the engines read them into `long` variables;
for an index below the track count of a parsed header it is `trackBytes`. -/
def copiedBytes (h : EADFHeader) (s : List Nat) (i : Nat) : List Nat :=
  (s.drop (longFromULong (h.trackOffset i)).toNat).take (longFromULong (h.trackSizeBytes i)).toNat

/-- The payload bytes a merge contributes for output track `i`. -/
def mergedPayload (h1 : EADFHeader) (s1 : List Nat) (h2 : EADFHeader) (s2 : List Nat)
    (trackSources : Nat → EADFTrackSource) (i : Nat) : List Nat :=
  match trackSources i with
  | EADFTrackSource.SOURCE1 => copiedBytes h1 s1 i
  | EADFTrackSource.SOURCE2 => copiedBytes h2 s2 i
  | EADFTrackSource.NONE => []

/-- The number of bytes the engines copy for a selected track: the track size as they
read it into a `long` variable. -/
def copiedLength (h : EADFHeader) (i : Nat) : Nat := (longFromULong (h.trackSizeBytes i)).toNat

/-- Every track of the header lies within the stream: the stream holds the payload the
header declares. -/
def HoldsPayload (h : EADFHeader) (s : List Nat) : Prop :=
  ∀ i, i < h.numTracks → h.trackOffset i + h.trackSizeBytes i ≤ s.length

/-- The payload of output track `i` of a merge: the track of the source the decision
names, nothing for None. -/
def selectedTrack (h1 : EADFHeader) (s1 : List Nat) (h2 : EADFHeader) (s2 : List Nat)
    (trackSources : Nat → EADFTrackSource) (i : Nat) : List Nat :=
  match trackSources i with
  | EADFTrackSource.SOURCE1 => trackBytes h1 s1 i
  | EADFTrackSource.SOURCE2 => trackBytes h2 s2 i
  | EADFTrackSource.NONE => []

/-- The (type, byte length, bit length) of output track `i` of a split: the source's when
the decision is Source1, and (RAW, 0, 0) otherwise. -/
def splitRecord (h : EADFHeader) (trackSources : Nat → EADFTrackSource) (i : Nat) :
    Nat × Nat × Nat :=
  if trackSources i = EADFTrackSource.SOURCE1 then
    (h.trackType i, h.trackSizeBytes i, h.trackSizeBits i)
  else
    (EADFTRACKTYPE_RAW, 0, 0)

/-- The payload of output track `i` of a split: the source's track when the decision is
Source1, nothing otherwise. -/
def splitTrack (h : EADFHeader) (s : List Nat) (trackSources : Nat → EADFTrackSource)
    (i : Nat) : List Nat :=
  if trackSources i = EADFTrackSource.SOURCE1 then trackBytes h s i else []

/-- The payload bytes a split contributes for output track `i`. -/
def splitPayload (h : EADFHeader) (s : List Nat) (trackSources : Nat → EADFTrackSource)
    (i : Nat) : List Nat :=
  if trackSources i = EADFTrackSource.SOURCE1 then copiedBytes h s i else []

/-- The twelve bytes the header loop of `eadfSplitFile` stores at `upto` for a track. -/
def splitRecordBytes (h : EADFHeader) (trackSources : Nat → EADFTrackSource)
    (track : Nat) : List Nat :=
  if trackSources track = EADFTrackSource.SOURCE1 then
    bigEndianBytesFromLong (h.trackType track : Int)
      ++ bigEndianBytesFromLong (longFromULong (h.trackSizeBytes track))
      ++ bigEndianBytesFromLong (longFromULong (h.trackSizeBits track))
  else
    bigEndianBytesFromLong (EADFTRACKTYPE_RAW : Int)
      ++ bigEndianBytesFromLong 0
      ++ bigEndianBytesFromLong 0

/-- A decision array that names, below `n`, only sources that have the track. -/
def InRange (h1 h2 : EADFHeader) (trackSources : Nat → EADFTrackSource) (n : Nat) : Prop :=
  ∀ i, i < n →
    (trackSources i = EADFTrackSource.SOURCE1 → i < h1.numTracks)
    ∧ (trackSources i = EADFTrackSource.SOURCE2 → i < h2.numTracks)

/-- Track `i` of the header can be sought and read in full from the stream. -/
def Avail (h : EADFHeader) (s : List Nat) (i : Nat) : Prop :=
  0 ≤ longFromULong (h.trackOffset i)
    ∧ (longFromULong (h.trackSizeBytes i)).toNat
        ≤ s.length - (longFromULong (h.trackOffset i)).toNat

/-- Track `i` of the parsed output equals track `i` of a source: the output parses, and its
type, byte length, bit length and the payload bytes found at its recomputed offset are
those of the source's track. -/
def OutputTrackEq (out : List Nat) (i : Nat) (h0 : EADFHeader) (s0 : List Nat) : Prop :=
  ∀ g, ∃ h f, eadfHeaderInitWithFile g (openStream out) = Except.ok (h, f)
    ∧ h.trackType i = h0.trackType i
    ∧ h.trackSizeBytes i = h0.trackSizeBytes i
    ∧ h.trackSizeBits i = h0.trackSizeBits i
    ∧ trackBytes h out i = trackBytes h0 s0 i

/-- A non-empty string of decimal digits. -/
def IsDigits (l : List Char) : Prop := l ≠ [] ∧ ∀ c ∈ l, isdigit c = true

/-- The number a string of decimal digits denotes in base 10. -/
def digitsValue (l : List Char) : Nat := l.foldl (fun acc c => 10 * acc + (c.toNat - 48)) 0

/-- A well-formed track specification covering the indices `a` to `b`: a base-10 integer
`N` with `N < 166` (then `a = b = N`), or a range `A-B` with `A ≤ B < 166` (then `a = A`,
`b = B`). -/
def WellFormedSpec (t : List Char) (a b : Nat) : Prop :=
  (IsDigits t ∧ digitsValue t = a ∧ b = a ∧ a < 166)
    ∨ ∃ d1 d2, t = d1 ++ '-' :: d2 ∧ IsDigits d1 ∧ IsDigits d2
        ∧ digitsValue d1 = a ∧ digitsValue d2 = b ∧ a ≤ b ∧ b < 166

/-- Index `i` is covered by one of the ranges. -/
def Covered (ranges : List (Nat × Nat)) (i : Nat) : Prop :=
  ∃ ab ∈ ranges, ab.1 ≤ i ∧ i ≤ ab.2

/-- The twelve bytes the header loop of `eadfMergeFiles` stores at `upto` for a track. -/
def mergeRecordBytes (h1 h2 : EADFHeader) (trackSources : Nat → EADFTrackSource)
    (track : Nat) : List Nat :=
  if trackSources track = EADFTrackSource.SOURCE1 ∧ track < h1.numTracks then
    bigEndianBytesFromLong (h1.trackType track : Int)
      ++ bigEndianBytesFromLong (longFromULong (h1.trackSizeBytes track))
      ++ bigEndianBytesFromLong (longFromULong (h1.trackSizeBits track))
  else if trackSources track = EADFTrackSource.SOURCE2 ∧ track < h2.numTracks then
    bigEndianBytesFromLong (h2.trackType track : Int)
      ++ bigEndianBytesFromLong (longFromULong (h2.trackSizeBytes track))
      ++ bigEndianBytesFromLong (longFromULong (h2.trackSizeBits track))
  else
    bigEndianBytesFromLong (EADFTRACKTYPE_RAW : Int)
      ++ bigEndianBytesFromLong 0
      ++ bigEndianBytesFromLong 0

/-! ## Sample data -/

/-- Header memory before any parse: all fields zero. -/
def blankHeader : EADFHeader :=
  { magic := [], numTracks := 0, trackType := fun _ => 0, trackSizeBytes := fun _ => 0,
    trackSizeBits := fun _ => 0, trackOffset := fun _ => 0 }

/-- A two-track image: a DOS track of 3 bytes (24 bits) and a RAW track of 2 bytes
(13 bits), followed by the five payload bytes. -/
def sampleImage : List Nat :=
  magicBytes ++ [0, 0, 0, 2]
    ++ [0, 0, 0, 0, 0, 0, 0, 3, 0, 0, 0, 24]
    ++ [0, 0, 0, 1, 0, 0, 0, 2, 0, 0, 0, 13]
    ++ [10, 11, 12, 20, 21]

/-- The header `eadfHeaderInitWithFile` leaves in blank memory for the stream `s`
(blank when the parse fails). -/
def parsedHeader (s : List Nat) : EADFHeader :=
  match eadfHeaderInitWithFile blankHeader (openStream s) with
  | Except.ok (h, _) => h
  | Except.error _ => blankHeader

/-- The stream `s` with the position after the header block of `n` records. -/
def afterHeader (s : List Nat) (n : Nat) : FILE :=
  { data := s, pos := 12 + 12 * n, eof := false, err := false }

/-- The image `sampleImage` with the type code of its second record changed to 2. -/
def badTypeImage : List Nat :=
  magicBytes ++ [0, 0, 0, 2]
    ++ [0, 0, 0, 0, 0, 0, 0, 3, 0, 0, 0, 24]
    ++ [0, 0, 0, 2, 0, 0, 0, 2, 0, 0, 0, 13]
    ++ [10, 11, 12, 20, 21]
/-- A second two-track image: an empty RAW track and a DOS track of 4 bytes (32 bits). -/
def sampleImage2 : List Nat :=
  magicBytes ++ [0, 0, 0, 2]
    ++ [0, 0, 0, 1, 0, 0, 0, 0, 0, 0, 0, 0]
    ++ [0, 0, 0, 0, 0, 0, 0, 4, 0, 0, 0, 32]
    ++ [30, 31, 32, 33]

/-- Decisions taking track 0 from the first source and track 1 from the second. -/
def sampleSources : Nat → EADFTrackSource :=
  fun i => if i = 0 then EADFTrackSource.SOURCE1 else EADFTrackSource.SOURCE2

/-- The streams a merge leaves behind (three empty streams when the merge fails). -/
def mergeResult (r : Except EADFError (FILE × FILE × OutFILE)) : FILE × FILE × OutFILE :=
  match r with
  | Except.ok x => x
  | Except.error _ => (openStream [], openStream [], createStream none)

/-- The merge of the two sample images under `sampleSources`, into an unbounded
destination. -/
def sampleMerge : Except EADFError (FILE × FILE × OutFILE) :=
  eadfMergeFiles (parsedHeader sampleImage) (afterHeader sampleImage 2)
    (parsedHeader sampleImage2) (afterHeader sampleImage2 2) (createStream none) sampleSources

/-- A source with 10 tracks, all RAW, 1024 bytes each. -/
def tenTrackImage : List Nat :=
  headerBlock 10 (fun _ => (EADFTRACKTYPE_RAW, 1024, 8192))
    ++ (List.range 10).flatMap (fun i => List.replicate 1024 (i + 1))

/-- A source with 12 tracks: tracks 0 to 9 RAW with 1024 bytes each, tracks 10 and 11 DOS
with 512 bytes each. -/
def twelveTrackImage : List Nat :=
  headerBlock 12
      (fun i => if i < 10 then (EADFTRACKTYPE_RAW, 1024, 8192) else (EADFTRACKTYPE_DOS, 512, 4096))
    ++ (List.range 12).flatMap (fun i => List.replicate (if i < 10 then 1024 else 512) (i + 101))

/-- The streams a split leaves behind (two empty streams when the split fails). -/
def splitResult (r : Except EADFError (FILE × OutFILE)) : FILE × OutFILE :=
  match r with
  | Except.ok x => x
  | Except.error _ => (openStream [], createStream none)

/-- The image `sampleImage` with the last payload byte changed. -/
def sampleImage3 : List Nat :=
  magicBytes ++ [0, 0, 0, 2]
    ++ [0, 0, 0, 0, 0, 0, 0, 3, 0, 0, 0, 24]
    ++ [0, 0, 0, 1, 0, 0, 0, 2, 0, 0, 0, 13]
    ++ [10, 11, 12, 20, 22]

/-- An image with one track: a DOS track of 3 bytes. -/
def oneTrackImage : List Nat :=
  magicBytes ++ [0, 0, 0, 1]
    ++ [0, 0, 0, 0, 0, 0, 0, 3, 0, 0, 0, 24]
    ++ [10, 11, 12]

/-- An image with two tracks: the DOS track of `oneTrackImage` and an empty DOS track
(0 bytes, 0 bits). -/
def twoTrackImage : List Nat :=
  magicBytes ++ [0, 0, 0, 2]
    ++ [0, 0, 0, 0, 0, 0, 0, 3, 0, 0, 0, 24]
    ++ [0, 0, 0, 0, 0, 0, 0, 0, 0, 0, 0, 0]
    ++ [10, 11, 12]

/-- The value `compareTracks` stores in `*result`, when it succeeds. -/
def compareResult (r : Except CommandError (Int × FILE × FILE)) : Option Int :=
  match r with
  | Except.ok c => some c.1
  | Except.error _ => none

/-- The last column of the table `printComparison` prints, when it succeeds. -/
def comparisonFlags (r : Except CommandError (List ComparisonRow × FILE × FILE)) :
    Option (List Char) :=
  match r with
  | Except.ok c => some (c.1.map (fun row => row.diff))
  | Except.error _ => none

/-- A decision array holding None everywhere. -/
def allNone : Nat → EADFTrackSource := fun _ => EADFTrackSource.NONE

/-- The error of a failed `parseTrackSpecs`. -/
def specError (r : Except CommandError (Nat → EADFTrackSource)) : Option CommandError :=
  match r with
  | Except.ok _ => none
  | Except.error e => some e

/-- Entry `i` of the array a successful `parseTrackSpecs` leaves. -/
def specMark (r : Except CommandError (Nat → EADFTrackSource)) (i : Nat) :
    Option EADFTrackSource :=
  match r with
  | Except.ok trackSources => some (trackSources i)
  | Except.error _ => none

/-- An image with `n` empty RAW tracks and no payload. -/
def emptyImage (n : Nat) : List Nat :=
  headerBlock n (fun _ => (EADFTRACKTYPE_RAW, 0, 0))
    ++ (List.range n).flatMap (fun _ => ([] : List Nat))

/-- Header memory that is not blank: an earlier use of the memory left a byte length of 1
in `trackSizeBytes[1]`. -/
def staleHeader : EADFHeader :=
  { magic := [], numTracks := 0, trackType := fun _ => 0,
    trackSizeBytes := fun i => if i = 1 then 1 else 0,
    trackSizeBits := fun _ => 0, trackOffset := fun _ => 0 }

/-- The header `eadfHeaderInitWithFile` leaves in the memory `g` for the stream `s`
(`g` itself when the parse fails). -/
def parsedInto (g : EADFHeader) (s : List Nat) : EADFHeader :=
  match eadfHeaderInitWithFile g (openStream s) with
  | Except.ok (h, _) => h
  | Except.error _ => g

/-- An image with three tracks: a DOS track of 3 bytes, an empty RAW track and a DOS track
of 2 bytes. -/
def threeTrackImage : List Nat :=
  magicBytes ++ [0, 0, 0, 3]
    ++ [0, 0, 0, 0, 0, 0, 0, 3, 0, 0, 0, 24]
    ++ [0, 0, 0, 1, 0, 0, 0, 0, 0, 0, 0, 0]
    ++ [0, 0, 0, 0, 0, 0, 0, 2, 0, 0, 0, 16]
    ++ [10, 11, 12, 40, 41]

/-- The bytes a command leaves in the destination, when it succeeds. -/
def commandOutput (r : Except CommandError (FILE × FILE × OutFILE)) : Option (List Nat) :=
  match r with
  | Except.ok x => some x.2.2.data
  | Except.error _ => none

/-- The bytes `eadfMergeFiles` leaves in the destination, when it succeeds. -/
def mergeOutput (r : Except EADFError (FILE × FILE × OutFILE)) : Option (List Nat) :=
  match r with
  | Except.ok x => some x.2.2.data
  | Except.error _ => none

/-- The sum of the byte lengths the records of a header declare. -/
def declaredPayload (h : EADFHeader) : Nat :=
  ((List.range h.numTracks).map h.trackSizeBytes).sum

/-- The output of `replace` on `oneTrackImage` and `threeTrackImage` with the track spec
"2", when the header memory of source 1 is `staleHeader`. -/
def replaceSampleOutput : List Nat :=
  magicBytes ++ [0, 0, 0, 3]
    ++ [0, 0, 0, 0, 0, 0, 0, 3, 0, 0, 0, 24]
    ++ [0, 0, 0, 1, 0, 0, 0, 0, 0, 0, 0, 0]
    ++ [0, 0, 0, 0, 0, 0, 0, 2, 0, 0, 0, 16]
    ++ [10, 11, 12, 85, 40, 41]

/-- Decisions that take every track from source 1. -/
def allSource1 : Nat → EADFTrackSource := fun _ => EADFTrackSource.SOURCE1

/-- The header phase of `eadfMergeFiles`, the statements before the payload loop: the
destination once the last part of the header has been written. -/
def mergeHeaderPhase (h1 h2 : EADFHeader) (dest : OutFILE)
    (trackSources : Nat → EADFTrackSource) : Except EADFError OutFILE :=
  let buffer := EADF_MAGIC.take EADF_MAGICLEN
  let numTracks := if h1.numTracks > h2.numTracks then h1.numTracks else h2.numTracks
  let buffer := buffer ++ bigEndianBytesFromLong (longFromULong numTracks)
  match mergeHeaderLoop h1 h2 trackSources numTracks 0 buffer dest with
  | Except.error e => Except.error e
  | Except.ok hb =>
    let bufLength := hb.1.length
    let w := fwrite hb.1 hb.2
    if w.1 < bufLength then
      Except.error EADFError.WRITEERROR
    else
      Except.ok w.2

/-- The header phase of `eadfSplitFile`, the statements before the payload loop. -/
def splitHeaderPhase (h : EADFHeader) (dest : OutFILE)
    (trackSources : Nat → EADFTrackSource) : Except EADFError OutFILE :=
  let buffer := EADF_MAGIC.take EADF_MAGICLEN
  let buffer := buffer ++ bigEndianBytesFromLong (longFromULong h.numTracks)
  match splitHeaderLoop h trackSources h.numTracks 0 buffer dest with
  | Except.error e => Except.error e
  | Except.ok hb =>
    let bufLength := hb.1.length
    let w := fwrite hb.1 hb.2
    if w.1 < bufLength then
      Except.error EADFError.WRITEERROR
    else
      Except.ok w.2

/-- One iteration of the header loop of `eadfMergeFiles`, the body of
`for (track = 0; track < numTracks; track++)`: the record is stored at `upto`, which is
`buffer.length` bytes into the C buffer, and the buffer is flushed when it holds more than
`EADF_BUFSIZE - EADF_BYTESPERRECORD` bytes. -/
def mergeHeaderStep (h1 h2 : EADFHeader) (trackSources : Nat → EADFTrackSource) (track : Nat)
    (buffer : List Nat) (dest : OutFILE) : Except EADFError (List Nat × OutFILE) :=
  let buffer := buffer ++ mergeRecordBytes h1 h2 trackSources track
  let bufLength := buffer.length
  if bufLength > EADF_BUFSIZE - EADF_BYTESPERRECORD then
    let w := fwrite buffer dest
    if w.1 < bufLength then
      Except.error EADFError.WRITEERROR
    else
      Except.ok ([], w.2)
  else
    Except.ok (buffer, dest)

/-- The buffer contents before `upto` and the destination at the head of iteration `track`
of the header loop of `eadfMergeFiles` (after the loop, for `track = numTracks`). -/
def mergeHeaderAt (h1 h2 : EADFHeader) (trackSources : Nat → EADFTrackSource) (dest : OutFILE) :
    Nat → Except EADFError (List Nat × OutFILE)
  | 0 =>
    Except.ok (EADF_MAGIC.take EADF_MAGICLEN
      ++ bigEndianBytesFromLong (longFromULong
          (if h1.numTracks > h2.numTracks then h1.numTracks else h2.numTracks)), dest)
  | track + 1 =>
    match mergeHeaderAt h1 h2 trackSources dest track with
    | Except.error e => Except.error e
    | Except.ok s => mergeHeaderStep h1 h2 trackSources track s.1 s.2

/-- One iteration of the header loop of `eadfSplitFile`. -/
def splitHeaderStep (h : EADFHeader) (trackSources : Nat → EADFTrackSource) (track : Nat)
    (buffer : List Nat) (dest : OutFILE) : Except EADFError (List Nat × OutFILE) :=
  let buffer := buffer ++ splitRecordBytes h trackSources track
  let bufLength := buffer.length
  if bufLength > EADF_BUFSIZE - EADF_BYTESPERRECORD then
    let w := fwrite buffer dest
    if w.1 < bufLength then
      Except.error EADFError.WRITEERROR
    else
      Except.ok ([], w.2)
  else
    Except.ok (buffer, dest)

/-- The buffer contents before `upto` and the destination at the head of iteration `track`
of the header loop of `eadfSplitFile`. -/
def splitHeaderAt (h : EADFHeader) (trackSources : Nat → EADFTrackSource) (dest : OutFILE) :
    Nat → Except EADFError (List Nat × OutFILE)
  | 0 =>
    Except.ok (EADF_MAGIC.take EADF_MAGICLEN
      ++ bigEndianBytesFromLong (longFromULong h.numTracks), dest)
  | track + 1 =>
    match splitHeaderAt h trackSources dest track with
    | Except.error e => Except.error e
    | Except.ok s => splitHeaderStep h trackSources track s.1 s.2

/-- Header memory holding the largest track count, 166, and zeros elsewhere. -/
def wideHeader : EADFHeader :=
  { magic := [], numTracks := 166, trackType := fun _ => 0, trackSizeBytes := fun _ => 0,
    trackSizeBits := fun _ => 0, trackOffset := fun _ => 0 }

/-- The number of bytes between the start of the buffer and `upto` in a state of a header
loop (0 when the loop has failed). -/
def uptoOffset (r : Except EADFError (List Nat × OutFILE)) : Nat :=
  match r with
  | Except.ok s => s.1.length
  | Except.error _ => 0

/-- The header `h'` has the track count of `h` and the type and byte length of `h` at every
index below that count; the entries at other indices are unconstrained. -/
def AgreeBelowCount (h h' : EADFHeader) : Prop :=
  h'.numTracks = h.numTracks
    ∧ ∀ i, i < h.numTracks →
        h'.trackType i = h.trackType i ∧ h'.trackSizeBytes i = h.trackSizeBytes i

/-- The function `mergeFiles` with its one call of `eadfMergeFiles` taken as the parameter
`engine`, so that the arguments of that call can be observed; `mergeFiles` itself is
`mergeFilesWith eadfMergeFiles`. -/
def mergeFilesWith
    (engine : EADFHeader → FILE → EADFHeader → FILE → OutFILE → (Nat → EADFTrackSource) →
      Except EADFError (FILE × FILE × OutFILE))
    (command_errno : CommandError) (h1 h2 : EADFHeader) (f1 f2 : FILE) (f3 : OutFILE)
    (trackSources : Nat → EADFTrackSource)
    (callback : (Nat → EADFTrackSource) → EADFHeader → EADFHeader →
      CommandStatus × (Nat → EADFTrackSource)) :
    Except CommandError (FILE × FILE × OutFILE) :=
  match eadfHeaderInitWithFile h1 f1 with
  | Except.error _ => Except.error CommandError.INVALIDFILE
  | Except.ok (h1, f1) =>
    match eadfHeaderInitWithFile h2 f2 with
    | Except.error _ => Except.error CommandError.INVALIDFILE
    | Except.ok (h2, f2) =>
      let c := callback trackSources h1 h2
      if c.1 = CommandStatus.FAILURE then
        Except.error command_errno
      else
        match engine h1 f1 h2 f2 f3 c.2 with
        | Except.error _ => Except.error CommandError.MERGEERROR
        | Except.ok r => Except.ok r

/-- The function `executeReplaceCommand` with the call of `eadfMergeFiles` inside
`mergeFiles` taken as the parameter `engine`; `executeReplaceCommand` itself is
`executeReplaceCommandWith eadfMergeFiles`. -/
def executeReplaceCommandWith
    (engine : EADFHeader → FILE → EADFHeader → FILE → OutFILE → (Nat → EADFTrackSource) →
      Except EADFError (FILE × FILE × OutFILE))
    (command_errno : CommandError) (specs : List (List Char))
    (replacements : Nat → EADFTrackSource) (h1 h2 : EADFHeader) (f1 f2 : FILE) (f3 : OutFILE)
    (trackSources : Nat → EADFTrackSource) : Except CommandError (FILE × FILE × OutFILE) :=
  let argc := 5 + specs.length
  if argc < 6 then
    Except.error CommandError.WRONGNUMBEROFARGS
  else
    let replacements :=
      fillTrackSources EADFTrackSource.SOURCE1 EADF_MAXTRACKS 0 replacements
    match parseTrackSpecs specs replacements EADFTrackSource.SOURCE2 with
    | Except.error e => Except.error e
    | Except.ok replacements =>
      mergeFilesWith engine command_errno h1 h2 f1 f2 f3 trackSources
        (fun trackSources h1 h2 => replaceTrackSourceCallback trackSources h1 h2 replacements)

/-- The decision array of `replace` in the words of the specification: below `n`, Source2
at the indices some range covers and Source1 at the others; from `n` on, the array
`trackSources` as it was. -/
def replaceDecisions (ranges : List (Nat × Nat)) (n : Nat)
    (trackSources : Nat → EADFTrackSource) (i : Nat) : EADFTrackSource :=
  if i < n then
    if ranges.any (fun ab => decide (ab.1 ≤ i ∧ i ≤ ab.2)) then EADFTrackSource.SOURCE2
    else EADFTrackSource.SOURCE1
  else trackSources i

/-- An image with `n` RAW tracks of one byte each, every payload byte being `v`. -/
def filledImage (n v : Nat) : List Nat :=
  headerBlock n (fun _ => (EADFTRACKTYPE_RAW, 1, 8))
    ++ (List.range n).flatMap (fun _ => [v])

/-- An engine that only records the decisions it is called with: it writes one byte for
each of the first `n` decisions (0 for None, 1 for Source1, 2 for Source2). -/
def recordDecisions (n : Nat) (_h1 : EADFHeader) (f1 : FILE) (_h2 : EADFHeader) (f2 : FILE)
    (dest : OutFILE) (trackSources : Nat → EADFTrackSource) :
    Except EADFError (FILE × FILE × OutFILE) :=
  Except.ok (f1, f2,
    (fwrite ((List.range n).map (fun i =>
      match trackSources i with
      | EADFTrackSource.NONE => 0
      | EADFTrackSource.SOURCE1 => 1
      | EADFTrackSource.SOURCE2 => 2)) dest).2)

/-! ## Lemmas on the codec -/

theorem longFromULong_of_lt {x : Nat} (hx : x < 2 ^ 63) : longFromULong x = (x : Int) := by
  have h1 : x % ULONG_MOD = x := Nat.mod_eq_of_lt (by simp only [ULONG_MOD]; omega)
  simp only [longFromULong, h1, if_pos hx]

theorem mask_eq_mod (x : Nat) : x &&& 0xff = x % 256 :=
  Nat.and_pow_two_sub_one_eq_mod x 8

theorem longFromBigEndianBytes_eq (nptr : List Nat) :
    longFromBigEndianBytes nptr
      = nptr.getD 0 0 % 256 * 16777216 + nptr.getD 1 0 % 256 * 65536
        + nptr.getD 2 0 % 256 * 256 + nptr.getD 3 0 % 256 := by
  simp only [longFromBigEndianBytes, mask_eq_mod, Nat.shiftLeft_eq]
  omega

theorem longFromBigEndianBytes_lt (nptr : List Nat) : longFromBigEndianBytes nptr < 2 ^ 32 := by
  rw [longFromBigEndianBytes_eq]
  omega

theorem bigEndianBytesFromLong_natCast (v : Nat) :
    bigEndianBytesFromLong (v : Int)
      = [v / 16777216 % 256, v / 65536 % 256, v / 256 % 256, v % 256] := by
  have h : ∀ (a : Nat), (Int.land (a : Int) 0xff).toNat = a % 256 := by
    intro a
    show a &&& 0xff = a % 256
    exact mask_eq_mod a
  have s : ∀ (k : Nat), ((v : Int) >>> k) = ((v >>> k : Nat) : Int) := fun _ => rfl
  simp only [bigEndianBytesFromLong, s, h, Nat.shiftRight_eq_div_pow]

/-- C2. Big-endian round trip: for every value `v` below `2^32`, the four bytes
written by `bigEndianBytesFromLong` are the base-256 digits of `v`, most significant
first, and `longFromBigEndianBytes` decodes them back to `v`. -/
theorem bigEndian_roundtrip (v : Nat) (hv : v < 2 ^ 32) :
    bigEndianBytesFromLong (v : Int)
        = [v / 2 ^ 24 % 256, v / 2 ^ 16 % 256, v / 2 ^ 8 % 256, v % 256]
      ∧ longFromBigEndianBytes (bigEndianBytesFromLong (v : Int)) = v := by
  refine ⟨by rw [bigEndianBytesFromLong_natCast]; norm_num, ?_⟩
  rw [bigEndianBytesFromLong_natCast, longFromBigEndianBytes_eq]
  simp only [List.getD_cons_zero, List.getD_cons_succ]
  omega

theorem bigEndian_roundtrip_witness :
    (3735928559 : Nat) < 2 ^ 32
      ∧ (bigEndianBytesFromLong ((3735928559 : Nat) : Int)
          = [3735928559 / 2 ^ 24 % 256, 3735928559 / 2 ^ 16 % 256,
              3735928559 / 2 ^ 8 % 256, 3735928559 % 256]
        ∧ longFromBigEndianBytes (bigEndianBytesFromLong ((3735928559 : Nat) : Int))
            = 3735928559) :=
  ⟨by decide, bigEndian_roundtrip 3735928559 (by decide)⟩


/-! ## Lemmas on streams and on the header parser -/

theorem longFromBigEndianBytes_congr {a b : List Nat}
    (h : ∀ j, j < 4 → a.getD j 0 = b.getD j 0) :
    longFromBigEndianBytes a = longFromBigEndianBytes b := by
  rw [longFromBigEndianBytes_eq, longFromBigEndianBytes_eq, h 0 (by omega), h 1 (by omega),
    h 2 (by omega), h 3 (by omega)]

theorem getD_drop (l : List Nat) (a j : Nat) : (l.drop a).getD j 0 = l.getD (a + j) 0 := by
  simp only [List.getD_eq_getElem?_getD, List.getElem?_drop]

theorem getD_take (l : List Nat) (m j : Nat) (h : j < m) : (l.take m).getD j 0 = l.getD j 0 := by
  simp only [List.getD_eq_getElem?_getD, List.getElem?_take, if_pos h]

theorem longFromBigEndianBytes_take (l : List Nat) (m : Nat) (h : 4 ≤ m) :
    longFromBigEndianBytes (l.take m) = longFromBigEndianBytes l :=
  longFromBigEndianBytes_congr (fun j hj => getD_take l m j (by omega))

theorem longFromBigEndianBytes_window (l : List Nat) (a m c : Nat) (h : c + 4 ≤ m) :
    longFromBigEndianBytes (((l.drop a).take m).drop c) = longFromBigEndianBytes (l.drop (a + c)) := by
  apply longFromBigEndianBytes_congr
  intro j hj
  rw [getD_drop, getD_take _ _ _ (by omega), getD_drop, getD_drop, Nat.add_assoc]

theorem EADF_MAGIC_eq : EADF_MAGIC = magicBytes ++ [0] := by decide

theorem strcmp_eq_zero_iff : ∀ (a b : List Nat), a.length = b.length → (∀ x ∈ b, x ≠ 0) →
    (strcmp (a ++ [0]) (b ++ [0]) = 0 ↔ a = b)
  | [], [], _, _ => by simp [strcmp]
  | [], _ :: _, hl, _ => by simp at hl
  | _ :: _, [], hl, _ => by simp at hl
  | x :: a, y :: b, hl, hb => by
    have hy : y ≠ 0 := hb y (List.mem_cons_self y b)
    have ih := strcmp_eq_zero_iff a b (by simpa using hl)
      (fun z hz => hb z (List.mem_cons_of_mem y hz))
    by_cases hxy : x = y
    · subst hxy
      simp [strcmp, hy, ih]
    · have : (x : Int) - (y : Int) ≠ 0 := by omega
      simp [strcmp, hxy, this]

theorem magic_check (bs : List Nat) (hl : bs.length = 8) :
    strcmp (bs ++ [0]) EADF_MAGIC = 0 ↔ bs = magicBytes := by
  rw [EADF_MAGIC_eq]
  exact strcmp_eq_zero_iff bs magicBytes (by rw [hl]; decide) (by decide)

theorem fread_full (s : List Nat) (p n : Nat) (e : Bool) (h : p + n ≤ s.length) :
    fread n { data := s, pos := p, eof := false, err := e }
      = ((s.drop p).take n, { data := s, pos := p + n, eof := false, err := e }) := by
  have hl : ((s.drop p).take n).length = n := by
    rw [List.length_take, List.length_drop]; omega
  simp only [fread, hl, lt_irrefl, decide_False, Bool.or_false]

theorem fread_short (f : FILE) (n : Nat) (h : f.data.length - f.pos < n) :
    (fread n f).1.length < n ∧ readErrno (fread n f).2 = EADFError.EOFERROR := by
  have hl : ((f.data.drop f.pos).take n).length < n := by
    rw [List.length_take, List.length_drop]
    have := Nat.min_le_right n (f.data.length - f.pos)
    omega
  simp only [fread, readErrno, feof, hl, decide_True, Bool.or_true, if_true, and_self]

theorem eadfHeaderInitWithFile_eq (g : EADFHeader) (s : List Nat) :
    eadfHeaderInitWithFile g (openStream s) =
      if s.length < 8 then Except.error EADFError.EOFERROR
      else if s.take 8 ≠ magicBytes then Except.error EADFError.WRONGMAGIC
      else if s.length < 12 then Except.error EADFError.EOFERROR
      else if 166 < longFromBigEndianBytes (s.drop 8) then
        Except.error EADFError.INVALIDNUMTRACKS
      else if s.length < 12 + 12 * longFromBigEndianBytes (s.drop 8) then
        Except.error EADFError.EOFERROR
      else
        match initTracks ((s.drop 12).take (longFromBigEndianBytes (s.drop 8) * 12))
            (longFromBigEndianBytes (s.drop 8)) 0 (12 + 12 * longFromBigEndianBytes (s.drop 8))
            { g with magic := s.take 8 ++ [0],
                     numTracks := longFromBigEndianBytes (s.drop 8) } with
        | Except.error e => Except.error e
        | Except.ok h =>
          Except.ok (h, { data := s, pos := 12 + 12 * longFromBigEndianBytes (s.drop 8),
                          eof := false, err := false }) := by
  unfold eadfHeaderInitWithFile
  by_cases h8 : s.length < 8
  · obtain ⟨h1, h2⟩ := fread_short (openStream s) EADF_MAGICLEN
      (by simp only [openStream, EADF_MAGICLEN]; omega)
    simp only [h1, h2, h8, if_true]
  have r1 := fread_full s 0 EADF_MAGICLEN false (by simp only [EADF_MAGICLEN]; omega)
  have l1 : (s.take 8).length = 8 := by rw [List.length_take]; omega
  simp only [List.drop_zero, Nat.zero_add] at r1
  simp only [openStream, r1, h8, if_false, l1, lt_irrefl]
  by_cases hm : s.take 8 = magicBytes
  swap
  · have hz : ¬ strcmp (s.take 8 ++ [0]) EADF_MAGIC = 0 := by
      rw [magic_check _ l1]; exact hm
    simp only [ne_eq, hz, hm, not_false_eq_true, if_true]
  have hz : strcmp (magicBytes ++ [0]) EADF_MAGIC = 0 := by decide
  simp only [ne_eq, hm, hz, not_true_eq_false, if_false]
  by_cases h12 : s.length < 12
  · obtain ⟨h1, h2⟩ := fread_short { data := s, pos := 8, eof := false, err := false } 4
      (by simp only; omega)
    have h3 := Nat.ne_of_lt h1
    simp only [h3, h2, h12, not_false_eq_true, if_true]
  have r2 := fread_full s 8 4 false (by omega)
  have l2 : ((s.drop 8).take 4).length = 4 := by
    rw [List.length_take, List.length_drop]; omega
  simp only [r2, l2, h12, not_true_eq_false, if_false, longFromBigEndianBytes_take _ 4 (le_refl 4)]
  by_cases hn : 166 < longFromBigEndianBytes (s.drop 8)
  · simp only [gt_iff_lt, hn, if_true]
  simp only [gt_iff_lt, hn, if_false]
  by_cases hs : s.length < 12 + 12 * longFromBigEndianBytes (s.drop 8)
  · obtain ⟨h1, h2⟩ := fread_short { data := s, pos := 8 + 4, eof := false, err := false }
      (longFromBigEndianBytes (s.drop 8) * EADF_BYTESPERRECORD)
      (by simp only [EADF_BYTESPERRECORD]; omega)
    have h3 := Nat.ne_of_lt h1
    simp only [h3, h2, hs, not_false_eq_true, if_true]
  have r3 := fread_full s (8 + 4) (longFromBigEndianBytes (s.drop 8) * EADF_BYTESPERRECORD) false
    (by simp only [EADF_BYTESPERRECORD]; omega)
  have l3 : ((s.drop (8 + 4)).take (longFromBigEndianBytes (s.drop 8) * EADF_BYTESPERRECORD)).length
      = longFromBigEndianBytes (s.drop 8) * EADF_BYTESPERRECORD := by
    rw [List.length_take, List.length_drop]; simp only [EADF_BYTESPERRECORD]; omega
  simp only [r3, l3, hs, not_true_eq_false, if_false]
  have ho : ((0 + 8) % ULONG_MOD + 4) % ULONG_MOD
      + longFromBigEndianBytes (s.drop 8) * EADF_BYTESPERRECORD
        = 12 + 12 * longFromBigEndianBytes (s.drop 8) := by
    simp only [EADF_BYTESPERRECORD, ULONG_MOD]; omega
  have hlt : (12 + 12 * longFromBigEndianBytes (s.drop 8)) % ULONG_MOD
        = 12 + 12 * longFromBigEndianBytes (s.drop 8) := by
    simp only [ULONG_MOD]; omega
  simp only [ho, hlt]
  have hp : 8 + 4 + longFromBigEndianBytes (s.drop 8) * EADF_BYTESPERRECORD
      = 12 + 12 * longFromBigEndianBytes (s.drop 8) := by
    simp only [EADF_BYTESPERRECORD]; omega
  simp only [hp]

theorem initTracks_invalid (buffer : List Nat) :
    ∀ (k i fileOffset : Nat) (h : EADFHeader),
      (∃ m, i ≤ m ∧ m < i + k ∧ 1 < longFromBigEndianBytes (buffer.drop (m * 12))) →
      initTracks buffer k i fileOffset h = Except.error EADFError.INVALIDTRACKTYPE
  | 0, i, _, _, hex => by
    obtain ⟨m, h1, h2, _⟩ := hex
    omega
  | k + 1, i, fileOffset, h, hex => by
    obtain ⟨m, h1, h2, h3⟩ := hex
    simp only [initTracks, Function.update_same, EADF_BYTESPERRECORD]
    by_cases hi : 1 < longFromBigEndianBytes (buffer.drop (i * 12))
    · have : longFromBigEndianBytes (buffer.drop (i * 12)) ≠ 0
          ∧ longFromBigEndianBytes (buffer.drop (i * 12)) ≠ 1 := by omega
      simp only [ne_eq, this, not_false_eq_true, and_self, if_true]
    · have : ¬ (longFromBigEndianBytes (buffer.drop (i * 12)) ≠ 0
          ∧ longFromBigEndianBytes (buffer.drop (i * 12)) ≠ 1) := by omega
      simp only [ne_eq] at this
      simp only [ne_eq, this, if_false]
      apply initTracks_invalid buffer k (i + 1)
      have hne : m ≠ i := by
        intro e
        rw [e] at h3
        exact hi h3
      exact ⟨m, by omega, by omega, h3⟩

theorem initTracks_valid (buffer : List Nat) :
    ∀ (k i fileOffset : Nat) (h : EADFHeader),
      (∀ m, i ≤ m → m < i + k → longFromBigEndianBytes (buffer.drop (m * 12)) ≤ 1) →
      fileOffset + k * 2 ^ 32 ≤ 2 ^ 64 →
      ∃ h', initTracks buffer k i fileOffset h = Except.ok h'
        ∧ h'.magic = h.magic ∧ h'.numTracks = h.numTracks
        ∧ (∀ m, m < i ∨ i + k ≤ m → h'.trackType m = h.trackType m
            ∧ h'.trackSizeBytes m = h.trackSizeBytes m
            ∧ h'.trackSizeBits m = h.trackSizeBits m
            ∧ h'.trackOffset m = h.trackOffset m)
        ∧ (∀ m, i ≤ m → m < i + k →
            h'.trackType m = longFromBigEndianBytes (buffer.drop (m * 12))
            ∧ h'.trackSizeBytes m = longFromBigEndianBytes (buffer.drop (m * 12 + 4))
            ∧ h'.trackSizeBits m = longFromBigEndianBytes (buffer.drop (m * 12 + 8)))
        ∧ (0 < k → h'.trackOffset i = fileOffset)
        ∧ (∀ m, i ≤ m → m + 1 < i + k →
            h'.trackOffset (m + 1) = h'.trackOffset m + h'.trackSizeBytes m)
  | 0, i, fileOffset, h, _, _ => by
    refine ⟨h, rfl, rfl, rfl, fun m _ => ⟨rfl, rfl, rfl, rfl⟩, ?_, ?_, ?_⟩
    · intro m h1 h2; omega
    · intro h0; omega
    · intro m h1 h2; omega
  | k + 1, i, fileOffset, h, hty, hoff => by
    have hi : longFromBigEndianBytes (buffer.drop (i * 12)) ≤ 1 := hty i (le_refl i) (by omega)
    have hc : ¬ (longFromBigEndianBytes (buffer.drop (i * 12)) ≠ 0
        ∧ longFromBigEndianBytes (buffer.drop (i * 12)) ≠ 1) := by omega
    simp only [ne_eq] at hc
    have hsz := longFromBigEndianBytes_lt (buffer.drop (i * 12 + 4))
    have hmod : (fileOffset + longFromBigEndianBytes (buffer.drop (i * 12 + 4))) % ULONG_MOD
        = fileOffset + longFromBigEndianBytes (buffer.drop (i * 12 + 4)) := by
      apply Nat.mod_eq_of_lt
      simp only [ULONG_MOD]
      omega
    simp only [initTracks, Function.update_same, EADF_BYTESPERRECORD, ne_eq, hc, if_false, hmod]
    obtain ⟨h', e, hmag, hnum, hpre, hrec, hfirst, hstep⟩ :=
      initTracks_valid buffer k (i + 1)
        (fileOffset + longFromBigEndianBytes (buffer.drop (i * 12 + 4)))
        { magic := h.magic, numTracks := h.numTracks,
          trackType := Function.update h.trackType i (longFromBigEndianBytes (buffer.drop (i * 12))),
          trackSizeBytes := Function.update h.trackSizeBytes i
            (longFromBigEndianBytes (buffer.drop (i * 12 + 4))),
          trackSizeBits := Function.update h.trackSizeBits i
            (longFromBigEndianBytes (buffer.drop (i * 12 + 8))),
          trackOffset := Function.update h.trackOffset i fileOffset }
        (fun m h1 h2 => hty m (by omega) (by omega)) (by omega)
    refine ⟨h', e, hmag, hnum, ?_, ?_, ?_, ?_⟩
    · intro m hm
      have hne : m ≠ i := by omega
      have := hpre m (by omega)
      simpa only [Function.update_noteq hne] using this
    · intro m h1 h2
      by_cases hmi : m = i
      · subst hmi
        have hp := hpre m (Or.inl (by omega))
        simp only [Function.update_same] at hp
        exact ⟨hp.1, hp.2.1, hp.2.2.1⟩
      · exact hrec m (by omega) (by omega)
    · intro _
      have := hpre i (Or.inl (by omega))
      simpa only [Function.update_same] using this.2.2.2
    · intro m h1 h2
      by_cases hmi : m = i
      · subst hmi
        have hp := hpre m (Or.inl (by omega))
        simp only [Function.update_same] at hp
        rw [hfirst (by omega), hp.2.2.2, hp.2.1]
      · exact hstep m (by omega) (by omega)

theorem eadfHeaderInitWithFile_invalidType (g : EADFHeader) (s : List Nat) (hc : CompleteTable s)
    (hbad : ∃ m, m < longFromBigEndianBytes (s.drop 8)
      ∧ 1 < longFromBigEndianBytes (s.drop (12 + 12 * m))) :
    eadfHeaderInitWithFile g (openStream s) = Except.error EADFError.INVALIDTRACKTYPE := by
  obtain ⟨hm, hn, hl⟩ := hc
  obtain ⟨m, hmn, hty⟩ := hbad
  rw [eadfHeaderInitWithFile_eq]
  have h1 : ¬ s.length < 8 := by omega
  have h2 : ¬ s.length < 12 := by omega
  have h3 : ¬ 166 < longFromBigEndianBytes (s.drop 8) := by omega
  have h4 : ¬ s.length < 12 + 12 * longFromBigEndianBytes (s.drop 8) := by omega
  simp only [h1, h2, h3, h4, hm, ne_eq, not_true_eq_false, if_false]
  rw [initTracks_invalid]
  refine ⟨m, Nat.zero_le m, by omega, ?_⟩
  rw [longFromBigEndianBytes_window s 12 _ (m * 12) (by omega)]
  rw [show 12 + m * 12 = 12 + 12 * m by omega]
  exact hty

theorem eadfHeaderInitWithFile_valid (g : EADFHeader) (s : List Nat) (hc : CompleteTable s)
    (hgood : ∀ m, m < longFromBigEndianBytes (s.drop 8)
      → longFromBigEndianBytes (s.drop (12 + 12 * m)) ≤ 1) :
    ∃ h, eadfHeaderInitWithFile g (openStream s)
          = Except.ok (h, { data := s, pos := 12 + 12 * longFromBigEndianBytes (s.drop 8),
                            eof := false, err := false })
      ∧ h.magic = magicBytes ++ [0]
      ∧ h.numTracks = longFromBigEndianBytes (s.drop 8)
      ∧ (∀ m, h.numTracks ≤ m → h.trackType m = g.trackType m
          ∧ h.trackSizeBytes m = g.trackSizeBytes m
          ∧ h.trackSizeBits m = g.trackSizeBits m
          ∧ h.trackOffset m = g.trackOffset m)
      ∧ (∀ m, m < h.numTracks →
          h.trackType m = longFromBigEndianBytes (s.drop (12 + 12 * m))
          ∧ h.trackSizeBytes m = longFromBigEndianBytes (s.drop (12 + 12 * m + 4))
          ∧ h.trackSizeBits m = longFromBigEndianBytes (s.drop (12 + 12 * m + 8)))
      ∧ (0 < h.numTracks → h.trackOffset 0 = 12 + 12 * h.numTracks)
      ∧ (∀ m, m + 1 < h.numTracks →
          h.trackOffset (m + 1) = h.trackOffset m + h.trackSizeBytes m) := by
  obtain ⟨hm, hn, hl⟩ := hc
  rw [eadfHeaderInitWithFile_eq]
  have h1 : ¬ s.length < 8 := by omega
  have h2 : ¬ s.length < 12 := by omega
  have h3 : ¬ 166 < longFromBigEndianBytes (s.drop 8) := by omega
  have h4 : ¬ s.length < 12 + 12 * longFromBigEndianBytes (s.drop 8) := by omega
  simp only [h1, h2, h3, h4, hm, ne_eq, not_true_eq_false, if_false]
  have hwin : ∀ m c, m < longFromBigEndianBytes (s.drop 8) → c ≤ 8 →
      longFromBigEndianBytes
          (((s.drop 12).take (longFromBigEndianBytes (s.drop 8) * 12)).drop (m * 12 + c))
        = longFromBigEndianBytes (s.drop (12 + 12 * m + c)) := by
    intro m c hmn hc8
    rw [longFromBigEndianBytes_window s 12 _ (m * 12 + c) (by omega)]
    rw [show 12 + (m * 12 + c) = 12 + 12 * m + c by omega]
  obtain ⟨h', e, hmag, hnum, hpre, hrec, hfirst, hstep⟩ :=
    initTracks_valid ((s.drop 12).take (longFromBigEndianBytes (s.drop 8) * 12))
      (longFromBigEndianBytes (s.drop 8)) 0 (12 + 12 * longFromBigEndianBytes (s.drop 8))
      { magic := magicBytes ++ [0], numTracks := longFromBigEndianBytes (s.drop 8),
        trackType := g.trackType, trackSizeBytes := g.trackSizeBytes,
        trackSizeBits := g.trackSizeBits, trackOffset := g.trackOffset }
      (fun m _ h2 => by
        have := hwin m 0 (by omega) (by omega)
        simp only [Nat.add_zero] at this
        rw [this]
        exact hgood m (by omega))
      (by omega)
  have hnum : h'.numTracks = longFromBigEndianBytes (s.drop 8) := hnum
  refine ⟨h', ?_, hmag, hnum, ?_, ?_, ?_, ?_⟩
  · rw [e]
  · intro m hmn
    rw [hnum] at hmn
    exact hpre m (Or.inr (by omega))
  · intro m hmn
    rw [hnum] at hmn
    have hr := hrec m (Nat.zero_le m) (by omega)
    have w0 := hwin m 0 hmn (by omega)
    simp only [Nat.add_zero] at w0
    rw [← w0, ← hwin m 4 hmn (by omega), ← hwin m 8 hmn (by omega)]
    exact hr
  · intro hpos
    rw [hnum] at hpos ⊢
    exact hfirst hpos
  · intro m hmn
    rw [hnum] at hmn
    exact hstep m (Nat.zero_le m) (by omega)

theorem offset_sum_of_step (off size : Nat → Nat) (n base : Nat)
    (hfirst : 0 < n → off 0 = base)
    (hstep : ∀ m, m + 1 < n → off (m + 1) = off m + size m) :
    ∀ i, i < n → off i = base + ∑ j in Finset.range i, size j
  | 0, hi => by simp [hfirst hi]
  | i + 1, hi => by
    rw [hstep i hi, offset_sum_of_step off size n base hfirst hstep i (by omega),
      Finset.sum_range_succ, Nat.add_assoc]

theorem eadfHeaderInitWithFile_ok_inv (g : EADFHeader) (s : List Nat) (h : EADFHeader) (f : FILE)
    (hok : eadfHeaderInitWithFile g (openStream s) = Except.ok (h, f)) :
    CompleteTable s ∧ ∀ m, m < longFromBigEndianBytes (s.drop 8)
      → longFromBigEndianBytes (s.drop (12 + 12 * m)) ≤ 1 := by
  have hc : CompleteTable s := by
    rw [eadfHeaderInitWithFile_eq] at hok
    refine ⟨?_, ?_, ?_⟩
    · by_contra hm
      split_ifs at hok
    · by_contra hn
      split_ifs at hok; omega
    · by_contra hl
      split_ifs at hok; omega
  refine ⟨hc, ?_⟩
  intro m hmn
  by_contra hbad
  rw [eadfHeaderInitWithFile_invalidType g s hc ⟨m, hmn, by omega⟩] at hok
  cases hok

theorem eadfHeaderInitWithFile_outcome (g : EADFHeader) (s : List Nat) :
    (s.length < 8 ∧ eadfHeaderInitWithFile g (openStream s) = Except.error EADFError.EOFERROR)
    ∨ (8 ≤ s.length ∧ s.take 8 ≠ magicBytes
        ∧ eadfHeaderInitWithFile g (openStream s) = Except.error EADFError.WRONGMAGIC)
    ∨ (8 ≤ s.length ∧ s.take 8 = magicBytes ∧ s.length < 12
        ∧ eadfHeaderInitWithFile g (openStream s) = Except.error EADFError.EOFERROR)
    ∨ (12 ≤ s.length ∧ s.take 8 = magicBytes ∧ 166 < longFromBigEndianBytes (s.drop 8)
        ∧ eadfHeaderInitWithFile g (openStream s) = Except.error EADFError.INVALIDNUMTRACKS)
    ∨ (12 ≤ s.length ∧ s.take 8 = magicBytes ∧ longFromBigEndianBytes (s.drop 8) ≤ 166
        ∧ s.length < 12 + 12 * longFromBigEndianBytes (s.drop 8)
        ∧ eadfHeaderInitWithFile g (openStream s) = Except.error EADFError.EOFERROR)
    ∨ (CompleteTable s
        ∧ (∃ m, m < longFromBigEndianBytes (s.drop 8)
            ∧ 1 < longFromBigEndianBytes (s.drop (12 + 12 * m)))
        ∧ eadfHeaderInitWithFile g (openStream s) = Except.error EADFError.INVALIDTRACKTYPE)
    ∨ (CompleteTable s
        ∧ (∀ m, m < longFromBigEndianBytes (s.drop 8)
            → longFromBigEndianBytes (s.drop (12 + 12 * m)) ≤ 1)
        ∧ ∃ h, eadfHeaderInitWithFile g (openStream s)
            = Except.ok (h, afterHeader s (longFromBigEndianBytes (s.drop 8)))) := by
  by_cases h8 : s.length < 8
  · left
    rw [eadfHeaderInitWithFile_eq, if_pos h8]
    exact ⟨h8, rfl⟩
  right
  by_cases hm : s.take 8 = magicBytes
  swap
  · left
    rw [eadfHeaderInitWithFile_eq, if_neg h8, if_pos hm]
    exact ⟨by omega, hm, rfl⟩
  right
  by_cases h12 : s.length < 12
  · left
    rw [eadfHeaderInitWithFile_eq, if_neg h8, if_neg (not_not.mpr hm), if_pos h12]
    exact ⟨by omega, hm, h12, rfl⟩
  right
  by_cases hn : 166 < longFromBigEndianBytes (s.drop 8)
  · left
    rw [eadfHeaderInitWithFile_eq, if_neg h8, if_neg (not_not.mpr hm), if_neg h12, if_pos hn]
    exact ⟨by omega, hm, hn, rfl⟩
  right
  by_cases hl : s.length < 12 + 12 * longFromBigEndianBytes (s.drop 8)
  · left
    rw [eadfHeaderInitWithFile_eq, if_neg h8, if_neg (not_not.mpr hm), if_neg h12, if_neg hn,
      if_pos hl]
    exact ⟨by omega, hm, by omega, hl, rfl⟩
  right
  have hc : CompleteTable s := ⟨hm, by omega, by omega⟩
  by_cases hbad : ∃ m, m < longFromBigEndianBytes (s.drop 8)
      ∧ 1 < longFromBigEndianBytes (s.drop (12 + 12 * m))
  · left
    exact ⟨hc, hbad, eadfHeaderInitWithFile_invalidType g s hc hbad⟩
  right
  have hgood : ∀ m, m < longFromBigEndianBytes (s.drop 8)
      → longFromBigEndianBytes (s.drop (12 + 12 * m)) ≤ 1 := by
    intro m hmn
    by_contra hc1
    exact hbad ⟨m, hmn, by omega⟩
  obtain ⟨h, e, _⟩ := eadfHeaderInitWithFile_valid g s hc hgood
  exact ⟨hc, hgood, h, e⟩

/-- C1. Track offsets: after a successful parse with track count `n`, every index `i < n`
has `trackOffset[i] = 8 + 4 + 12*n + Σ_{j<i} trackSizeBytes[j]`; in particular
`trackOffset[0] = 12 + 12*n` and `trackOffset[i+1] = trackOffset[i] + trackSizeBytes[i]`. -/
theorem trackOffset_formula (g : EADFHeader) (s : List Nat) (h : EADFHeader) (f : FILE)
    (hok : eadfHeaderInitWithFile g (openStream s) = Except.ok (h, f)) :
    (∀ i, i < h.numTracks →
        h.trackOffset i = 8 + 4 + 12 * h.numTracks + ∑ j in Finset.range i, h.trackSizeBytes j)
      ∧ (0 < h.numTracks → h.trackOffset 0 = 12 + 12 * h.numTracks)
      ∧ (∀ i, i + 1 < h.numTracks → h.trackOffset (i + 1) = h.trackOffset i + h.trackSizeBytes i) := by
  obtain ⟨hc, hgood⟩ := eadfHeaderInitWithFile_ok_inv g s h f hok
  obtain ⟨h', e, _, _, _, _, hfirst, hstep⟩ := eadfHeaderInitWithFile_valid g s hc hgood
  rw [hok] at e
  injection e with e
  injection e with e1 e2
  subst e1
  exact ⟨offset_sum_of_step h.trackOffset h.trackSizeBytes h.numTracks _ hfirst hstep, hfirst, hstep⟩

theorem trackOffset_formula_witness :
    eadfHeaderInitWithFile blankHeader (openStream sampleImage)
        = Except.ok (parsedHeader sampleImage, afterHeader sampleImage 2)
      ∧ (parsedHeader sampleImage).numTracks = 2
      ∧ (parsedHeader sampleImage).trackOffset 1
          = 8 + 4 + 12 * (parsedHeader sampleImage).numTracks
            + ∑ j in Finset.range 1, (parsedHeader sampleImage).trackSizeBytes j
      ∧ (parsedHeader sampleImage).trackOffset 1 = 39 :=
  ⟨rfl, by decide,
    (trackOffset_formula blankHeader sampleImage (parsedHeader sampleImage)
      (afterHeader sampleImage 2) rfl).1 1 (by decide), by decide⟩

/-- C3. Magic check: on a stream of at least 8 bytes the parser fails with the wrong-magic
error if and only if the first 8 bytes differ from "UAE-1ADF"; and a stream whose first
8 bytes differ is never parsed successfully. -/
theorem wrongMagic_iff (g : EADFHeader) (s : List Nat) (h8 : 8 ≤ s.length) :
    (eadfHeaderInitWithFile g (openStream s) = Except.error EADFError.WRONGMAGIC
        ↔ s.take 8 ≠ [85, 65, 69, 45, 49, 65, 68, 70])
      ∧ (s.take 8 ≠ [85, 65, 69, 45, 49, 65, 68, 70] →
          ∀ h f, eadfHeaderInitWithFile g (openStream s) ≠ Except.ok (h, f)) := by
  have hmb : magicBytes = [85, 65, 69, 45, 49, 65, 68, 70] := rfl
  rw [← hmb]
  rcases eadfHeaderInitWithFile_outcome g s with
    ⟨h, _⟩ | ⟨_, hm, e⟩ | ⟨_, hm, _, e⟩ | ⟨_, hm, _, e⟩ | ⟨_, hm, _, _, e⟩ | ⟨hc, _, e⟩
      | ⟨hc, _, _, e⟩
  · omega
  · simp [e, hm]
  · simp [e, hm]
  · simp [e, hm]
  · simp [e, hm]
  · simp [e, hc.1]
  · simp [e, hc.1]

theorem wrongMagic_iff_witness :
    eadfHeaderInitWithFile blankHeader (openStream [85, 65, 69, 45, 49, 65, 68, 71, 0, 0, 0, 0])
        = Except.error EADFError.WRONGMAGIC
      ∧ eadfHeaderInitWithFile blankHeader (openStream (magicBytes ++ [0, 0, 0, 0]))
        ≠ Except.error EADFError.WRONGMAGIC :=
  ⟨(wrongMagic_iff blankHeader [85, 65, 69, 45, 49, 65, 68, 71, 0, 0, 0, 0] (by decide)).1.mpr
      (by decide),
    fun e => (wrongMagic_iff blankHeader (magicBytes ++ [0, 0, 0, 0]) (by decide)).1.mp e
      (by decide)⟩

/-- C4. Track count check: on a stream that starts with the magic followed by at least
4 bytes, the parser fails with the invalid-track-count error if and only if the big-endian
count in bytes 8..11 exceeds 166; a count of 166 passes the check and a count of 167 is
rejected, whatever bytes follow. -/
theorem invalidNumTracks_iff (g : EADFHeader) (s : List Nat)
    (hm : s.take 8 = [85, 65, 69, 45, 49, 65, 68, 70]) (h12 : 12 ≤ s.length) :
    (eadfHeaderInitWithFile g (openStream s) = Except.error EADFError.INVALIDNUMTRACKS
        ↔ 166 < longFromBigEndianBytes (s.drop 8))
      ∧ (longFromBigEndianBytes (s.drop 8) = 166 →
          eadfHeaderInitWithFile g (openStream s) ≠ Except.error EADFError.INVALIDNUMTRACKS)
      ∧ (longFromBigEndianBytes (s.drop 8) = 167 →
          eadfHeaderInitWithFile g (openStream s) = Except.error EADFError.INVALIDNUMTRACKS) := by
  have hmb : magicBytes = [85, 65, 69, 45, 49, 65, 68, 70] := rfl
  rw [← hmb] at hm
  have key : eadfHeaderInitWithFile g (openStream s) = Except.error EADFError.INVALIDNUMTRACKS
      ↔ 166 < longFromBigEndianBytes (s.drop 8) := by
    rcases eadfHeaderInitWithFile_outcome g s with
      ⟨h, _⟩ | ⟨_, hm', _⟩ | ⟨_, _, h, _⟩ | ⟨_, _, hn, e⟩ | ⟨_, _, hn, _, e⟩ | ⟨hc, _, e⟩
        | ⟨hc, _, _, e⟩
    · omega
    · exact absurd hm hm'
    · omega
    · simp [e, hn]
    · simp [e, hn]
    · simp [e, hc.2.1]
    · simp [e, hc.2.1]
  refine ⟨key, ?_, ?_⟩
  · intro h166 e
    have := key.mp e
    omega
  · intro h167
    exact key.mpr (by omega)

theorem invalidNumTracks_iff_witness :
    eadfHeaderInitWithFile blankHeader (openStream (magicBytes ++ [0, 0, 0, 166, 7, 7]))
        ≠ Except.error EADFError.INVALIDNUMTRACKS
      ∧ eadfHeaderInitWithFile blankHeader (openStream (magicBytes ++ [0, 0, 0, 167, 7, 7]))
        = Except.error EADFError.INVALIDNUMTRACKS :=
  ⟨(invalidNumTracks_iff blankHeader (magicBytes ++ [0, 0, 0, 166, 7, 7]) (by decide)
      (by decide)).2.1 (by decide),
    (invalidNumTracks_iff blankHeader (magicBytes ++ [0, 0, 0, 167, 7, 7]) (by decide)
      (by decide)).2.2 (by decide)⟩

/-- C5. Track type check: on a stream with the magic, a count `n ≤ 166` and a complete table
of `12 * n` bytes, the parser fails with the invalid-track-type error if and only if some
record's type code is neither 0 (DOS) nor 1 (RAW); otherwise it succeeds, the header has
`n` tracks, and the type, byte length and bit length of each track are the big-endian
decodings of the three 4-byte fields of its record. -/
theorem invalidTrackType_iff (g : EADFHeader) (s : List Nat)
    (hm : s.take 8 = [85, 65, 69, 45, 49, 65, 68, 70])
    (hn : longFromBigEndianBytes (s.drop 8) ≤ 166)
    (hl : 12 + 12 * longFromBigEndianBytes (s.drop 8) ≤ s.length) :
    (eadfHeaderInitWithFile g (openStream s) = Except.error EADFError.INVALIDTRACKTYPE
        ↔ ∃ i, i < longFromBigEndianBytes (s.drop 8)
            ∧ longFromBigEndianBytes (s.drop (12 + 12 * i)) ≠ EADFTRACKTYPE_DOS
            ∧ longFromBigEndianBytes (s.drop (12 + 12 * i)) ≠ EADFTRACKTYPE_RAW)
      ∧ ((¬ ∃ i, i < longFromBigEndianBytes (s.drop 8)
            ∧ longFromBigEndianBytes (s.drop (12 + 12 * i)) ≠ EADFTRACKTYPE_DOS
            ∧ longFromBigEndianBytes (s.drop (12 + 12 * i)) ≠ EADFTRACKTYPE_RAW) →
          ∃ h f, eadfHeaderInitWithFile g (openStream s) = Except.ok (h, f)
            ∧ h.numTracks = longFromBigEndianBytes (s.drop 8)
            ∧ ∀ i, i < h.numTracks →
                h.trackType i = longFromBigEndianBytes (s.drop (12 + 12 * i))
                ∧ h.trackSizeBytes i = longFromBigEndianBytes (s.drop (12 + 12 * i + 4))
                ∧ h.trackSizeBits i = longFromBigEndianBytes (s.drop (12 + 12 * i + 8))) := by
  have hmb : magicBytes = [85, 65, 69, 45, 49, 65, 68, 70] := rfl
  rw [← hmb] at hm
  have hc : CompleteTable s := ⟨hm, hn, hl⟩
  have hiff : (∃ i, i < longFromBigEndianBytes (s.drop 8)
        ∧ longFromBigEndianBytes (s.drop (12 + 12 * i)) ≠ EADFTRACKTYPE_DOS
        ∧ longFromBigEndianBytes (s.drop (12 + 12 * i)) ≠ EADFTRACKTYPE_RAW)
      ↔ ∃ m, m < longFromBigEndianBytes (s.drop 8)
        ∧ 1 < longFromBigEndianBytes (s.drop (12 + 12 * m)) := by
    constructor
    · rintro ⟨i, h1, h2, h3⟩
      exact ⟨i, h1, by simp only [EADFTRACKTYPE_DOS, EADFTRACKTYPE_RAW] at h2 h3; omega⟩
    · rintro ⟨i, h1, h2⟩
      exact ⟨i, h1, by simp only [EADFTRACKTYPE_DOS]; omega,
        by simp only [EADFTRACKTYPE_RAW]; omega⟩
  rw [hiff]
  by_cases hbad : ∃ m, m < longFromBigEndianBytes (s.drop 8)
      ∧ 1 < longFromBigEndianBytes (s.drop (12 + 12 * m))
  · rw [eadfHeaderInitWithFile_invalidType g s hc hbad]
    exact ⟨⟨fun _ => hbad, fun _ => rfl⟩, fun h => absurd hbad h⟩
  · have hgood : ∀ m, m < longFromBigEndianBytes (s.drop 8)
        → longFromBigEndianBytes (s.drop (12 + 12 * m)) ≤ 1 := by
      intro m hmn
      by_contra hc1
      exact hbad ⟨m, hmn, by omega⟩
    obtain ⟨h, e, _, hnum, _, hrec, _, _⟩ := eadfHeaderInitWithFile_valid g s hc hgood
    rw [e]
    refine ⟨⟨fun e' => (by cases e'), fun h' => absurd h' hbad⟩, fun _ => ⟨h, _, rfl, hnum, hrec⟩⟩

theorem invalidTrackType_iff_witness :
    eadfHeaderInitWithFile blankHeader (openStream badTypeImage)
        = Except.error EADFError.INVALIDTRACKTYPE
      ∧ ∃ h f, eadfHeaderInitWithFile blankHeader (openStream sampleImage) = Except.ok (h, f)
          ∧ h.numTracks = longFromBigEndianBytes (sampleImage.drop 8)
          ∧ ∀ i, i < h.numTracks →
              h.trackType i = longFromBigEndianBytes (sampleImage.drop (12 + 12 * i))
              ∧ h.trackSizeBytes i = longFromBigEndianBytes (sampleImage.drop (12 + 12 * i + 4))
              ∧ h.trackSizeBits i
                  = longFromBigEndianBytes (sampleImage.drop (12 + 12 * i + 8)) :=
  ⟨(invalidTrackType_iff blankHeader badTypeImage (by decide) (by decide) (by decide)).1.mpr
      ⟨1, by decide, by decide, by decide⟩,
    (invalidTrackType_iff blankHeader sampleImage (by decide) (by decide) (by decide)).2
      (by decide)⟩

/-- C6. Truncated headers: a stream with the magic and a count `n ≤ 166` that holds fewer
than `12 + 12*n` bytes fails with the premature end-of-file error; so does every stream
shorter than 12 bytes whose bytes agree with the magic as far as they go; and whenever the
parser succeeds the stream holds the whole header block. -/
theorem truncated_header_eof (g : EADFHeader) (s : List Nat) :
    (s.take 8 = [85, 65, 69, 45, 49, 65, 68, 70] → 12 ≤ s.length →
        longFromBigEndianBytes (s.drop 8) ≤ 166 →
        s.length < 12 + 12 * longFromBigEndianBytes (s.drop 8) →
        eadfHeaderInitWithFile g (openStream s) = Except.error EADFError.EOFERROR)
      ∧ (s.length < 12 → s.take 8 = [85, 65, 69, 45, 49, 65, 68, 70].take s.length →
          eadfHeaderInitWithFile g (openStream s) = Except.error EADFError.EOFERROR)
      ∧ (∀ h f, eadfHeaderInitWithFile g (openStream s) = Except.ok (h, f) →
          12 + 12 * h.numTracks ≤ s.length) := by
  have hmb : magicBytes = [85, 65, 69, 45, 49, 65, 68, 70] := rfl
  rw [← hmb]
  refine ⟨?_, ?_, ?_⟩
  · intro hm h12 hn hl
    rcases eadfHeaderInitWithFile_outcome g s with
      ⟨h, _⟩ | ⟨_, hm', _⟩ | ⟨_, _, h, _⟩ | ⟨_, _, hn', _⟩ | ⟨_, _, _, _, e⟩ | ⟨hc, _, _⟩
        | ⟨hc, _, _, _⟩
    · omega
    · exact absurd hm hm'
    · omega
    · omega
    · exact e
    · have := hc.2.2
      omega
    · have := hc.2.2
      omega
  · intro h12 hp
    rcases eadfHeaderInitWithFile_outcome g s with
      ⟨_, e⟩ | ⟨h8, hm', _⟩ | ⟨_, _, _, e⟩ | ⟨h, _⟩ | ⟨h, _⟩ | ⟨hc, _, _⟩ | ⟨hc, _, _, _⟩
    · exact e
    · exfalso
      apply hm'
      rw [hp]
      apply List.take_of_length_le
      simp only [magicBytes, EADF_MAGIC, EADF_MAGICLEN, List.take, List.length]
      omega
    · exact e
    · omega
    · omega
    · have := hc.2.2
      omega
    · have := hc.2.2
      omega
  · intro h f hok
    obtain ⟨hc, hgood⟩ := eadfHeaderInitWithFile_ok_inv g s h f hok
    obtain ⟨h', e, _, hnum, _⟩ := eadfHeaderInitWithFile_valid g s hc hgood
    rw [hok] at e
    injection e with e
    injection e with e1 _
    subst e1
    rw [hnum]
    exact hc.2.2

theorem truncated_header_eof_witness :
    eadfHeaderInitWithFile blankHeader (openStream (sampleImage.take 30))
        = Except.error EADFError.EOFERROR
      ∧ eadfHeaderInitWithFile blankHeader (openStream [85, 65, 69, 45, 49])
        = Except.error EADFError.EOFERROR
      ∧ eadfHeaderInitWithFile blankHeader (openStream (sampleImage.take 10))
        = Except.error EADFError.EOFERROR :=
  ⟨(truncated_header_eof blankHeader (sampleImage.take 30)).1 (by decide) (by decide)
      (by decide) (by decide),
    (truncated_header_eof blankHeader [85, 65, 69, 45, 49]).2.1 (by decide) (by decide),
    (truncated_header_eof blankHeader (sampleImage.take 10)).2.1 (by decide) (by decide)⟩

/-! ## The track source policies -/

theorem mergeTrackSourceLoop_apply (h1 h2 : EADFHeader) :
    ∀ (k track : Nat) (trackSources : Nat → EADFTrackSource) (i : Nat),
      mergeTrackSourceLoop h1 h2 k track trackSources i =
        if track ≤ i ∧ i < track + k then
          (if i ≥ h2.numTracks
              ∨ (i < h1.numTracks ∧ h1.trackSizeBytes i > 0)
              ∨ (i < h1.numTracks ∧ h2.trackSizeBytes i = 0) then
            EADFTrackSource.SOURCE1
          else EADFTrackSource.SOURCE2)
        else trackSources i
  | 0, track, trackSources, i => by
    have : ¬ (track ≤ i ∧ i < track + 0) := by omega
    simp only [mergeTrackSourceLoop, this, if_false]
  | k + 1, track, trackSources, i => by
    rw [mergeTrackSourceLoop, mergeTrackSourceLoop_apply h1 h2 k (track + 1)]
    by_cases hi : i = track
    · subst hi
      have h1' : ¬ (i + 1 ≤ i ∧ i < i + 1 + k) := by omega
      have h2' : i ≤ i ∧ i < i + (k + 1) := by omega
      rw [if_neg h1', if_pos h2']
      split_ifs <;> simp only [Function.update_same]
    · by_cases hr : track + 1 ≤ i ∧ i < track + 1 + k
      · have h2' : track ≤ i ∧ i < track + (k + 1) := by omega
        rw [if_pos hr, if_pos h2']
      · have h2' : ¬ (track ≤ i ∧ i < track + (k + 1)) := by omega
        rw [if_neg hr, if_neg h2']
        split_ifs <;> simp only [Function.update_noteq hi]

theorem dosMergeTrackSourceLoop_apply (h1 h2 : EADFHeader) :
    ∀ (k track : Nat) (trackSources : Nat → EADFTrackSource) (i : Nat),
      dosMergeTrackSourceLoop h1 h2 k track trackSources i =
        if track ≤ i ∧ i < track + k then
          (if i ≥ h2.numTracks
              ∨ (i < h1.numTracks
                  ∧ (h1.trackType i = EADFTRACKTYPE_DOS ∨ h2.trackType i = EADFTRACKTYPE_RAW)) then
            EADFTrackSource.SOURCE1
          else EADFTrackSource.SOURCE2)
        else trackSources i
  | 0, track, trackSources, i => by
    have : ¬ (track ≤ i ∧ i < track + 0) := by omega
    simp only [dosMergeTrackSourceLoop, this, if_false]
  | k + 1, track, trackSources, i => by
    rw [dosMergeTrackSourceLoop, dosMergeTrackSourceLoop_apply h1 h2 k (track + 1)]
    by_cases hi : i = track
    · subst hi
      have h1' : ¬ (i + 1 ≤ i ∧ i < i + 1 + k) := by omega
      have h2' : i ≤ i ∧ i < i + (k + 1) := by omega
      rw [if_neg h1', if_pos h2']
      split_ifs <;> simp only [Function.update_same]
    · by_cases hr : track + 1 ≤ i ∧ i < track + 1 + k
      · have h2' : track ≤ i ∧ i < track + (k + 1) := by omega
        rw [if_pos hr, if_pos h2']
      · have h2' : ¬ (track ≤ i ∧ i < track + (k + 1)) := by omega
        rw [if_neg hr, if_neg h2']
        split_ifs <;> simp only [Function.update_noteq hi]

theorem max_numTracks (h1 h2 : EADFHeader) :
    (if h1.numTracks > h2.numTracks then h1.numTracks else h2.numTracks)
      = max h1.numTracks h2.numTracks := by
  split_ifs <;> omega

/-- C9. The prefer-nonempty policy: for every index `i` below `max(count1, count2)`,
`mergeTrackSourceCallback` sets `decision[i]` to Source1 exactly when `i ≥ count2`, or
`i < count1` and `sizeBytes1[i] > 0`, or `i < count1` and `sizeBytes2[i] = 0`, and to
Source2 otherwise; below both counts it chooses Source2 exactly when source1's track is
empty and source2's track is not.  The callback reports success. -/
theorem mergeTrackSourceCallback_decision (trackSources : Nat → EADFTrackSource)
    (h1 h2 : EADFHeader) (i : Nat) (hi : i < max h1.numTracks h2.numTracks) :
    ((mergeTrackSourceCallback trackSources h1 h2).2 i = EADFTrackSource.SOURCE1
        ↔ (i ≥ h2.numTracks
            ∨ (i < h1.numTracks ∧ h1.trackSizeBytes i > 0)
            ∨ (i < h1.numTracks ∧ h2.trackSizeBytes i = 0)))
      ∧ ((mergeTrackSourceCallback trackSources h1 h2).2 i = EADFTrackSource.SOURCE2
        ↔ ¬ (i ≥ h2.numTracks
            ∨ (i < h1.numTracks ∧ h1.trackSizeBytes i > 0)
            ∨ (i < h1.numTracks ∧ h2.trackSizeBytes i = 0)))
      ∧ (i < h1.numTracks → i < h2.numTracks →
          ((mergeTrackSourceCallback trackSources h1 h2).2 i = EADFTrackSource.SOURCE2
            ↔ h1.trackSizeBytes i = 0 ∧ h2.trackSizeBytes i > 0))
      ∧ (mergeTrackSourceCallback trackSources h1 h2).1 = CommandStatus.SUCCESS := by
  have hr : 0 ≤ i ∧ i < 0 + max h1.numTracks h2.numTracks := by omega
  simp only [mergeTrackSourceCallback, max_numTracks, mergeTrackSourceLoop_apply, if_pos hr]
  by_cases hc : i ≥ h2.numTracks
      ∨ (i < h1.numTracks ∧ h1.trackSizeBytes i > 0)
      ∨ (i < h1.numTracks ∧ h2.trackSizeBytes i = 0)
  · rw [if_pos hc]
    refine ⟨⟨fun _ => hc, fun _ => rfl⟩, ⟨fun h => (by cases h), fun h => absurd hc h⟩,
      fun ha hb => ⟨fun h => (by cases h), fun hz => ?_⟩, trivial⟩
    omega
  · rw [if_neg hc]
    refine ⟨⟨fun h => (by cases h), fun h => absurd h hc⟩, ⟨fun _ => hc, fun _ => rfl⟩,
      fun ha hb => ⟨fun _ => ?_, fun _ => rfl⟩, trivial⟩
    omega

theorem mergeTrackSourceCallback_decision_witness :
    (0 : Nat) < max (parsedHeader sampleImage).numTracks (parsedHeader sampleImage2).numTracks
      ∧ (mergeTrackSourceCallback sampleSources (parsedHeader sampleImage2)
            (parsedHeader sampleImage)).2 0 = EADFTrackSource.SOURCE2 :=
  ⟨by decide,
    (mergeTrackSourceCallback_decision sampleSources (parsedHeader sampleImage2)
      (parsedHeader sampleImage) 0 (by decide)).2.2.1 (by decide) (by decide) |>.mpr
      (by decide)⟩

/-- C10. The prefer-DOS policy: for every index `i` below `max(count1, count2)`,
`dosMergeTrackSourceCallback` sets `decision[i]` to Source1 exactly when `i ≥ count2`, or
`i < count1` and (`type1[i]` is DOS or `type2[i]` is RAW), and to Source2 otherwise; below
both counts it chooses Source2 exactly when source1's track is not DOS and source2's
track is DOS (its type is not RAW; for parsed headers, whose types are DOS or RAW, that is
the same).  The callback reports success. -/
theorem dosMergeTrackSourceCallback_decision (trackSources : Nat → EADFTrackSource)
    (h1 h2 : EADFHeader) (i : Nat) (hi : i < max h1.numTracks h2.numTracks) :
    ((dosMergeTrackSourceCallback trackSources h1 h2).2 i = EADFTrackSource.SOURCE1
        ↔ (i ≥ h2.numTracks
            ∨ (i < h1.numTracks
                ∧ (h1.trackType i = EADFTRACKTYPE_DOS ∨ h2.trackType i = EADFTRACKTYPE_RAW))))
      ∧ ((dosMergeTrackSourceCallback trackSources h1 h2).2 i = EADFTrackSource.SOURCE2
        ↔ ¬ (i ≥ h2.numTracks
            ∨ (i < h1.numTracks
                ∧ (h1.trackType i = EADFTRACKTYPE_DOS ∨ h2.trackType i = EADFTRACKTYPE_RAW))))
      ∧ (i < h1.numTracks → i < h2.numTracks →
          (h2.trackType i = EADFTRACKTYPE_DOS ∨ h2.trackType i = EADFTRACKTYPE_RAW) →
          ((dosMergeTrackSourceCallback trackSources h1 h2).2 i = EADFTrackSource.SOURCE2
            ↔ h1.trackType i ≠ EADFTRACKTYPE_DOS ∧ h2.trackType i = EADFTRACKTYPE_DOS))
      ∧ (dosMergeTrackSourceCallback trackSources h1 h2).1 = CommandStatus.SUCCESS := by
  have hr : 0 ≤ i ∧ i < 0 + max h1.numTracks h2.numTracks := by omega
  simp only [dosMergeTrackSourceCallback, max_numTracks, dosMergeTrackSourceLoop_apply, if_pos hr]
  by_cases hc : i ≥ h2.numTracks
      ∨ (i < h1.numTracks
          ∧ (h1.trackType i = EADFTRACKTYPE_DOS ∨ h2.trackType i = EADFTRACKTYPE_RAW))
  · rw [if_pos hc]
    refine ⟨⟨fun _ => hc, fun _ => rfl⟩, ⟨fun h => (by cases h), fun h => absurd hc h⟩,
      fun ha hb hty => ⟨fun h => (by cases h), fun hz => ?_⟩, trivial⟩
    simp only [EADFTRACKTYPE_DOS, EADFTRACKTYPE_RAW] at hc hz
    omega
  · rw [if_neg hc]
    refine ⟨⟨fun h => (by cases h), fun h => absurd h hc⟩, ⟨fun _ => hc, fun _ => rfl⟩,
      fun ha hb hty => ⟨fun _ => ?_, fun _ => rfl⟩, trivial⟩
    simp only [EADFTRACKTYPE_DOS, EADFTRACKTYPE_RAW] at hc hty ⊢
    omega

theorem dosMergeTrackSourceCallback_decision_witness :
    (0 : Nat) < max (parsedHeader sampleImage2).numTracks (parsedHeader sampleImage).numTracks
      ∧ (dosMergeTrackSourceCallback sampleSources (parsedHeader sampleImage2)
            (parsedHeader sampleImage)).2 0 = EADFTrackSource.SOURCE2 :=
  ⟨by decide,
    (dosMergeTrackSourceCallback_decision sampleSources (parsedHeader sampleImage2)
      (parsedHeader sampleImage) 0 (by decide)).2.2.1 (by decide) (by decide) (by decide)
      |>.mpr (by decide)⟩

/-! ## Lemmas on the merge engine -/

theorem fwrite_full (bytes : List Nat) (dest : OutFILE)
    (h : ¬ (fwrite bytes dest).1 < bytes.length) :
    (fwrite bytes dest).2.data = dest.data ++ bytes := by
  unfold fwrite at h ⊢
  cases hr : dest.room with
  | none => simp only [hr]
  | some r =>
    simp only [hr] at h ⊢
    by_cases hle : bytes.length ≤ r
    · simp only [hle, if_true]
    · simp only [hle, if_false] at h
      omega

theorem mergeHeaderLoop_succ (h1 h2 : EADFHeader) (trackSources : Nat → EADFTrackSource)
    (k track : Nat) (buffer : List Nat) (dest : OutFILE) :
    mergeHeaderLoop h1 h2 trackSources (k + 1) track buffer dest =
      if (buffer ++ mergeRecordBytes h1 h2 trackSources track).length
          > EADF_BUFSIZE - EADF_BYTESPERRECORD then
        if (fwrite (buffer ++ mergeRecordBytes h1 h2 trackSources track) dest).1
            < (buffer ++ mergeRecordBytes h1 h2 trackSources track).length then
          Except.error EADFError.WRITEERROR
        else
          mergeHeaderLoop h1 h2 trackSources k (track + 1) []
            (fwrite (buffer ++ mergeRecordBytes h1 h2 trackSources track) dest).2
      else
        mergeHeaderLoop h1 h2 trackSources k (track + 1)
          (buffer ++ mergeRecordBytes h1 h2 trackSources track) dest :=
  rfl

theorem mergeHeaderLoop_data (h1 h2 : EADFHeader) (trackSources : Nat → EADFTrackSource) :
    ∀ (k track : Nat) (buffer : List Nat) (dest : OutFILE) (r : List Nat × OutFILE),
      mergeHeaderLoop h1 h2 trackSources k track buffer dest = Except.ok r →
      r.2.data ++ r.1 = dest.data ++ buffer
        ++ (List.range' track k).flatMap (mergeRecordBytes h1 h2 trackSources)
  | 0, track, buffer, dest, r, hr => by
    simp only [mergeHeaderLoop, Except.ok.injEq] at hr
    subst hr
    simp
  | k + 1, track, buffer, dest, r, hr => by
    rw [mergeHeaderLoop_succ] at hr
    rw [List.range'_succ, List.flatMap_cons]
    split_ifs at hr with hbig hw
    · have hd := fwrite_full _ dest hw
      have ih := mergeHeaderLoop_data h1 h2 trackSources k (track + 1) [] _ r hr
      rw [ih, hd]
      simp only [List.append_nil, List.append_assoc]
    · have ih := mergeHeaderLoop_data h1 h2 trackSources k (track + 1) _ dest r hr
      rw [ih]
      simp only [List.append_assoc]

theorem fread_fst (count : Nat) (f : FILE) :
    (fread count f).1 = (f.data.drop f.pos).take count := rfl

theorem fread_snd_data (count : Nat) (f : FILE) : (fread count f).2.data = f.data := rfl

theorem fread_snd_pos (count : Nat) (f : FILE) :
    (fread count f).2.pos = f.pos + ((f.data.drop f.pos).take count).length := rfl

theorem copyLoop_data :
    ∀ (fuel : Nat) (numBytes : Int) (hb : numBytes ≤ 1024 * (fuel : Int)) (src : FILE)
      (dest : OutFILE) (r : FILE × OutFILE),
      copyLoop fuel numBytes hb src dest = Except.ok r →
      r.2.data = dest.data ++ (src.data.drop src.pos).take numBytes.toNat
        ∧ r.1.data = src.data
        ∧ numBytes.toNat ≤ src.data.length - src.pos
  | 0, numBytes, hb, src, dest, r, hr => by
    simp only [copyLoop, Except.ok.injEq] at hr
    subst hr
    have : numBytes.toNat = 0 := by omega
    simp [this]
  | fuel + 1, numBytes, hb, src, dest, r, hr => by
    rw [copyLoop] at hr
    by_cases hpos : numBytes > 0
    swap
    · rw [if_neg hpos] at hr
      simp only [Except.ok.injEq] at hr
      subst hr
      have : numBytes.toNat = 0 := by omega
      simp [this]
    rw [if_pos hpos] at hr
    simp only [] at hr
    split_ifs at hr with hbig hshort hw hshort hw
    · -- a full buffer of 1024 bytes
      simp only [EADF_BUFSIZE, Nat.cast_ofNat] at hbig
      obtain ⟨ih1, ih2, ih3⟩ := copyLoop_data fuel _ _ _ _ r hr
      have hlen : ((src.data.drop src.pos).take EADF_BUFSIZE).length = EADF_BUFSIZE := by
        have h1 := List.length_take_le EADF_BUFSIZE (src.data.drop src.pos)
        rw [fread_fst] at hshort
        omega
      have hd := fwrite_full (fread EADF_BUFSIZE src).1 dest (by
        rw [fread_fst, hlen]; exact hw)
      rw [fread_snd_data] at ih1 ih2 ih3
      rw [fread_snd_pos, hlen] at ih1 ih3
      rw [hd, fread_fst] at ih1
      have hsplit : numBytes.toNat = EADF_BUFSIZE + (numBytes - (EADF_BUFSIZE : Int)).toNat := by
        simp only [EADF_BUFSIZE, Nat.cast_ofNat]; omega
      have hl2 : (src.data.drop src.pos).length = src.data.length - src.pos :=
        List.length_drop _ _
      have hl3 : ((src.data.drop src.pos).take EADF_BUFSIZE).length
          ≤ (src.data.drop src.pos).length := by
        rw [List.length_take]; exact Nat.min_le_right _ _
      refine ⟨?_, ih2, ?_⟩
      · rw [ih1, hsplit, List.take_add, List.drop_drop, List.append_assoc]
      · rw [hsplit]
        omega
    · -- the last, partial buffer
      simp only [EADF_BUFSIZE, Nat.cast_ofNat] at hbig
      obtain ⟨ih1, ih2, ih3⟩ := copyLoop_data fuel _ _ _ _ r hr
      have hlen : ((src.data.drop src.pos).take numBytes.toNat).length = numBytes.toNat := by
        have h1 := List.length_take_le numBytes.toNat (src.data.drop src.pos)
        rw [fread_fst] at hshort
        omega
      have hd := fwrite_full (fread numBytes.toNat src).1 dest (by
        rw [fread_fst, hlen]; exact hw)
      have hz : (numBytes - (EADF_BUFSIZE : Int)).toNat = 0 := by
        simp only [EADF_BUFSIZE, Nat.cast_ofNat]; omega
      rw [fread_snd_data] at ih1 ih2
      rw [hd, fread_fst, hz, List.take_zero, List.append_nil] at ih1
      have hl2 : (src.data.drop src.pos).length = src.data.length - src.pos :=
        List.length_drop _ _
      have hl3 : ((src.data.drop src.pos).take numBytes.toNat).length
          ≤ (src.data.drop src.pos).length := by
        rw [List.length_take]; exact Nat.min_le_right _ _
      refine ⟨ih1, ih2, ?_⟩
      omega

theorem fseek_ok (f : FILE) (offset : Int) (h : ¬ (fseek f offset).1 < 0) :
    (fseek f offset).2.data = f.data ∧ (fseek f offset).2.pos = offset.toNat ∧ 0 ≤ offset := by
  unfold fseek at h ⊢
  by_cases ho : offset < 0
  · simp only [ho, if_true] at h
    omega
  · rw [if_neg ho]
    exact ⟨rfl, rfl, by omega⟩

theorem mergedPayload_cons (h1 : EADFHeader) (s1 : List Nat) (h2 : EADFHeader) (s2 : List Nat)
    (trackSources : Nat → EADFTrackSource) (track k : Nat) :
    (List.range' track (k + 1)).flatMap (mergedPayload h1 s1 h2 s2 trackSources)
      = mergedPayload h1 s1 h2 s2 trackSources track
        ++ (List.range' (track + 1) k).flatMap (mergedPayload h1 s1 h2 s2 trackSources) := by
  rw [List.range'_succ, List.flatMap_cons]

theorem mergePayloadLoop_data (h1 h2 : EADFHeader) (trackSources : Nat → EADFTrackSource) :
    ∀ (k track : Nat) (f1 f2 : FILE) (dest : OutFILE) (r : FILE × FILE × OutFILE),
      mergePayloadLoop h1 h2 trackSources k track f1 f2 dest = Except.ok r →
      r.2.2.data = dest.data
          ++ (List.range' track k).flatMap (mergedPayload h1 f1.data h2 f2.data trackSources)
        ∧ r.1.data = f1.data ∧ r.2.1.data = f2.data
  | 0, track, f1, f2, dest, r, hr => by
    simp only [mergePayloadLoop, Except.ok.injEq] at hr
    subst hr
    simp
  | k + 1, track, f1, f2, dest, r, hr => by
    rw [mergePayloadLoop] at hr
    rw [mergedPayload_cons]
    cases hts : trackSources track with
    | NONE =>
      simp only [hts, reduceCtorEq, if_false] at hr
      obtain ⟨ih1, ih2, ih3⟩ := mergePayloadLoop_data h1 h2 trackSources k (track + 1) _ _ _ r hr
      refine ⟨?_, ih2, ih3⟩
      rw [ih1]
      simp only [mergedPayload, hts, List.nil_append]
    | SOURCE1 =>
      simp only [hts, if_true] at hr
      split_ifs at hr with hsk
      split at hr
      · cases hr
      · rename_i c hc
        obtain ⟨c1, c2, _⟩ := copyLoop_data _ _ _ _ _ c hc
        obtain ⟨s1, s2, _⟩ := fseek_ok f1 _ hsk
        obtain ⟨ih1, ih2, ih3⟩ :=
          mergePayloadLoop_data h1 h2 trackSources k (track + 1) _ _ _ r hr
        rw [c2, s1] at ih1 ih2
        refine ⟨?_, ih2, ih3⟩
        rw [ih1, c1, s1, s2]
        simp only [mergedPayload, hts, copiedBytes, List.append_assoc]
    | SOURCE2 =>
      simp only [hts, reduceCtorEq, if_false, if_true] at hr
      split_ifs at hr with hsk
      split at hr
      · cases hr
      · rename_i c hc
        obtain ⟨c1, c2, _⟩ := copyLoop_data _ _ _ _ _ c hc
        obtain ⟨s1, s2, _⟩ := fseek_ok f2 _ hsk
        obtain ⟨ih1, ih2, ih3⟩ :=
          mergePayloadLoop_data h1 h2 trackSources k (track + 1) _ _ _ r hr
        rw [c2, s1] at ih1 ih3
        refine ⟨?_, ih2, ih3⟩
        rw [ih1, c1, s1, s2]
        simp only [mergedPayload, hts, copiedBytes, List.append_assoc]

theorem eadfMergeFiles_data (h1 : EADFHeader) (f1 : FILE) (h2 : EADFHeader) (f2 : FILE)
    (dest : OutFILE) (trackSources : Nat → EADFTrackSource) (r : FILE × FILE × OutFILE)
    (hr : eadfMergeFiles h1 f1 h2 f2 dest trackSources = Except.ok r) :
    r.2.2.data = dest.data ++ magicBytes
      ++ bigEndianBytesFromLong (longFromULong (max h1.numTracks h2.numTracks))
      ++ (List.range (max h1.numTracks h2.numTracks)).flatMap
          (mergeRecordBytes h1 h2 trackSources)
      ++ (List.range (max h1.numTracks h2.numTracks)).flatMap
          (mergedPayload h1 f1.data h2 f2.data trackSources) := by
  unfold eadfMergeFiles at hr
  simp only [max_numTracks] at hr
  split at hr
  · cases hr
  · rename_i hb hhb
    split_ifs at hr with hw
    have hd := fwrite_full _ _ hw
    have hh := mergeHeaderLoop_data h1 h2 trackSources _ _ _ _ hb hhb
    obtain ⟨p1, _, _⟩ := mergePayloadLoop_data h1 h2 trackSources _ _ _ _ _ r hr
    rw [p1, hd, hh, List.range_eq_range']
    simp only [magicBytes, List.append_assoc]

/-! ## Parsing a serialized header block -/

theorem offset_bound_of_step (off size : Nat → Nat) (n base : Nat)
    (hfirst : 0 < n → off 0 = base)
    (hstep : ∀ m, m + 1 < n → off (m + 1) = off m + size m)
    (hsize : ∀ m, m < n → size m < 2 ^ 32) :
    ∀ i, i < n → off i ≤ base + i * 2 ^ 32
  | 0, hi => by rw [hfirst hi]; omega
  | i + 1, hi => by
    have ih := offset_bound_of_step off size n base hfirst hstep hsize i (by omega)
    have hs := hsize i (by omega)
    rw [hstep i hi]
    omega

theorem parsed_facts (g : EADFHeader) (s : List Nat) (h : EADFHeader) (f : FILE)
    (hok : eadfHeaderInitWithFile g (openStream s) = Except.ok (h, f)) :
    h.numTracks ≤ 166 ∧ f = afterHeader s h.numTracks ∧ 12 + 12 * h.numTracks ≤ s.length
      ∧ ∀ i, i < h.numTracks →
          h.trackType i ≤ 1 ∧ h.trackSizeBytes i < 2 ^ 32 ∧ h.trackSizeBits i < 2 ^ 32
          ∧ h.trackOffset i < 2 ^ 63 := by
  obtain ⟨hc, hgood⟩ := eadfHeaderInitWithFile_ok_inv g s h f hok
  obtain ⟨h', e, _, hnum, _, hrec, hfirst, hstep⟩ := eadfHeaderInitWithFile_valid g s hc hgood
  rw [hok] at e
  injection e with e
  injection e with e1 e2
  subst e1
  have hsz : ∀ m, m < h.numTracks → h.trackSizeBytes m < 2 ^ 32 := by
    intro m hm
    rw [(hrec m hm).2.1]
    exact longFromBigEndianBytes_lt _
  refine ⟨by rw [hnum]; exact hc.2.1, ?_, by rw [hnum]; exact hc.2.2, ?_⟩
  · rw [e2, hnum]
    rfl
  · intro i hi
    have hb := offset_bound_of_step h.trackOffset h.trackSizeBytes h.numTracks _ hfirst hstep hsz
      i hi
    have hn : h.numTracks ≤ 166 := by rw [hnum]; exact hc.2.1
    refine ⟨?_, hsz i hi, ?_, ?_⟩
    · rw [(hrec i hi).1]
      exact hgood i (by rw [← hnum]; exact hi)
    · rw [(hrec i hi).2.2]
      exact longFromBigEndianBytes_lt _
    · have : i * 2 ^ 32 ≤ 166 * 2 ^ 32 := Nat.mul_le_mul_right _ (by omega)
      omega

theorem recordBytes_length (r : Nat × Nat × Nat) : (recordBytes r).length = 12 := rfl

theorem recordBytes_decode (r : Nat × Nat × Nat) (rest : List Nat)
    (h1 : r.1 < 2 ^ 32) (h2 : r.2.1 < 2 ^ 32) (h3 : r.2.2 < 2 ^ 32) :
    longFromBigEndianBytes (recordBytes r ++ rest) = r.1
      ∧ longFromBigEndianBytes ((recordBytes r ++ rest).drop 4) = r.2.1
      ∧ longFromBigEndianBytes ((recordBytes r ++ rest).drop 8) = r.2.2 := by
  simp only [recordBytes, bigEndianBytesFromLong_natCast, longFromBigEndianBytes_eq,
    List.cons_append, List.nil_append, List.drop_succ_cons, List.drop_zero,
    List.getD_cons_zero, List.getD_cons_succ]
  refine ⟨?_, ?_, ?_⟩ <;> omega

theorem flatMap_rangeFrom_drop (f : Nat → List Nat) (hlen : ∀ i, (f i).length = 12) :
    ∀ (i n start : Nat), i < n →
      ((List.range' start n).flatMap f).drop (12 * i)
        = f (start + i) ++ (List.range' (start + i + 1) (n - i - 1)).flatMap f
  | 0, n, start, hi => by
    obtain ⟨m, rfl⟩ : ∃ m, n = m + 1 := ⟨n - 1, by omega⟩
    rw [List.range'_succ, List.flatMap_cons]
    simp
  | i + 1, n, start, hi => by
    obtain ⟨m, rfl⟩ : ∃ m, n = m + 1 := ⟨n - 1, by omega⟩
    rw [List.range'_succ, List.flatMap_cons]
    have h12 : 12 * (i + 1) = (f start).length + 12 * i := by rw [hlen]; omega
    rw [h12, List.drop_append, flatMap_rangeFrom_drop f hlen i m (start + 1) (by omega)]
    have e1 : start + 1 + i = start + (i + 1) := by omega
    have e2 : m - i - 1 = m + 1 - (i + 1) - 1 := by omega
    rw [e1, e2]

theorem flatMap_rangeFrom_length (f : Nat → List Nat) (hlen : ∀ i, (f i).length = 12) :
    ∀ (n start : Nat), ((List.range' start n).flatMap f).length = 12 * n
  | 0, start => by simp
  | n + 1, start => by
    rw [List.range'_succ, List.flatMap_cons, List.length_append, hlen,
      flatMap_rangeFrom_length f hlen n (start + 1)]
    omega

theorem longFromBigEndianBytes_encode (v : Nat) (rest : List Nat) (hv : v < 2 ^ 32) :
    longFromBigEndianBytes (bigEndianBytesFromLong (v : Int) ++ rest) = v := by
  simp only [bigEndianBytesFromLong_natCast, longFromBigEndianBytes_eq, List.cons_append,
    List.getD_cons_zero, List.getD_cons_succ]
  omega

theorem headerBlock_eq (n : Nat) (record : Nat → Nat × Nat × Nat) (payload : List Nat) :
    headerBlock n record ++ payload
      = magicBytes ++ (bigEndianBytesFromLong (n : Int)
          ++ ((List.range n).flatMap (fun i => recordBytes (record i)) ++ payload)) := by
  have hmb : magicBytes = [85, 65, 69, 45, 49, 65, 68, 70] := rfl
  rw [headerBlock, hmb]
  simp only [List.append_assoc]

theorem headerBlock_drop (n : Nat) (record : Nat → Nat × Nat × Nat) (payload : List Nat)
    (i : Nat) (hi : i < n) :
    (headerBlock n record ++ payload).drop (12 + 12 * i)
      = recordBytes (record i)
        ++ ((List.range' (i + 1) (n - i - 1)).flatMap (fun j => recordBytes (record j))
            ++ payload) := by
  rw [headerBlock_eq, ← List.drop_drop, ← List.drop_drop 4 8]
  have h8 : (magicBytes ++ (bigEndianBytesFromLong (n : Int)
      ++ ((List.range n).flatMap (fun i => recordBytes (record i)) ++ payload))).drop 8
      = bigEndianBytesFromLong (n : Int)
        ++ ((List.range n).flatMap (fun i => recordBytes (record i)) ++ payload) :=
    List.drop_left' rfl
  have h4 : (bigEndianBytesFromLong (n : Int)
      ++ ((List.range n).flatMap (fun i => recordBytes (record i)) ++ payload)).drop 4
      = (List.range n).flatMap (fun i => recordBytes (record i)) ++ payload :=
    List.drop_left' rfl
  rw [h8, h4, List.range_eq_range']
  have hlen := flatMap_rangeFrom_length (fun j => recordBytes (record j))
    (fun j => recordBytes_length (record j)) n 0
  rw [List.drop_append_of_le_length (by rw [hlen]; omega),
    flatMap_rangeFrom_drop (fun j => recordBytes (record j))
      (fun j => recordBytes_length (record j)) i n 0 hi]
  simp only [Nat.zero_add, List.append_assoc]

theorem headerBlock_length (n : Nat) (record : Nat → Nat × Nat × Nat) :
    (headerBlock n record).length = 12 + 12 * n := by
  have hlen := flatMap_rangeFrom_length (fun j => recordBytes (record j))
    (fun j => recordBytes_length (record j)) n 0
  rw [headerBlock, List.length_append, List.length_append, List.range_eq_range', hlen]
  rfl

theorem headerBlock_complete (n : Nat) (record : Nat → Nat × Nat × Nat) (payload : List Nat)
    (hn : n ≤ 166) :
    (headerBlock n record ++ payload).take 8 = magicBytes
      ∧ longFromBigEndianBytes ((headerBlock n record ++ payload).drop 8) = n
      ∧ 12 + 12 * n ≤ (headerBlock n record ++ payload).length := by
  refine ⟨?_, ?_, ?_⟩
  · rw [headerBlock_eq]
    exact List.take_left' rfl
  · have h8 : (magicBytes ++ (bigEndianBytesFromLong (n : Int)
        ++ ((List.range n).flatMap (fun i => recordBytes (record i)) ++ payload))).drop 8
        = bigEndianBytesFromLong (n : Int)
          ++ ((List.range n).flatMap (fun i => recordBytes (record i)) ++ payload) :=
      List.drop_left' rfl
    rw [headerBlock_eq, h8]
    exact longFromBigEndianBytes_encode n _ (by omega)
  · rw [List.length_append, headerBlock_length]
    omega

theorem headerBlock_parse (g : EADFHeader) (n : Nat) (record : Nat → Nat × Nat × Nat)
    (payload : List Nat) (hn : n ≤ 166)
    (hrec : ∀ i, i < n →
      (record i).1 ≤ 1 ∧ (record i).2.1 < 2 ^ 32 ∧ (record i).2.2 < 2 ^ 32) :
    ∃ h, eadfHeaderInitWithFile g (openStream (headerBlock n record ++ payload))
          = Except.ok (h, afterHeader (headerBlock n record ++ payload) n)
      ∧ h.numTracks = n
      ∧ (∀ i, i < n → h.trackType i = (record i).1 ∧ h.trackSizeBytes i = (record i).2.1
          ∧ h.trackSizeBits i = (record i).2.2)
      ∧ (0 < n → h.trackOffset 0 = 12 + 12 * n)
      ∧ (∀ m, m + 1 < n → h.trackOffset (m + 1) = h.trackOffset m + h.trackSizeBytes m) := by
  obtain ⟨c1, c2, c3⟩ := headerBlock_complete n record payload hn
  have hc : CompleteTable (headerBlock n record ++ payload) := ⟨c1, by rw [c2]; exact hn,
    by rw [c2]; exact c3⟩
  have hdec : ∀ i, i < n →
      longFromBigEndianBytes ((headerBlock n record ++ payload).drop (12 + 12 * i))
          = (record i).1
        ∧ longFromBigEndianBytes ((headerBlock n record ++ payload).drop (12 + 12 * i + 4))
          = (record i).2.1
        ∧ longFromBigEndianBytes ((headerBlock n record ++ payload).drop (12 + 12 * i + 8))
          = (record i).2.2 := by
    intro i hi
    obtain ⟨r1, r2, r3⟩ := hrec i hi
    rw [← List.drop_drop 4, ← List.drop_drop 8, headerBlock_drop n record payload i hi]
    exact recordBytes_decode (record i) _ (by omega) r2 r3
  obtain ⟨h, e, _, hnum, _, hfields, hfirst, hstep⟩ :=
    eadfHeaderInitWithFile_valid g _ hc (fun m hm => by
      rw [c2] at hm
      rw [(hdec m hm).1]
      exact (hrec m hm).1)
  rw [c2] at hnum e
  refine ⟨h, e, hnum, ?_, ?_, ?_⟩
  · intro i hi
    obtain ⟨f1, f2, f3⟩ := hfields i (by rw [hnum]; exact hi)
    obtain ⟨d1, d2, d3⟩ := hdec i hi
    exact ⟨by rw [f1, d1], by rw [f2, d2], by rw [f3, d3]⟩
  · intro hpos
    have := hfirst (by rw [hnum]; exact hpos)
    rw [hnum] at this
    exact this
  · intro m hm
    exact hstep m (by rw [hnum]; exact hm)

theorem mergeRecordBytes_parsed (h1 h2 : EADFHeader) (trackSources : Nat → EADFTrackSource)
    (hf1 : ∀ i, i < h1.numTracks → h1.trackSizeBytes i < 2 ^ 32 ∧ h1.trackSizeBits i < 2 ^ 32)
    (hf2 : ∀ i, i < h2.numTracks → h2.trackSizeBytes i < 2 ^ 32 ∧ h2.trackSizeBits i < 2 ^ 32)
    (i : Nat) :
    mergeRecordBytes h1 h2 trackSources i = recordBytes (mergedRecord h1 h2 trackSources i) := by
  unfold mergeRecordBytes mergedRecord
  split_ifs with c1 c2
  · obtain ⟨a, b⟩ := hf1 i c1.2
    rw [longFromULong_of_lt (by omega), longFromULong_of_lt (by omega)]
    rfl
  · obtain ⟨a, b⟩ := hf2 i c2.2
    rw [longFromULong_of_lt (by omega), longFromULong_of_lt (by omega)]
    rfl
  · rfl

theorem mergedRecord_bounds (h1 h2 : EADFHeader) (trackSources : Nat → EADFTrackSource)
    (hf1 : ∀ i, i < h1.numTracks →
      h1.trackType i ≤ 1 ∧ h1.trackSizeBytes i < 2 ^ 32 ∧ h1.trackSizeBits i < 2 ^ 32)
    (hf2 : ∀ i, i < h2.numTracks →
      h2.trackType i ≤ 1 ∧ h2.trackSizeBytes i < 2 ^ 32 ∧ h2.trackSizeBits i < 2 ^ 32)
    (i : Nat) :
    (mergedRecord h1 h2 trackSources i).1 ≤ 1
      ∧ (mergedRecord h1 h2 trackSources i).2.1 < 2 ^ 32
      ∧ (mergedRecord h1 h2 trackSources i).2.2 < 2 ^ 32 := by
  unfold mergedRecord
  split_ifs with c1 c2
  · exact hf1 i c1.2
  · exact hf2 i c2.2
  · exact ⟨by decide, by decide, by decide⟩

theorem eadfMergeFiles_layout (g1 : EADFHeader) (s1 : List Nat) (h1 : EADFHeader) (p1 : FILE)
    (hp1 : eadfHeaderInitWithFile g1 (openStream s1) = Except.ok (h1, p1))
    (g2 : EADFHeader) (s2 : List Nat) (h2 : EADFHeader) (p2 : FILE)
    (hp2 : eadfHeaderInitWithFile g2 (openStream s2) = Except.ok (h2, p2))
    (f1 f2 : FILE) (room : Option Nat) (trackSources : Nat → EADFTrackSource)
    (r : FILE × FILE × OutFILE)
    (hm : eadfMergeFiles h1 f1 h2 f2 (createStream room) trackSources = Except.ok r) :
    r.2.2.data
      = headerBlock (max h1.numTracks h2.numTracks) (mergedRecord h1 h2 trackSources)
        ++ (List.range (max h1.numTracks h2.numTracks)).flatMap
            (mergedPayload h1 f1.data h2 f2.data trackSources) := by
  obtain ⟨n1, _, _, q1⟩ := parsed_facts g1 s1 h1 p1 hp1
  obtain ⟨n2, _, _, q2⟩ := parsed_facts g2 s2 h2 p2 hp2
  have hrec : mergeRecordBytes h1 h2 trackSources
      = fun i => recordBytes (mergedRecord h1 h2 trackSources i) := by
    funext i
    exact mergeRecordBytes_parsed h1 h2 trackSources
      (fun j hj => ⟨(q1 j hj).2.1, (q1 j hj).2.2.1⟩)
      (fun j hj => ⟨(q2 j hj).2.1, (q2 j hj).2.2.1⟩) i
  have hn : max h1.numTracks h2.numTracks < 2 ^ 63 := by omega
  rw [eadfMergeFiles_data h1 f1 h2 f2 _ trackSources r hm, longFromULong_of_lt hn, hrec]
  have hmb : magicBytes = [85, 65, 69, 45, 49, 65, 68, 70] := rfl
  simp only [createStream, List.nil_append, headerBlock, hmb]

/-- C7. The header a merge writes: for parsed headers `h1`, `h2` and any decision array, the
output of a successful `eadfMergeFiles` is the header block (magic, big-endian count
`max(count1, count2)`, then that many 12-byte records, record `i` holding source 1's
(type, bytes, bits) if `decision[i]` is Source1 and `i < count1`, source 2's if it is
Source2 and `i < count2`, and (RAW, 0, 0) otherwise) followed by the payload; and parsing
the output again succeeds with exactly that count and those values. -/
theorem eadfMergeFiles_header (g1 : EADFHeader) (s1 : List Nat) (h1 : EADFHeader) (p1 : FILE)
    (hp1 : eadfHeaderInitWithFile g1 (openStream s1) = Except.ok (h1, p1))
    (g2 : EADFHeader) (s2 : List Nat) (h2 : EADFHeader) (p2 : FILE)
    (hp2 : eadfHeaderInitWithFile g2 (openStream s2) = Except.ok (h2, p2))
    (f1 f2 : FILE) (room : Option Nat) (trackSources : Nat → EADFTrackSource)
    (r : FILE × FILE × OutFILE)
    (hm : eadfMergeFiles h1 f1 h2 f2 (createStream room) trackSources = Except.ok r) :
    (∃ payload, r.2.2.data
        = headerBlock (max h1.numTracks h2.numTracks) (mergedRecord h1 h2 trackSources)
          ++ payload)
      ∧ ∀ g, ∃ h f, eadfHeaderInitWithFile g (openStream r.2.2.data) = Except.ok (h, f)
          ∧ h.numTracks = max h1.numTracks h2.numTracks
          ∧ ∀ i, i < max h1.numTracks h2.numTracks →
              (h.trackType i, h.trackSizeBytes i, h.trackSizeBits i)
                = mergedRecord h1 h2 trackSources i := by
  have hl := eadfMergeFiles_layout g1 s1 h1 p1 hp1 g2 s2 h2 p2 hp2 f1 f2 room trackSources r hm
  obtain ⟨n1, _, _, q1⟩ := parsed_facts g1 s1 h1 p1 hp1
  obtain ⟨n2, _, _, q2⟩ := parsed_facts g2 s2 h2 p2 hp2
  refine ⟨⟨_, hl⟩, ?_⟩
  intro g
  obtain ⟨h, e, hnum, hfields, _⟩ := headerBlock_parse g (max h1.numTracks h2.numTracks)
    (mergedRecord h1 h2 trackSources)
    ((List.range (max h1.numTracks h2.numTracks)).flatMap
      (mergedPayload h1 f1.data h2 f2.data trackSources))
    (by omega)
    (fun i _ => mergedRecord_bounds h1 h2 trackSources
      (fun j hj => ⟨(q1 j hj).1, (q1 j hj).2.1, (q1 j hj).2.2.1⟩)
      (fun j hj => ⟨(q2 j hj).1, (q2 j hj).2.1, (q2 j hj).2.2.1⟩) i)
  rw [hl]
  refine ⟨h, _, e, hnum, ?_⟩
  intro i hi
  obtain ⟨a, b, c⟩ := hfields i hi
  rw [a, b, c]

theorem eadfMergeFiles_header_witness :
    sampleMerge = Except.ok (mergeResult sampleMerge)
      ∧ (mergeResult sampleMerge).2.2.data.take 36
          = [85, 65, 69, 45, 49, 65, 68, 70, 0, 0, 0, 2,
             0, 0, 0, 0, 0, 0, 0, 3, 0, 0, 0, 24,
             0, 0, 0, 0, 0, 0, 0, 4, 0, 0, 0, 32]
      ∧ (∃ payload, (mergeResult sampleMerge).2.2.data
          = headerBlock
              (max (parsedHeader sampleImage).numTracks (parsedHeader sampleImage2).numTracks)
              (mergedRecord (parsedHeader sampleImage) (parsedHeader sampleImage2) sampleSources)
            ++ payload) :=
  ⟨rfl, by decide,
    (eadfMergeFiles_header blankHeader sampleImage (parsedHeader sampleImage)
      (afterHeader sampleImage 2) rfl blankHeader sampleImage2 (parsedHeader sampleImage2)
      (afterHeader sampleImage2 2) rfl (afterHeader sampleImage 2) (afterHeader sampleImage2 2)
      none sampleSources (mergeResult sampleMerge) rfl).1⟩

theorem flatMap_range_length (c : Nat → List Nat) :
    ∀ n, ((List.range n).flatMap c).length = ∑ j in Finset.range n, (c j).length
  | 0 => by simp
  | n + 1 => by
    rw [List.range_succ, List.flatMap_append, List.length_append, flatMap_range_length c n,
      Finset.sum_range_succ]
    simp

theorem flatMap_range_split (c : Nat → List Nat) (n i : Nat) (hi : i < n) :
    (List.range n).flatMap c
      = (List.range i).flatMap c ++ (c i ++ (List.range' (i + 1) (n - i - 1)).flatMap c) := by
  have h1 : List.range n = List.range i ++ (i :: List.range' (i + 1) (n - i - 1)) := by
    rw [List.range_eq_range', List.range_eq_range', ← List.range'_succ]
    have := @List.range'_append 0 i (n - i - 1 + 1) 1
    simp only [Nat.one_mul, Nat.zero_add] at this
    rw [this]
    congr 1
    omega
  rw [h1, List.flatMap_append, List.flatMap_cons]

theorem container_track (block : List Nat) (c : Nat → List Nat) (n i : Nat) (hi : i < n) :
    ((block ++ (List.range n).flatMap c).drop
        (block.length + ∑ j in Finset.range i, (c j).length)).take (c i).length = c i := by
  rw [← List.drop_drop, List.drop_left, flatMap_range_split c n i hi,
    ← flatMap_range_length c i, List.drop_left, List.take_left]

theorem container_parse (g : EADFHeader) (n : Nat) (record : Nat → Nat × Nat × Nat)
    (chunk : Nat → List Nat) (hn : n ≤ 166)
    (hrec : ∀ i, i < n →
      (record i).1 ≤ 1 ∧ (record i).2.1 < 2 ^ 32 ∧ (record i).2.2 < 2 ^ 32)
    (hlen : ∀ i, i < n → (chunk i).length = (record i).2.1) :
    ∃ h f, eadfHeaderInitWithFile g
          (openStream (headerBlock n record ++ (List.range n).flatMap chunk)) = Except.ok (h, f)
      ∧ h.numTracks = n
      ∧ (∀ i, i < n → h.trackType i = (record i).1 ∧ h.trackSizeBytes i = (record i).2.1
          ∧ h.trackSizeBits i = (record i).2.2)
      ∧ (∀ i, i < n →
          trackBytes h (headerBlock n record ++ (List.range n).flatMap chunk) i = chunk i) := by
  obtain ⟨h, e, hnum, hfields, hfirst, hstep⟩ :=
    headerBlock_parse g n record ((List.range n).flatMap chunk) hn hrec
  refine ⟨h, _, e, hnum, hfields, ?_⟩
  intro i hi
  have hoff := offset_sum_of_step h.trackOffset h.trackSizeBytes n (12 + 12 * n) hfirst hstep i hi
  have hsum : ∑ j in Finset.range i, h.trackSizeBytes j
      = ∑ j in Finset.range i, (chunk j).length := by
    apply Finset.sum_congr rfl
    intro j hj
    have hjn : j < n := by
      have := Finset.mem_range.mp hj
      omega
    rw [(hfields j hjn).2.1, hlen j hjn]
  have hsize : h.trackSizeBytes i = (chunk i).length := by
    rw [(hfields i hi).2.1, hlen i hi]
  unfold trackBytes
  rw [hoff, hsum, hsize, ← headerBlock_length n record]
  exact container_track (headerBlock n record) chunk n i hi

/-! ## Selected tracks are read in full -/

theorem copiedBytes_length_of_avail (h : EADFHeader) (s : List Nat) (i : Nat)
    (ha : (longFromULong (h.trackSizeBytes i)).toNat
      ≤ s.length - (longFromULong (h.trackOffset i)).toNat) :
    (copiedBytes h s i).length = copiedLength h i := by
  unfold copiedBytes copiedLength
  rw [List.length_take, List.length_drop]
  omega

theorem mergePayloadLoop_avail (h1 h2 : EADFHeader) (trackSources : Nat → EADFTrackSource) :
    ∀ (k track : Nat) (f1 f2 : FILE) (dest : OutFILE) (r : FILE × FILE × OutFILE),
      mergePayloadLoop h1 h2 trackSources k track f1 f2 dest = Except.ok r →
      ∀ i, track ≤ i → i < track + k →
        (trackSources i = EADFTrackSource.SOURCE1 →
          (copiedBytes h1 f1.data i).length = copiedLength h1 i)
        ∧ (trackSources i = EADFTrackSource.SOURCE2 →
          (copiedBytes h2 f2.data i).length = copiedLength h2 i)
  | 0, track, f1, f2, dest, r, _ => by
    intro i h1 h2
    omega
  | k + 1, track, f1, f2, dest, r, hr => by
    rw [mergePayloadLoop] at hr
    cases hts : trackSources track with
    | NONE =>
      simp only [hts, reduceCtorEq, if_false] at hr
      have ih := mergePayloadLoop_avail h1 h2 trackSources k (track + 1) _ _ _ r hr
      intro i hi1 hi2
      by_cases hit : i = track
      · subst hit
        simp only [hts, reduceCtorEq, false_implies, and_self]
      · exact ih i (by omega) (by omega)
    | SOURCE1 =>
      simp only [hts, if_true] at hr
      split_ifs at hr with hsk
      split at hr
      · cases hr
      · rename_i c hc
        obtain ⟨_, c2, c3⟩ := copyLoop_data _ _ _ _ _ c hc
        obtain ⟨s1, s2, _⟩ := fseek_ok f1 _ hsk
        have ih := mergePayloadLoop_avail h1 h2 trackSources k (track + 1) _ _ _ r hr
        rw [c2, s1] at ih
        intro i hi1 hi2
        by_cases hit : i = track
        · subst hit
          rw [s1, s2] at c3
          simp only [hts, reduceCtorEq, false_implies, and_true, true_implies]
          exact copiedBytes_length_of_avail h1 f1.data i c3
        · exact ih i (by omega) (by omega)
    | SOURCE2 =>
      simp only [hts, reduceCtorEq, if_false, if_true] at hr
      split_ifs at hr with hsk
      split at hr
      · cases hr
      · rename_i c hc
        obtain ⟨_, c2, c3⟩ := copyLoop_data _ _ _ _ _ c hc
        obtain ⟨s1, s2, _⟩ := fseek_ok f2 _ hsk
        have ih := mergePayloadLoop_avail h1 h2 trackSources k (track + 1) _ _ _ r hr
        rw [c2, s1] at ih
        intro i hi1 hi2
        by_cases hit : i = track
        · subst hit
          rw [s1, s2] at c3
          simp only [hts, reduceCtorEq, false_implies, true_and, true_implies]
          exact copiedBytes_length_of_avail h2 f2.data i c3
        · exact ih i (by omega) (by omega)

theorem eadfMergeFiles_avail (h1 : EADFHeader) (f1 : FILE) (h2 : EADFHeader) (f2 : FILE)
    (dest : OutFILE) (trackSources : Nat → EADFTrackSource) (r : FILE × FILE × OutFILE)
    (hr : eadfMergeFiles h1 f1 h2 f2 dest trackSources = Except.ok r) :
    ∀ i, i < max h1.numTracks h2.numTracks →
      (trackSources i = EADFTrackSource.SOURCE1 →
        (copiedBytes h1 f1.data i).length = copiedLength h1 i)
      ∧ (trackSources i = EADFTrackSource.SOURCE2 →
        (copiedBytes h2 f2.data i).length = copiedLength h2 i) := by
  unfold eadfMergeFiles at hr
  simp only [max_numTracks] at hr
  split at hr
  · cases hr
  · split_ifs at hr with hw
    intro i hi
    exact mergePayloadLoop_avail h1 h2 trackSources _ _ _ _ _ r hr i (Nat.zero_le i) (by omega)

theorem copiedBytes_parsed (g : EADFHeader) (s : List Nat) (h : EADFHeader) (p : FILE)
    (hp : eadfHeaderInitWithFile g (openStream s) = Except.ok (h, p)) (t : List Nat)
    (i : Nat) (hi : i < h.numTracks) :
    copiedBytes h t i = trackBytes h t i ∧ copiedLength h i = h.trackSizeBytes i := by
  obtain ⟨_, _, _, q⟩ := parsed_facts g s h p hp
  obtain ⟨_, a, _, b⟩ := q i hi
  simp only [copiedBytes, trackBytes, copiedLength, longFromULong_of_lt b,
    longFromULong_of_lt (show h.trackSizeBytes i < 2 ^ 63 by omega), Int.toNat_ofNat, and_self]

theorem eadfMergeFiles_tracks (g1 : EADFHeader) (s1 : List Nat) (h1 : EADFHeader) (p1 : FILE)
    (hp1 : eadfHeaderInitWithFile g1 (openStream s1) = Except.ok (h1, p1))
    (g2 : EADFHeader) (s2 : List Nat) (h2 : EADFHeader) (p2 : FILE)
    (hp2 : eadfHeaderInitWithFile g2 (openStream s2) = Except.ok (h2, p2))
    (room : Option Nat) (trackSources : Nat → EADFTrackSource) (r : FILE × FILE × OutFILE)
    (hm : eadfMergeFiles h1 p1 h2 p2 (createStream room) trackSources = Except.ok r)
    (hin : InRange h1 h2 trackSources (max h1.numTracks h2.numTracks)) (g : EADFHeader) :
    ∃ h f, eadfHeaderInitWithFile g (openStream r.2.2.data) = Except.ok (h, f)
      ∧ h.numTracks = max h1.numTracks h2.numTracks
      ∧ ∀ i, i < max h1.numTracks h2.numTracks →
          (h.trackType i, h.trackSizeBytes i, h.trackSizeBits i)
              = mergedRecord h1 h2 trackSources i
            ∧ trackBytes h r.2.2.data i = selectedTrack h1 s1 h2 s2 trackSources i := by
  have hl := eadfMergeFiles_layout g1 s1 h1 p1 hp1 g2 s2 h2 p2 hp2 p1 p2 room trackSources r hm
  have hav := eadfMergeFiles_avail h1 p1 h2 p2 _ trackSources r hm
  obtain ⟨n1, e1, _, q1⟩ := parsed_facts g1 s1 h1 p1 hp1
  obtain ⟨n2, e2, _, q2⟩ := parsed_facts g2 s2 h2 p2 hp2
  have d1 : p1.data = s1 := by rw [e1]; rfl
  have d2 : p2.data = s2 := by rw [e2]; rfl
  rw [d1, d2] at hl hav
  have hlen : ∀ i, i < max h1.numTracks h2.numTracks →
      (mergedPayload h1 s1 h2 s2 trackSources i).length
        = (mergedRecord h1 h2 trackSources i).2.1 := by
    intro i hi
    obtain ⟨r1, r2⟩ := hin i hi
    obtain ⟨a1, a2⟩ := hav i hi
    unfold mergedPayload mergedRecord
    cases hts : trackSources i with
    | NONE => simp only [reduceCtorEq, false_and, if_false, List.length_nil]
    | SOURCE1 =>
      have hc := r1 hts
      simp only [true_and, hc, if_true]
      rw [a1 hts, (copiedBytes_parsed g1 s1 h1 p1 hp1 s1 i hc).2]
    | SOURCE2 =>
      have hc := r2 hts
      simp only [reduceCtorEq, false_and, if_false, true_and, hc, if_true]
      rw [a2 hts, (copiedBytes_parsed g2 s2 h2 p2 hp2 s2 i hc).2]
  obtain ⟨h, f, e, hnum, hfields, htracks⟩ := container_parse g
    (max h1.numTracks h2.numTracks) (mergedRecord h1 h2 trackSources)
    (mergedPayload h1 s1 h2 s2 trackSources) (by omega)
    (fun i _ => mergedRecord_bounds h1 h2 trackSources
      (fun j hj => ⟨(q1 j hj).1, (q1 j hj).2.1, (q1 j hj).2.2.1⟩)
      (fun j hj => ⟨(q2 j hj).1, (q2 j hj).2.1, (q2 j hj).2.2.1⟩) i)
    hlen
  rw [← hl] at e htracks
  refine ⟨h, f, e, hnum, ?_⟩
  intro i hi
  obtain ⟨a, b, c⟩ := hfields i hi
  refine ⟨by rw [a, b, c], ?_⟩
  rw [htracks i hi]
  obtain ⟨r1, r2⟩ := hin i hi
  unfold mergedPayload selectedTrack
  cases hts : trackSources i with
  | NONE => rfl
  | SOURCE1 => exact (copiedBytes_parsed g1 s1 h1 p1 hp1 s1 i (r1 hts)).1
  | SOURCE2 => exact (copiedBytes_parsed g2 s2 h2 p2 hp2 s2 i (r2 hts)).1

/-! ## Success on an unbounded destination -/

theorem fwrite_none (bytes : List Nat) (dest : OutFILE) (h : dest.room = none) :
    (fwrite bytes dest).1 = bytes.length ∧ (fwrite bytes dest).2.room = none := by
  unfold fwrite
  simp only [h, and_self]

theorem mergeHeaderLoop_succeeds (h1 h2 : EADFHeader) (trackSources : Nat → EADFTrackSource) :
    ∀ (k track : Nat) (buffer : List Nat) (dest : OutFILE), dest.room = none →
      ∃ r, mergeHeaderLoop h1 h2 trackSources k track buffer dest = Except.ok r
        ∧ r.2.room = none
  | 0, track, buffer, dest, hd => ⟨(buffer, dest), rfl, hd⟩
  | k + 1, track, buffer, dest, hd => by
    rw [mergeHeaderLoop_succ]
    split_ifs with hbig hw
    · have := (fwrite_none (buffer ++ mergeRecordBytes h1 h2 trackSources track) dest hd).1
      omega
    · exact mergeHeaderLoop_succeeds h1 h2 trackSources k (track + 1) [] _
        (fwrite_none _ dest hd).2
    · exact mergeHeaderLoop_succeeds h1 h2 trackSources k (track + 1) _ dest hd

theorem copyLoop_succeeds :
    ∀ (fuel : Nat) (numBytes : Int) (hb : numBytes ≤ 1024 * (fuel : Int)) (src : FILE)
      (dest : OutFILE), dest.room = none → numBytes.toNat ≤ src.data.length - src.pos →
      ∃ r, copyLoop fuel numBytes hb src dest = Except.ok r ∧ r.2.room = none
  | 0, numBytes, hb, src, dest, hd, _ => ⟨(src, dest), rfl, hd⟩
  | fuel + 1, numBytes, hb, src, dest, hd, ha => by
    rw [copyLoop]
    by_cases hpos : numBytes > 0
    swap
    · rw [if_neg hpos]
      exact ⟨(src, dest), rfl, hd⟩
    rw [if_pos hpos]
    simp only []
    have hl2 : (src.data.drop src.pos).length = src.data.length - src.pos :=
      List.length_drop _ _
    split_ifs with hbig hshort hw hshort hw
    · exfalso
      simp only [EADF_BUFSIZE, Nat.cast_ofNat] at hbig
      rw [fread_fst, List.length_take, hl2] at hshort
      simp only [EADF_BUFSIZE] at hshort
      omega
    · exfalso
      have := (fwrite_none (fread EADF_BUFSIZE src).1 dest hd).1
      rw [this] at hw
      omega
    · apply copyLoop_succeeds fuel _ _ _ _ (fwrite_none _ dest hd).2
      simp only [EADF_BUFSIZE, Nat.cast_ofNat] at hbig
      rw [fread_snd_data, fread_snd_pos, List.length_take, hl2]
      simp only [EADF_BUFSIZE, Nat.cast_ofNat]
      omega
    · exfalso
      rw [fread_fst, List.length_take, hl2] at hshort
      omega
    · exfalso
      have := (fwrite_none (fread numBytes.toNat src).1 dest hd).1
      rw [this] at hw
      omega
    · apply copyLoop_succeeds fuel _ _ _ _ (fwrite_none _ dest hd).2
      simp only [EADF_BUFSIZE, Nat.cast_ofNat] at hbig ⊢
      have : (numBytes - 1024).toNat = 0 := by omega
      rw [this]
      omega

theorem fseek_nonneg (f : FILE) (offset : Int) (h : 0 ≤ offset) :
    ¬ (fseek f offset).1 < 0 ∧ (fseek f offset).2.data = f.data
      ∧ (fseek f offset).2.pos = offset.toNat := by
  unfold fseek
  rw [if_neg (by omega)]
  exact ⟨lt_irrefl (0 : Int), rfl, rfl⟩

theorem copyLoop_track_succeeds (h : EADFHeader) (f : FILE) (dest : OutFILE) (i : Nat)
    (hd : dest.room = none) (ha : Avail h f.data i) :
    ¬ (fseek f (longFromULong (h.trackOffset i))).1 < 0
      ∧ ∃ c, copyLoop (longFromULong (h.trackSizeBytes i)).toNat
            (longFromULong (h.trackSizeBytes i)) (by omega)
            (fseek f (longFromULong (h.trackOffset i))).2 dest = Except.ok c
        ∧ c.2.room = none ∧ c.1.data = f.data := by
  obtain ⟨s1, s2, s3⟩ := fseek_nonneg f _ ha.1
  refine ⟨s1, ?_⟩
  obtain ⟨c, hc, hroom⟩ := copyLoop_succeeds (longFromULong (h.trackSizeBytes i)).toNat
    (longFromULong (h.trackSizeBytes i)) (by omega)
    (fseek f (longFromULong (h.trackOffset i))).2 dest hd (by rw [s2, s3]; exact ha.2)
  refine ⟨c, hc, hroom, ?_⟩
  rw [(copyLoop_data _ _ _ _ _ c hc).2.1, s2]

theorem mergePayloadLoop_succeeds (h1 h2 : EADFHeader) (trackSources : Nat → EADFTrackSource) :
    ∀ (k track : Nat) (f1 f2 : FILE) (dest : OutFILE), dest.room = none →
      (∀ i, track ≤ i → i < track + k →
        (trackSources i = EADFTrackSource.SOURCE1 → Avail h1 f1.data i)
        ∧ (trackSources i = EADFTrackSource.SOURCE2 → Avail h2 f2.data i)) →
      ∃ r, mergePayloadLoop h1 h2 trackSources k track f1 f2 dest = Except.ok r
  | 0, track, f1, f2, dest, _, _ => ⟨(f1, f2, dest), rfl⟩
  | k + 1, track, f1, f2, dest, hd, ha => by
    rw [mergePayloadLoop]
    have hrest : ∀ i, track + 1 ≤ i → i < track + 1 + k →
        (trackSources i = EADFTrackSource.SOURCE1 → Avail h1 f1.data i)
        ∧ (trackSources i = EADFTrackSource.SOURCE2 → Avail h2 f2.data i) :=
      fun i a b => ha i (by omega) (by omega)
    cases hts : trackSources track with
    | NONE =>
      simp only [reduceCtorEq, if_false]
      exact mergePayloadLoop_succeeds h1 h2 trackSources k (track + 1) f1 f2 dest hd hrest
    | SOURCE1 =>
      obtain ⟨hsk, c, hc, hroom, hdata⟩ := copyLoop_track_succeeds h1 f1 dest track hd
        ((ha track (le_refl _) (by omega)).1 hts)
      simp only [if_true, hsk, if_false, hc]
      apply mergePayloadLoop_succeeds h1 h2 trackSources k (track + 1) c.1 f2 c.2 hroom
      rw [hdata]
      exact hrest
    | SOURCE2 =>
      obtain ⟨hsk, c, hc, hroom, hdata⟩ := copyLoop_track_succeeds h2 f2 dest track hd
        ((ha track (le_refl _) (by omega)).2 hts)
      simp only [reduceCtorEq, if_true, hsk, if_false, hc]
      apply mergePayloadLoop_succeeds h1 h2 trackSources k (track + 1) f1 c.1 c.2 hroom
      rw [hdata]
      exact hrest

theorem avail_of_holdsPayload (g : EADFHeader) (s : List Nat) (h : EADFHeader) (p : FILE)
    (hp : eadfHeaderInitWithFile g (openStream s) = Except.ok (h, p))
    (hw : HoldsPayload h s) (i : Nat) (hi : i < h.numTracks) : Avail h s i := by
  obtain ⟨_, _, _, q⟩ := parsed_facts g s h p hp
  obtain ⟨_, a, _, b⟩ := q i hi
  have := hw i hi
  unfold Avail
  rw [longFromULong_of_lt b, longFromULong_of_lt (show h.trackSizeBytes i < 2 ^ 63 by omega)]
  simp only [Int.toNat_ofNat]
  omega

theorem eadfMergeFiles_succeeds (g1 : EADFHeader) (s1 : List Nat) (h1 : EADFHeader) (p1 : FILE)
    (hp1 : eadfHeaderInitWithFile g1 (openStream s1) = Except.ok (h1, p1))
    (g2 : EADFHeader) (s2 : List Nat) (h2 : EADFHeader) (p2 : FILE)
    (hp2 : eadfHeaderInitWithFile g2 (openStream s2) = Except.ok (h2, p2))
    (hw1 : HoldsPayload h1 s1) (hw2 : HoldsPayload h2 s2)
    (trackSources : Nat → EADFTrackSource)
    (hin : InRange h1 h2 trackSources (max h1.numTracks h2.numTracks)) :
    ∃ r, eadfMergeFiles h1 p1 h2 p2 (createStream none) trackSources = Except.ok r := by
  obtain ⟨_, e1, _, _⟩ := parsed_facts g1 s1 h1 p1 hp1
  obtain ⟨_, e2, _, _⟩ := parsed_facts g2 s2 h2 p2 hp2
  have d1 : p1.data = s1 := by rw [e1]; rfl
  have d2 : p2.data = s2 := by rw [e2]; rfl
  unfold eadfMergeFiles
  simp only [max_numTracks]
  obtain ⟨hb, hhb, hroom⟩ := mergeHeaderLoop_succeeds h1 h2 trackSources
    (max h1.numTracks h2.numTracks) 0
    (EADF_MAGIC.take EADF_MAGICLEN
      ++ bigEndianBytesFromLong (longFromULong (max h1.numTracks h2.numTracks)))
    (createStream none) rfl
  obtain ⟨w1, w2⟩ := fwrite_none hb.1 hb.2 hroom
  have hw : ¬ (fwrite hb.1 hb.2).1 < hb.1.length := by omega
  simp only [hhb, hw, if_false]
  apply mergePayloadLoop_succeeds h1 h2 trackSources _ 0 p1 p2 _ w2
  intro i _ hi
  obtain ⟨r1, r2⟩ := hin i (by omega)
  rw [d1, d2]
  exact ⟨fun hts => avail_of_holdsPayload g1 s1 h1 p1 hp1 hw1 i (r1 hts),
    fun hts => avail_of_holdsPayload g2 s2 h2 p2 hp2 hw2 i (r2 hts)⟩

/-! ## Merging under the two union policies -/

theorem mergePolicy_apply (trackSources : Nat → EADFTrackSource) (h1 h2 : EADFHeader) (i : Nat)
    (hi : i < max h1.numTracks h2.numTracks) :
    (mergeTrackSourceCallback trackSources h1 h2).2 i =
      if i ≥ h2.numTracks
          ∨ (i < h1.numTracks ∧ h1.trackSizeBytes i > 0)
          ∨ (i < h1.numTracks ∧ h2.trackSizeBytes i = 0) then
        EADFTrackSource.SOURCE1
      else EADFTrackSource.SOURCE2 := by
  have hr : 0 ≤ i ∧ i < 0 + max h1.numTracks h2.numTracks := by omega
  simp only [mergeTrackSourceCallback, max_numTracks, mergeTrackSourceLoop_apply, if_pos hr]

theorem dosMergePolicy_apply (trackSources : Nat → EADFTrackSource) (h1 h2 : EADFHeader)
    (i : Nat) (hi : i < max h1.numTracks h2.numTracks) :
    (dosMergeTrackSourceCallback trackSources h1 h2).2 i =
      if i ≥ h2.numTracks
          ∨ (i < h1.numTracks
              ∧ (h1.trackType i = EADFTRACKTYPE_DOS ∨ h2.trackType i = EADFTRACKTYPE_RAW)) then
        EADFTrackSource.SOURCE1
      else EADFTrackSource.SOURCE2 := by
  have hr : 0 ≤ i ∧ i < 0 + max h1.numTracks h2.numTracks := by omega
  simp only [dosMergeTrackSourceCallback, max_numTracks, dosMergeTrackSourceLoop_apply,
    if_pos hr]

theorem mergePolicy_inRange (trackSources : Nat → EADFTrackSource) (h1 h2 : EADFHeader) :
    InRange h1 h2 (mergeTrackSourceCallback trackSources h1 h2).2
      (max h1.numTracks h2.numTracks) := by
  intro i hi
  rw [mergePolicy_apply trackSources h1 h2 i hi]
  split_ifs with hc
  · exact ⟨fun _ => (by omega), fun h => (by cases h)⟩
  · exact ⟨fun h => (by cases h), fun _ => (by omega)⟩

theorem dosMergePolicy_inRange (trackSources : Nat → EADFTrackSource) (h1 h2 : EADFHeader) :
    InRange h1 h2 (dosMergeTrackSourceCallback trackSources h1 h2).2
      (max h1.numTracks h2.numTracks) := by
  intro i hi
  rw [dosMergePolicy_apply trackSources h1 h2 i hi]
  split_ifs with hc
  · exact ⟨fun _ => (by omega), fun h => (by cases h)⟩
  · exact ⟨fun h => (by cases h), fun _ => (by omega)⟩

theorem merge_track_of_decision (g1 : EADFHeader) (s1 : List Nat) (h1 : EADFHeader) (p1 : FILE)
    (hp1 : eadfHeaderInitWithFile g1 (openStream s1) = Except.ok (h1, p1))
    (g2 : EADFHeader) (s2 : List Nat) (h2 : EADFHeader) (p2 : FILE)
    (hp2 : eadfHeaderInitWithFile g2 (openStream s2) = Except.ok (h2, p2))
    (room : Option Nat) (trackSources : Nat → EADFTrackSource) (r : FILE × FILE × OutFILE)
    (hm : eadfMergeFiles h1 p1 h2 p2 (createStream room) trackSources = Except.ok r)
    (hin : InRange h1 h2 trackSources (max h1.numTracks h2.numTracks))
    (i : Nat) (hi : i < max h1.numTracks h2.numTracks) :
    (trackSources i = EADFTrackSource.SOURCE1 → OutputTrackEq r.2.2.data i h1 s1)
      ∧ (trackSources i = EADFTrackSource.SOURCE2 → OutputTrackEq r.2.2.data i h2 s2) := by
  obtain ⟨r1, r2⟩ := hin i hi
  constructor
  · intro hts g
    obtain ⟨h, f, e, _, ht⟩ := eadfMergeFiles_tracks g1 s1 h1 p1 hp1 g2 s2 h2 p2 hp2 room
      trackSources r hm hin g
    obtain ⟨a, b⟩ := ht i hi
    have hc : trackSources i = EADFTrackSource.SOURCE1 ∧ i < h1.numTracks := ⟨hts, r1 hts⟩
    simp only [mergedRecord, if_pos hc, Prod.mk.injEq] at a
    simp only [selectedTrack, hts] at b
    exact ⟨h, f, e, a.1, a.2.1, a.2.2, b⟩
  · intro hts g
    obtain ⟨h, f, e, _, ht⟩ := eadfMergeFiles_tracks g1 s1 h1 p1 hp1 g2 s2 h2 p2 hp2 room
      trackSources r hm hin g
    obtain ⟨a, b⟩ := ht i hi
    have hc1 : ¬ (trackSources i = EADFTrackSource.SOURCE1 ∧ i < h1.numTracks) := by
      rw [hts]
      exact fun h => by cases h.1
    have hc : trackSources i = EADFTrackSource.SOURCE2 ∧ i < h2.numTracks := ⟨hts, r2 hts⟩
    simp only [mergedRecord, if_neg hc1, if_pos hc, Prod.mk.injEq] at a
    simp only [selectedTrack, hts] at b
    exact ⟨h, f, e, a.1, a.2.1, a.2.2, b⟩

theorem sampleImage_holds : HoldsPayload (parsedHeader sampleImage) sampleImage := by
  intro i hi
  have h2 : i < 2 := hi
  interval_cases i <;> decide

theorem sampleImage2_holds : HoldsPayload (parsedHeader sampleImage2) sampleImage2 := by
  intro i hi
  have h2 : i < 2 := hi
  interval_cases i <;> decide

/-- C11. Prefer-nonempty merge keeps source 1's non-empty tracks: for two well-formed sources
merged with `mergeTrackSourceCallback` then `eadfMergeFiles` (which succeeds on an
unbounded destination), every index `i < count1` with `byteLength1[i] > 0` has, in the
re-parsed output, the type, byte length, bit length and payload bytes (at the recomputed
offset) of source 1's track `i`. -/
theorem merge_keeps_nonempty_source1
    (g1 : EADFHeader) (s1 : List Nat) (h1 : EADFHeader) (p1 : FILE)
    (hp1 : eadfHeaderInitWithFile g1 (openStream s1) = Except.ok (h1, p1))
    (g2 : EADFHeader) (s2 : List Nat) (h2 : EADFHeader) (p2 : FILE)
    (hp2 : eadfHeaderInitWithFile g2 (openStream s2) = Except.ok (h2, p2))
    (hw1 : HoldsPayload h1 s1) (hw2 : HoldsPayload h2 s2)
    (trackSources : Nat → EADFTrackSource) :
    (∃ r, eadfMergeFiles h1 p1 h2 p2 (createStream none)
        (mergeTrackSourceCallback trackSources h1 h2).2 = Except.ok r)
      ∧ ∀ room r, eadfMergeFiles h1 p1 h2 p2 (createStream room)
            (mergeTrackSourceCallback trackSources h1 h2).2 = Except.ok r →
          ∀ i, i < h1.numTracks → h1.trackSizeBytes i > 0 →
            OutputTrackEq r.2.2.data i h1 s1 := by
  have hin := mergePolicy_inRange trackSources h1 h2
  refine ⟨eadfMergeFiles_succeeds g1 s1 h1 p1 hp1 g2 s2 h2 p2 hp2 hw1 hw2 _ hin, ?_⟩
  intro room r hm i hi hsz
  have hmax : i < max h1.numTracks h2.numTracks := by omega
  apply (merge_track_of_decision g1 s1 h1 p1 hp1 g2 s2 h2 p2 hp2 room _ r hm hin i hmax).1
  rw [mergePolicy_apply trackSources h1 h2 i hmax, if_pos (Or.inr (Or.inl ⟨hi, hsz⟩))]

theorem merge_keeps_nonempty_source1_witness :
    OutputTrackEq
      (mergeResult (eadfMergeFiles (parsedHeader sampleImage) (afterHeader sampleImage 2)
        (parsedHeader sampleImage2) (afterHeader sampleImage2 2) (createStream none)
        (mergeTrackSourceCallback allNone (parsedHeader sampleImage)
          (parsedHeader sampleImage2)).2)).2.2.data
      0 (parsedHeader sampleImage) sampleImage :=
  (merge_keeps_nonempty_source1 blankHeader sampleImage (parsedHeader sampleImage)
    (afterHeader sampleImage 2) rfl blankHeader sampleImage2 (parsedHeader sampleImage2)
    (afterHeader sampleImage2 2) rfl sampleImage_holds sampleImage2_holds allNone).2
    none _ rfl 0 (by decide) (by decide)

/-- C13. Prefer-DOS merge keeps source 1's DOS tracks: for two well-formed sources merged
with `dosMergeTrackSourceCallback` then `eadfMergeFiles` (which succeeds on an unbounded
destination), every index `i < count1` with `type1[i] = DOS` has, in the re-parsed output,
the metadata and payload bytes of source 1's track `i`. -/
theorem dosmerge_keeps_dos_source1
    (g1 : EADFHeader) (s1 : List Nat) (h1 : EADFHeader) (p1 : FILE)
    (hp1 : eadfHeaderInitWithFile g1 (openStream s1) = Except.ok (h1, p1))
    (g2 : EADFHeader) (s2 : List Nat) (h2 : EADFHeader) (p2 : FILE)
    (hp2 : eadfHeaderInitWithFile g2 (openStream s2) = Except.ok (h2, p2))
    (hw1 : HoldsPayload h1 s1) (hw2 : HoldsPayload h2 s2)
    (trackSources : Nat → EADFTrackSource) :
    (∃ r, eadfMergeFiles h1 p1 h2 p2 (createStream none)
        (dosMergeTrackSourceCallback trackSources h1 h2).2 = Except.ok r)
      ∧ ∀ room r, eadfMergeFiles h1 p1 h2 p2 (createStream room)
            (dosMergeTrackSourceCallback trackSources h1 h2).2 = Except.ok r →
          ∀ i, i < h1.numTracks → h1.trackType i = EADFTRACKTYPE_DOS →
            OutputTrackEq r.2.2.data i h1 s1 := by
  have hin := dosMergePolicy_inRange trackSources h1 h2
  refine ⟨eadfMergeFiles_succeeds g1 s1 h1 p1 hp1 g2 s2 h2 p2 hp2 hw1 hw2 _ hin, ?_⟩
  intro room r hm i hi hty
  have hmax : i < max h1.numTracks h2.numTracks := by omega
  apply (merge_track_of_decision g1 s1 h1 p1 hp1 g2 s2 h2 p2 hp2 room _ r hm hin i hmax).1
  rw [dosMergePolicy_apply trackSources h1 h2 i hmax, if_pos (Or.inr ⟨hi, Or.inl hty⟩)]

theorem dosmerge_keeps_dos_source1_witness :
    OutputTrackEq
      (mergeResult (eadfMergeFiles (parsedHeader sampleImage) (afterHeader sampleImage 2)
        (parsedHeader sampleImage2) (afterHeader sampleImage2 2) (createStream none)
        (dosMergeTrackSourceCallback allNone (parsedHeader sampleImage)
          (parsedHeader sampleImage2)).2)).2.2.data
      0 (parsedHeader sampleImage) sampleImage :=
  (dosmerge_keeps_dos_source1 blankHeader sampleImage (parsedHeader sampleImage)
    (afterHeader sampleImage 2) rfl blankHeader sampleImage2 (parsedHeader sampleImage2)
    (afterHeader sampleImage2 2) rfl sampleImage_holds sampleImage2_holds allNone).2
    none _ rfl 0 (by decide) (by decide)

/-- C14. Prefer-DOS merge elsewhere: for two well-formed sources merged with
`dosMergeTrackSourceCallback` then `eadfMergeFiles`, an index below both counts whose
source 1 track is not DOS has, in the re-parsed output, source 2's track if that one is
DOS and source 1's track otherwise; and an index `i` with `count1 ≤ i < count2` has
source 2's track whatever its type. -/
theorem dosmerge_other_tracks
    (g1 : EADFHeader) (s1 : List Nat) (h1 : EADFHeader) (p1 : FILE)
    (hp1 : eadfHeaderInitWithFile g1 (openStream s1) = Except.ok (h1, p1))
    (g2 : EADFHeader) (s2 : List Nat) (h2 : EADFHeader) (p2 : FILE)
    (hp2 : eadfHeaderInitWithFile g2 (openStream s2) = Except.ok (h2, p2))
    (hw1 : HoldsPayload h1 s1) (hw2 : HoldsPayload h2 s2)
    (trackSources : Nat → EADFTrackSource) :
    (∃ r, eadfMergeFiles h1 p1 h2 p2 (createStream none)
        (dosMergeTrackSourceCallback trackSources h1 h2).2 = Except.ok r)
      ∧ ∀ room r, eadfMergeFiles h1 p1 h2 p2 (createStream room)
            (dosMergeTrackSourceCallback trackSources h1 h2).2 = Except.ok r →
          (∀ i, i < h1.numTracks → i < h2.numTracks → h1.trackType i ≠ EADFTRACKTYPE_DOS →
            (h2.trackType i = EADFTRACKTYPE_DOS → OutputTrackEq r.2.2.data i h2 s2)
            ∧ (h2.trackType i ≠ EADFTRACKTYPE_DOS → OutputTrackEq r.2.2.data i h1 s1))
          ∧ (∀ i, h1.numTracks ≤ i → i < h2.numTracks → OutputTrackEq r.2.2.data i h2 s2) := by
  have hin := dosMergePolicy_inRange trackSources h1 h2
  refine ⟨eadfMergeFiles_succeeds g1 s1 h1 p1 hp1 g2 s2 h2 p2 hp2 hw1 hw2 _ hin, ?_⟩
  intro room r hm
  obtain ⟨_, _, _, q2⟩ := parsed_facts g2 s2 h2 p2 hp2
  refine ⟨?_, ?_⟩
  · intro i hi1 hi2 hty
    have hmax : i < max h1.numTracks h2.numTracks := by omega
    have hd := merge_track_of_decision g1 s1 h1 p1 hp1 g2 s2 h2 p2 hp2 room _ r hm hin i hmax
    have hpol := dosMergePolicy_apply trackSources h1 h2 i hmax
    have ht2 := (q2 i hi2).1
    constructor
    · intro hdos
      apply hd.2
      rw [hpol, if_neg]
      simp only [EADFTRACKTYPE_DOS, EADFTRACKTYPE_RAW] at hty hdos ⊢
      omega
    · intro hnd
      apply hd.1
      rw [hpol, if_pos]
      simp only [EADFTRACKTYPE_DOS, EADFTRACKTYPE_RAW] at hty hnd ⊢
      omega
  · intro i hi1 hi2
    have hmax : i < max h1.numTracks h2.numTracks := by omega
    apply (merge_track_of_decision g1 s1 h1 p1 hp1 g2 s2 h2 p2 hp2 room _ r hm hin i hmax).2
    rw [dosMergePolicy_apply trackSources h1 h2 i hmax, if_neg]
    omega

theorem dosmerge_other_tracks_witness :
    OutputTrackEq
      (mergeResult (eadfMergeFiles (parsedHeader sampleImage2) (afterHeader sampleImage2 2)
        (parsedHeader sampleImage) (afterHeader sampleImage 2) (createStream none)
        (dosMergeTrackSourceCallback allNone (parsedHeader sampleImage2)
          (parsedHeader sampleImage)).2)).2.2.data
      0 (parsedHeader sampleImage) sampleImage :=
  ((dosmerge_other_tracks blankHeader sampleImage2 (parsedHeader sampleImage2)
    (afterHeader sampleImage2 2) rfl blankHeader sampleImage (parsedHeader sampleImage)
    (afterHeader sampleImage 2) rfl sampleImage2_holds sampleImage_holds allNone).2
    none _ rfl).1 0 (by decide) (by decide) (by decide) |>.1 (by decide)

theorem sum_range_mono (f : Nat → Nat) (i n : Nat) (h : i ≤ n) :
    ∑ j in Finset.range i, f j ≤ ∑ j in Finset.range n, f j :=
  Finset.sum_le_sum_of_subset (Finset.range_subset.2 h)

theorem container_holds (g : EADFHeader) (n : Nat) (record : Nat → Nat × Nat × Nat)
    (chunk : Nat → List Nat) (hn : n ≤ 166)
    (hrec : ∀ i, i < n →
      (record i).1 ≤ 1 ∧ (record i).2.1 < 2 ^ 32 ∧ (record i).2.2 < 2 ^ 32)
    (hlen : ∀ i, i < n → (chunk i).length = (record i).2.1)
    (h : EADFHeader) (f : FILE)
    (hp : eadfHeaderInitWithFile g
      (openStream (headerBlock n record ++ (List.range n).flatMap chunk)) = Except.ok (h, f)) :
    HoldsPayload h (headerBlock n record ++ (List.range n).flatMap chunk) := by
  obtain ⟨h', e, hnum, hfields, hfirst, hstep⟩ :=
    headerBlock_parse g n record ((List.range n).flatMap chunk) hn hrec
  have hh : h' = h := by
    rw [hp] at e
    injection e with e
    injection e with e1 _
    exact e1.symm
  rw [hh] at hnum hfields hfirst hstep
  intro i hi
  rw [hnum] at hi
  have hoff := offset_sum_of_step h.trackOffset h.trackSizeBytes n (12 + 12 * n) hfirst hstep i hi
  have hsum : ∑ j in Finset.range (i + 1), h.trackSizeBytes j
      = ∑ j in Finset.range (i + 1), (chunk j).length := by
    apply Finset.sum_congr rfl
    intro j hj
    have hjn : j < n := by
      have := Finset.mem_range.mp hj
      omega
    rw [(hfields j hjn).2.1, hlen j hjn]
  have hmono : ∑ j in Finset.range (i + 1), (chunk j).length
      ≤ ∑ j in Finset.range n, (chunk j).length :=
    sum_range_mono (fun j => (chunk j).length) (i + 1) n (by omega)
  rw [List.length_append, headerBlock_length, flatMap_range_length, hoff]
  rw [Finset.sum_range_succ] at hsum
  omega

theorem parsedHeader_container (n : Nat) (record : Nat → Nat × Nat × Nat)
    (chunk : Nat → List Nat) (hn : n ≤ 166)
    (hrec : ∀ i, i < n →
      (record i).1 ≤ 1 ∧ (record i).2.1 < 2 ^ 32 ∧ (record i).2.2 < 2 ^ 32)
    (hlen : ∀ i, i < n → (chunk i).length = (record i).2.1) :
    eadfHeaderInitWithFile blankHeader
        (openStream (headerBlock n record ++ (List.range n).flatMap chunk))
      = Except.ok (parsedHeader (headerBlock n record ++ (List.range n).flatMap chunk),
          afterHeader (headerBlock n record ++ (List.range n).flatMap chunk) n)
      ∧ (parsedHeader (headerBlock n record ++ (List.range n).flatMap chunk)).numTracks = n
      ∧ (∀ i, i < n →
          (parsedHeader (headerBlock n record ++ (List.range n).flatMap chunk)).trackType i
              = (record i).1
            ∧ (parsedHeader (headerBlock n record
                ++ (List.range n).flatMap chunk)).trackSizeBytes i = (record i).2.1
            ∧ (parsedHeader (headerBlock n record
                ++ (List.range n).flatMap chunk)).trackSizeBits i = (record i).2.2)
      ∧ HoldsPayload (parsedHeader (headerBlock n record ++ (List.range n).flatMap chunk))
          (headerBlock n record ++ (List.range n).flatMap chunk) := by
  obtain ⟨h, e, hnum, hfields, _, _⟩ :=
    headerBlock_parse blankHeader n record ((List.range n).flatMap chunk) hn hrec
  have hph : parsedHeader (headerBlock n record ++ (List.range n).flatMap chunk) = h := by
    unfold parsedHeader
    rw [e]
  rw [hph]
  exact ⟨e, hnum, hfields, container_holds blankHeader n record chunk hn hrec hlen h _ e⟩

theorem tenTrackImage_facts :
    eadfHeaderInitWithFile blankHeader (openStream tenTrackImage)
        = Except.ok (parsedHeader tenTrackImage, afterHeader tenTrackImage 10)
      ∧ (parsedHeader tenTrackImage).numTracks = 10
      ∧ (∀ i, i < 10 → (parsedHeader tenTrackImage).trackSizeBytes i = 1024)
      ∧ HoldsPayload (parsedHeader tenTrackImage) tenTrackImage := by
  obtain ⟨a, b, c, d⟩ := parsedHeader_container 10
    (fun _ => (EADFTRACKTYPE_RAW, 1024, 8192)) (fun i => List.replicate 1024 (i + 1))
    (by decide) (fun i _ => by refine ⟨?_, ?_, ?_⟩ <;> simp)
    (fun i _ => List.length_replicate _ _)
  unfold tenTrackImage
  refine ⟨a, b, fun i hi => ?_, d⟩
  rw [(c i hi).2.1]

theorem twelveTrackImage_facts :
    eadfHeaderInitWithFile blankHeader (openStream twelveTrackImage)
        = Except.ok (parsedHeader twelveTrackImage, afterHeader twelveTrackImage 12)
      ∧ (parsedHeader twelveTrackImage).numTracks = 12
      ∧ (∀ i, i < 12 → (parsedHeader twelveTrackImage).trackSizeBytes i
          = if i < 10 then 1024 else 512)
      ∧ HoldsPayload (parsedHeader twelveTrackImage) twelveTrackImage := by
  obtain ⟨a, b, c, d⟩ := parsedHeader_container 12
    (fun i => if i < 10 then (EADFTRACKTYPE_RAW, 1024, 8192) else (EADFTRACKTYPE_DOS, 512, 4096))
    (fun i => List.replicate (if i < 10 then 1024 else 512) (i + 101))
    (by decide)
    (fun i _ => by
      by_cases h : i < 10
      · simp only [h, if_true]; refine ⟨?_, ?_, ?_⟩ <;> simp
      · simp only [h, if_false]; refine ⟨?_, ?_, ?_⟩ <;> simp)
    (fun i _ => by
      rw [List.length_replicate]
      by_cases h : i < 10
      · simp only [h, if_true]
      · simp only [h, if_false])
  unfold twelveTrackImage
  refine ⟨a, b, fun i hi => ?_, d⟩
  rw [(c i hi).2.1]
  by_cases h : i < 10
  · simp only [h, if_true]
  · simp only [h, if_false]

/-- C12. Prefer-nonempty merge takes source 2's track where source 1 has none: for two
well-formed sources merged with `mergeTrackSourceCallback` then `eadfMergeFiles` (which
succeeds on an unbounded destination), every index `i < count2` whose source 2 track is
non-empty, and for which `i ≥ count1` or source 1's track is empty, has in the re-parsed
output the metadata and payload bytes of source 2's track `i`. -/
theorem merge_takes_source2
    (g1 : EADFHeader) (s1 : List Nat) (h1 : EADFHeader) (p1 : FILE)
    (hp1 : eadfHeaderInitWithFile g1 (openStream s1) = Except.ok (h1, p1))
    (g2 : EADFHeader) (s2 : List Nat) (h2 : EADFHeader) (p2 : FILE)
    (hp2 : eadfHeaderInitWithFile g2 (openStream s2) = Except.ok (h2, p2))
    (hw1 : HoldsPayload h1 s1) (hw2 : HoldsPayload h2 s2)
    (trackSources : Nat → EADFTrackSource) :
    (∃ r, eadfMergeFiles h1 p1 h2 p2 (createStream none)
        (mergeTrackSourceCallback trackSources h1 h2).2 = Except.ok r)
      ∧ ∀ room r, eadfMergeFiles h1 p1 h2 p2 (createStream room)
            (mergeTrackSourceCallback trackSources h1 h2).2 = Except.ok r →
          ∀ i, i < h2.numTracks → h2.trackSizeBytes i > 0 →
            (i ≥ h1.numTracks ∨ h1.trackSizeBytes i = 0) →
            OutputTrackEq r.2.2.data i h2 s2 := by
  have hin := mergePolicy_inRange trackSources h1 h2
  refine ⟨eadfMergeFiles_succeeds g1 s1 h1 p1 hp1 g2 s2 h2 p2 hp2 hw1 hw2 _ hin, ?_⟩
  intro room r hm i hi hsz hor
  have hmax : i < max h1.numTracks h2.numTracks := by omega
  apply (merge_track_of_decision g1 s1 h1 p1 hp1 g2 s2 h2 p2 hp2 room _ r hm hin i hmax).2
  rw [mergePolicy_apply trackSources h1 h2 i hmax, if_neg]
  omega

theorem merge_takes_source2_witness :
    ∃ r, eadfMergeFiles (parsedHeader tenTrackImage) (afterHeader tenTrackImage 10)
          (parsedHeader twelveTrackImage) (afterHeader twelveTrackImage 12) (createStream none)
          (mergeTrackSourceCallback allNone (parsedHeader tenTrackImage)
            (parsedHeader twelveTrackImage)).2 = Except.ok r
      ∧ (∀ g, ∃ h f, eadfHeaderInitWithFile g (openStream r.2.2.data) = Except.ok (h, f)
          ∧ h.numTracks = 12)
      ∧ (∀ i, i < 10 → OutputTrackEq r.2.2.data i (parsedHeader tenTrackImage) tenTrackImage)
      ∧ OutputTrackEq r.2.2.data 10 (parsedHeader twelveTrackImage) twelveTrackImage
      ∧ OutputTrackEq r.2.2.data 11 (parsedHeader twelveTrackImage) twelveTrackImage := by
  obtain ⟨hp1, n1, z1, hw1⟩ := tenTrackImage_facts
  obtain ⟨hp2, n2, z2, hw2⟩ := twelveTrackImage_facts
  have hthm := merge_takes_source2 blankHeader tenTrackImage (parsedHeader tenTrackImage)
    (afterHeader tenTrackImage 10) hp1 blankHeader twelveTrackImage
    (parsedHeader twelveTrackImage) (afterHeader twelveTrackImage 12) hp2 hw1 hw2 allNone
  obtain ⟨r, hr⟩ := hthm.1
  have hin := mergePolicy_inRange allNone (parsedHeader tenTrackImage)
    (parsedHeader twelveTrackImage)
  have hmax : max (parsedHeader tenTrackImage).numTracks (parsedHeader twelveTrackImage).numTracks
      = 12 := by rw [n1, n2]; rfl
  refine ⟨r, hr, ?_, ?_, ?_, ?_⟩
  · intro g
    obtain ⟨h, f, e, hnum, _⟩ := eadfMergeFiles_tracks blankHeader tenTrackImage _ _ hp1
      blankHeader twelveTrackImage _ _ hp2 none _ r hr hin g
    exact ⟨h, f, e, by rw [hnum, hmax]⟩
  · intro i hi
    have hi12 : i < max (parsedHeader tenTrackImage).numTracks
        (parsedHeader twelveTrackImage).numTracks := by rw [hmax]; omega
    apply (merge_track_of_decision blankHeader tenTrackImage _ _ hp1 blankHeader
      twelveTrackImage _ _ hp2 none _ r hr hin i hi12).1
    rw [mergePolicy_apply allNone _ _ i hi12, if_pos]
    right; left
    rw [n1, z1 i hi]
    omega
  · apply hthm.2 none r hr 10 (by rw [n2]; omega) (by rw [z2 10 (by omega)]; decide)
    left
    omega
  · apply hthm.2 none r hr 11 (by rw [n2]; omega) (by rw [z2 11 (by omega)]; decide)
    left
    omega

/-! ## Lemmas on the split engine -/

theorem splitHeaderLoop_succ (h : EADFHeader) (trackSources : Nat → EADFTrackSource)
    (k track : Nat) (buffer : List Nat) (dest : OutFILE) :
    splitHeaderLoop h trackSources (k + 1) track buffer dest =
      if (buffer ++ splitRecordBytes h trackSources track).length
          > EADF_BUFSIZE - EADF_BYTESPERRECORD then
        if (fwrite (buffer ++ splitRecordBytes h trackSources track) dest).1
            < (buffer ++ splitRecordBytes h trackSources track).length then
          Except.error EADFError.WRITEERROR
        else
          splitHeaderLoop h trackSources k (track + 1) []
            (fwrite (buffer ++ splitRecordBytes h trackSources track) dest).2
      else
        splitHeaderLoop h trackSources k (track + 1)
          (buffer ++ splitRecordBytes h trackSources track) dest :=
  rfl

theorem splitHeaderLoop_data (h : EADFHeader) (trackSources : Nat → EADFTrackSource) :
    ∀ (k track : Nat) (buffer : List Nat) (dest : OutFILE) (r : List Nat × OutFILE),
      splitHeaderLoop h trackSources k track buffer dest = Except.ok r →
      r.2.data ++ r.1 = dest.data ++ buffer
        ++ (List.range' track k).flatMap (splitRecordBytes h trackSources)
  | 0, track, buffer, dest, r, hr => by
    simp only [splitHeaderLoop, Except.ok.injEq] at hr
    subst hr
    simp
  | k + 1, track, buffer, dest, r, hr => by
    rw [splitHeaderLoop_succ] at hr
    rw [List.range'_succ, List.flatMap_cons]
    split_ifs at hr with hbig hw
    · have hd := fwrite_full _ dest hw
      have ih := splitHeaderLoop_data h trackSources k (track + 1) [] _ r hr
      rw [ih, hd]
      simp only [List.append_nil, List.append_assoc]
    · have ih := splitHeaderLoop_data h trackSources k (track + 1) _ dest r hr
      rw [ih]
      simp only [List.append_assoc]

theorem splitHeaderLoop_succeeds (h : EADFHeader) (trackSources : Nat → EADFTrackSource) :
    ∀ (k track : Nat) (buffer : List Nat) (dest : OutFILE), dest.room = none →
      ∃ r, splitHeaderLoop h trackSources k track buffer dest = Except.ok r ∧ r.2.room = none
  | 0, track, buffer, dest, hd => ⟨(buffer, dest), rfl, hd⟩
  | k + 1, track, buffer, dest, hd => by
    rw [splitHeaderLoop_succ]
    split_ifs with hbig hw
    · have := (fwrite_none (buffer ++ splitRecordBytes h trackSources track) dest hd).1
      omega
    · exact splitHeaderLoop_succeeds h trackSources k (track + 1) [] _ (fwrite_none _ dest hd).2
    · exact splitHeaderLoop_succeeds h trackSources k (track + 1) _ dest hd

theorem splitPayloadLoop_data (h : EADFHeader) (trackSources : Nat → EADFTrackSource) :
    ∀ (k track : Nat) (f : FILE) (dest : OutFILE) (r : FILE × OutFILE),
      splitPayloadLoop h trackSources k track f dest = Except.ok r →
      r.2.data = dest.data
          ++ (List.range' track k).flatMap (splitPayload h f.data trackSources)
        ∧ r.1.data = f.data
        ∧ ∀ i, track ≤ i → i < track + k → trackSources i = EADFTrackSource.SOURCE1 →
            (copiedBytes h f.data i).length = copiedLength h i
  | 0, track, f, dest, r, hr => by
    simp only [splitPayloadLoop, Except.ok.injEq] at hr
    subst hr
    refine ⟨by simp, rfl, ?_⟩
    intro i h1 h2
    omega
  | k + 1, track, f, dest, r, hr => by
    rw [splitPayloadLoop] at hr
    rw [List.range'_succ, List.flatMap_cons]
    by_cases hts : trackSources track = EADFTrackSource.SOURCE1
    · simp only [hts, ne_eq, not_true_eq_false, if_false] at hr
      split_ifs at hr with hsk
      split at hr
      · cases hr
      · rename_i c hc
        obtain ⟨c1, c2, c3⟩ := copyLoop_data _ _ _ _ _ c hc
        obtain ⟨s1, s2, _⟩ := fseek_ok f _ hsk
        obtain ⟨ih1, ih2, ih3⟩ := splitPayloadLoop_data h trackSources k (track + 1) _ _ r hr
        rw [c2, s1] at ih1 ih2 ih3
        rw [s1, s2] at c1 c3
        refine ⟨?_, ih2, ?_⟩
        · rw [ih1, c1]
          simp only [splitPayload, hts, if_true, copiedBytes, List.append_assoc]
        · intro i hi1 hi2 hi3
          by_cases hit : i = track
          · subst hit
            exact copiedBytes_length_of_avail h f.data i c3
          · exact ih3 i (by omega) (by omega) hi3
    · simp only [ne_eq, hts, not_false_eq_true, if_true] at hr
      obtain ⟨ih1, ih2, ih3⟩ := splitPayloadLoop_data h trackSources k (track + 1) _ _ r hr
      refine ⟨?_, ih2, ?_⟩
      · rw [ih1]
        simp only [splitPayload, hts, if_false, List.nil_append]
      · intro i hi1 hi2 hi3
        by_cases hit : i = track
        · subst hit
          exact absurd hi3 hts
        · exact ih3 i (by omega) (by omega) hi3

theorem splitPayloadLoop_succeeds (h : EADFHeader) (trackSources : Nat → EADFTrackSource) :
    ∀ (k track : Nat) (f : FILE) (dest : OutFILE), dest.room = none →
      (∀ i, track ≤ i → i < track + k → trackSources i = EADFTrackSource.SOURCE1 →
        Avail h f.data i) →
      ∃ r, splitPayloadLoop h trackSources k track f dest = Except.ok r
  | 0, track, f, dest, _, _ => ⟨(f, dest), rfl⟩
  | k + 1, track, f, dest, hd, ha => by
    rw [splitPayloadLoop]
    have hrest : ∀ i, track + 1 ≤ i → i < track + 1 + k →
        trackSources i = EADFTrackSource.SOURCE1 → Avail h f.data i :=
      fun i a b => ha i (by omega) (by omega)
    by_cases hts : trackSources track = EADFTrackSource.SOURCE1
    · obtain ⟨hsk, c, hc, hroom, hdata⟩ := copyLoop_track_succeeds h f dest track hd
        (ha track (le_refl _) (by omega) hts)
      simp only [hts, ne_eq, not_true_eq_false, if_false, hsk, hc]
      apply splitPayloadLoop_succeeds h trackSources k (track + 1) c.1 c.2 hroom
      rw [hdata]
      exact hrest
    · simp only [ne_eq, hts, not_false_eq_true, if_true]
      exact splitPayloadLoop_succeeds h trackSources k (track + 1) f dest hd hrest

theorem eadfSplitFile_data (h : EADFHeader) (f : FILE) (dest : OutFILE)
    (trackSources : Nat → EADFTrackSource) (r : FILE × OutFILE)
    (hr : eadfSplitFile h f dest trackSources = Except.ok r) :
    r.2.data = dest.data ++ magicBytes
        ++ bigEndianBytesFromLong (longFromULong h.numTracks)
        ++ (List.range h.numTracks).flatMap (splitRecordBytes h trackSources)
        ++ (List.range h.numTracks).flatMap (splitPayload h f.data trackSources)
      ∧ ∀ i, i < h.numTracks → trackSources i = EADFTrackSource.SOURCE1 →
          (copiedBytes h f.data i).length = copiedLength h i := by
  unfold eadfSplitFile at hr
  simp only [] at hr
  split at hr
  · cases hr
  · rename_i hb hhb
    split_ifs at hr with hw
    have hd := fwrite_full _ _ hw
    have hh := splitHeaderLoop_data h trackSources _ _ _ _ hb hhb
    obtain ⟨p1, _, p3⟩ := splitPayloadLoop_data h trackSources _ _ _ _ r hr
    refine ⟨?_, fun i hi hts => p3 i (Nat.zero_le i) (by omega) hts⟩
    rw [p1, hd, hh, List.range_eq_range']
    simp only [magicBytes, List.append_assoc]

theorem splitRecordBytes_parsed (h : EADFHeader) (trackSources : Nat → EADFTrackSource)
    (hf : ∀ i, i < h.numTracks → h.trackSizeBytes i < 2 ^ 32 ∧ h.trackSizeBits i < 2 ^ 32)
    (i : Nat) (hi : i < h.numTracks) :
    splitRecordBytes h trackSources i = recordBytes (splitRecord h trackSources i) := by
  unfold splitRecordBytes splitRecord
  split_ifs with c1
  · obtain ⟨a, b⟩ := hf i hi
    rw [longFromULong_of_lt (by omega), longFromULong_of_lt (by omega)]
    rfl
  · rfl

theorem eadfSplitFile_layout (g0 : EADFHeader) (s : List Nat) (h : EADFHeader) (p : FILE)
    (hp : eadfHeaderInitWithFile g0 (openStream s) = Except.ok (h, p))
    (room : Option Nat) (trackSources : Nat → EADFTrackSource) (r : FILE × OutFILE)
    (hs : eadfSplitFile h p (createStream room) trackSources = Except.ok r) :
    r.2.data = headerBlock h.numTracks (splitRecord h trackSources)
        ++ (List.range h.numTracks).flatMap (splitTrack h s trackSources)
      ∧ ∀ i, i < h.numTracks →
          (splitTrack h s trackSources i).length = (splitRecord h trackSources i).2.1 := by
  obtain ⟨hn, e, _, q⟩ := parsed_facts g0 s h p hp
  have d : p.data = s := by rw [e]; rfl
  obtain ⟨hd, hav⟩ := eadfSplitFile_data h p _ trackSources r hs
  rw [d] at hd hav
  have hrec : (List.range h.numTracks).flatMap (splitRecordBytes h trackSources)
      = (List.range h.numTracks).flatMap (fun i => recordBytes (splitRecord h trackSources i)) := by
    apply List.flatMap_congr
    intro i hi
    exact splitRecordBytes_parsed h trackSources (fun j hj => ⟨(q j hj).2.1, (q j hj).2.2.1⟩) i
      (List.mem_range.mp hi)
  have hpay : (List.range h.numTracks).flatMap (splitPayload h s trackSources)
      = (List.range h.numTracks).flatMap (splitTrack h s trackSources) := by
    apply List.flatMap_congr
    intro i hi
    unfold splitPayload splitTrack
    split_ifs
    · exact (copiedBytes_parsed g0 s h p hp s i (List.mem_range.mp hi)).1
    · rfl
  have hnum : h.numTracks < 2 ^ 63 := by omega
  have hmb : magicBytes = [85, 65, 69, 45, 49, 65, 68, 70] := rfl
  refine ⟨?_, ?_⟩
  · rw [hd, hrec, hpay, longFromULong_of_lt hnum]
    simp only [createStream, List.nil_append, headerBlock, hmb]
  · intro i hi
    unfold splitTrack splitRecord
    split_ifs with hts
    · rw [← (copiedBytes_parsed g0 s h p hp s i hi).1, hav i hi hts,
        (copiedBytes_parsed g0 s h p hp s i hi).2]
    · rfl

theorem splitRecord_bounds (h : EADFHeader) (trackSources : Nat → EADFTrackSource)
    (hf : ∀ i, i < h.numTracks →
      h.trackType i ≤ 1 ∧ h.trackSizeBytes i < 2 ^ 32 ∧ h.trackSizeBits i < 2 ^ 32)
    (i : Nat) (hi : i < h.numTracks) :
    (splitRecord h trackSources i).1 ≤ 1
      ∧ (splitRecord h trackSources i).2.1 < 2 ^ 32
      ∧ (splitRecord h trackSources i).2.2 < 2 ^ 32 := by
  unfold splitRecord
  split_ifs
  · exact hf i hi
  · exact ⟨by decide, by decide, by decide⟩

theorem eadfSplitFile_tracks (g0 : EADFHeader) (s : List Nat) (h : EADFHeader) (p : FILE)
    (hp : eadfHeaderInitWithFile g0 (openStream s) = Except.ok (h, p))
    (room : Option Nat) (trackSources : Nat → EADFTrackSource) (r : FILE × OutFILE)
    (hs : eadfSplitFile h p (createStream room) trackSources = Except.ok r) (g : EADFHeader) :
    ∃ h' f, eadfHeaderInitWithFile g (openStream r.2.data) = Except.ok (h', f)
      ∧ h'.numTracks = h.numTracks
      ∧ ∀ i, i < h.numTracks →
          (h'.trackType i, h'.trackSizeBytes i, h'.trackSizeBits i) = splitRecord h trackSources i
            ∧ trackBytes h' r.2.data i = splitTrack h s trackSources i := by
  obtain ⟨hl, hlen⟩ := eadfSplitFile_layout g0 s h p hp room trackSources r hs
  obtain ⟨hn, _, _, q⟩ := parsed_facts g0 s h p hp
  obtain ⟨h', f, e, hnum, hfields, htracks⟩ := container_parse g h.numTracks
    (splitRecord h trackSources) (splitTrack h s trackSources) hn
    (fun i hi => splitRecord_bounds h trackSources
      (fun j hj => ⟨(q j hj).1, (q j hj).2.1, (q j hj).2.2.1⟩) i hi)
    hlen
  rw [← hl] at e htracks
  refine ⟨h', f, e, hnum, fun i hi => ?_⟩
  obtain ⟨a, b, c⟩ := hfields i hi
  exact ⟨by rw [a, b, c], htracks i hi⟩

theorem eadfSplitFile_succeeds (g0 : EADFHeader) (s : List Nat) (h : EADFHeader) (p : FILE)
    (hp : eadfHeaderInitWithFile g0 (openStream s) = Except.ok (h, p))
    (hw : HoldsPayload h s) (trackSources : Nat → EADFTrackSource) :
    ∃ r, eadfSplitFile h p (createStream none) trackSources = Except.ok r := by
  obtain ⟨_, e, _, _⟩ := parsed_facts g0 s h p hp
  have d : p.data = s := by rw [e]; rfl
  unfold eadfSplitFile
  simp only []
  obtain ⟨hb, hhb, hroom⟩ := splitHeaderLoop_succeeds h trackSources h.numTracks 0
    (EADF_MAGIC.take EADF_MAGICLEN ++ bigEndianBytesFromLong (longFromULong h.numTracks))
    (createStream none) rfl
  obtain ⟨w1, w2⟩ := fwrite_none hb.1 hb.2 hroom
  have hw' : ¬ (fwrite hb.1 hb.2).1 < hb.1.length := by omega
  simp only [hhb, hw', if_false]
  apply splitPayloadLoop_succeeds h trackSources _ 0 p _ w2
  intro i _ hi _
  rw [d]
  exact avail_of_holdsPayload g0 s h p hp hw i (by omega)

/-- C15. The output of a split: for a well-formed source with header `h` and any decision
array, `eadfSplitFile` succeeds on an unbounded destination, and whenever it succeeds the
output is the header block of `h`'s track count followed by the selected tracks; parsed
again it has `h`'s track count, every index whose decision is not Source1 has the record
(RAW, 0, 0) and contributes no payload bytes, and every index whose decision is Source1
has the source's type, byte length and bit length and, at the recomputed offset, exactly
the source track's payload bytes. -/
theorem eadfSplitFile_output (g0 : EADFHeader) (s : List Nat) (h : EADFHeader) (p : FILE)
    (hp : eadfHeaderInitWithFile g0 (openStream s) = Except.ok (h, p))
    (hw : HoldsPayload h s) (trackSources : Nat → EADFTrackSource) :
    (∃ r, eadfSplitFile h p (createStream none) trackSources = Except.ok r)
      ∧ ∀ room r, eadfSplitFile h p (createStream room) trackSources = Except.ok r →
          r.2.data = headerBlock h.numTracks (splitRecord h trackSources)
            ++ (List.range h.numTracks).flatMap
                (fun i => if trackSources i = EADFTrackSource.SOURCE1 then trackBytes h s i
                  else [])
          ∧ ∀ g, ∃ h' f, eadfHeaderInitWithFile g (openStream r.2.data) = Except.ok (h', f)
              ∧ h'.numTracks = h.numTracks
              ∧ ∀ i, i < h.numTracks →
                  (trackSources i ≠ EADFTrackSource.SOURCE1 →
                    (h'.trackType i, h'.trackSizeBytes i, h'.trackSizeBits i)
                        = (EADFTRACKTYPE_RAW, 0, 0)
                      ∧ trackBytes h' r.2.data i = [])
                  ∧ (trackSources i = EADFTrackSource.SOURCE1 →
                    (h'.trackType i, h'.trackSizeBytes i, h'.trackSizeBits i)
                        = (h.trackType i, h.trackSizeBytes i, h.trackSizeBits i)
                      ∧ trackBytes h' r.2.data i = trackBytes h s i) := by
  refine ⟨eadfSplitFile_succeeds g0 s h p hp hw trackSources, ?_⟩
  intro room r hs
  refine ⟨(eadfSplitFile_layout g0 s h p hp room trackSources r hs).1, ?_⟩
  intro g
  obtain ⟨h', f, e, hnum, ht⟩ := eadfSplitFile_tracks g0 s h p hp room trackSources r hs g
  refine ⟨h', f, e, hnum, fun i hi => ?_⟩
  obtain ⟨a, b⟩ := ht i hi
  constructor
  · intro hts
    simp only [splitRecord, splitTrack, if_neg hts] at a b
    exact ⟨a, b⟩
  · intro hts
    simp only [splitRecord, splitTrack, if_pos hts] at a b
    exact ⟨a, b⟩

theorem eadfSplitFile_output_witness :
    eadfSplitFile (parsedHeader sampleImage) (afterHeader sampleImage 2) (createStream none)
        sampleSources
      = Except.ok (splitResult (eadfSplitFile (parsedHeader sampleImage)
          (afterHeader sampleImage 2) (createStream none) sampleSources))
    ∧ (splitResult (eadfSplitFile (parsedHeader sampleImage) (afterHeader sampleImage 2)
          (createStream none) sampleSources)).2.data
        = [85, 65, 69, 45, 49, 65, 68, 70, 0, 0, 0, 2,
           0, 0, 0, 0, 0, 0, 0, 3, 0, 0, 0, 24,
           0, 0, 0, 1, 0, 0, 0, 0, 0, 0, 0, 0,
           10, 11, 12]
    ∧ (splitResult (eadfSplitFile (parsedHeader sampleImage) (afterHeader sampleImage 2)
          (createStream none) sampleSources)).2.data
        = headerBlock (parsedHeader sampleImage).numTracks
            (splitRecord (parsedHeader sampleImage) sampleSources)
          ++ (List.range (parsedHeader sampleImage).numTracks).flatMap
              (fun i => if sampleSources i = EADFTrackSource.SOURCE1 then
                  trackBytes (parsedHeader sampleImage) sampleImage i
                else []) :=
  ⟨rfl, by decide,
    ((eadfSplitFile_output blankHeader sampleImage (parsedHeader sampleImage)
      (afterHeader sampleImage 2) rfl sampleImage_holds sampleSources).2 none _ rfl).1⟩

/-! ## Splitting with every track included -/

theorem decode_encode (l : List Nat) (hlen : 4 ≤ l.length) (hb : ∀ b ∈ l, b < 256) :
    bigEndianBytesFromLong ((longFromBigEndianBytes l : Nat) : Int) = l.take 4 := by
  match l, hlen, hb with
  | a :: b :: c :: d :: rest, _, hb =>
    have ha : a < 256 := hb a (by simp)
    have hb' : b < 256 := hb b (by simp)
    have hc : c < 256 := hb c (by simp)
    have hd : d < 256 := hb d (by simp)
    simp only [bigEndianBytesFromLong_natCast, longFromBigEndianBytes_eq, List.getD_cons_zero,
      List.getD_cons_succ, List.take_succ_cons, List.take_zero, List.cons.injEq, and_true]
    refine ⟨?_, ?_, ?_, ?_⟩ <;> omega

theorem recordBytes_roundtrip (l : List Nat) (hlen : 12 ≤ l.length) (hb : ∀ b ∈ l, b < 256) :
    recordBytes (longFromBigEndianBytes l, longFromBigEndianBytes (l.drop 4),
        longFromBigEndianBytes (l.drop 8)) = l.take 12 := by
  have h4 : ∀ k, ∀ b ∈ l.drop k, b < 256 := fun k b hbm => hb b (List.mem_of_mem_drop hbm)
  unfold recordBytes
  simp only []
  rw [decode_encode l (by omega) hb,
    decode_encode (l.drop 4) (by rw [List.length_drop]; omega) (h4 4),
    decode_encode (l.drop 8) (by rw [List.length_drop]; omega) (h4 8)]
  rw [show (12 : Nat) = 4 + (4 + 4) from rfl, List.take_add, List.take_add, List.drop_drop,
    List.append_assoc]

theorem table_roundtrip (T : List Nat) (hb : ∀ b ∈ T, b < 256) :
    ∀ n, 12 * n ≤ T.length →
      (List.range n).flatMap (fun i => recordBytes
          (longFromBigEndianBytes (T.drop (12 * i)), longFromBigEndianBytes (T.drop (12 * i + 4)),
            longFromBigEndianBytes (T.drop (12 * i + 8))))
        = T.take (12 * n)
  | 0, _ => by simp
  | n + 1, hn => by
    rw [List.range_succ, List.flatMap_append, table_roundtrip T hb n (by omega)]
    simp only [List.flatMap_cons, List.flatMap_nil, List.append_nil]
    have h4 : ∀ b ∈ T.drop (12 * n), b < 256 := fun b hbm => hb b (List.mem_of_mem_drop hbm)
    have hr := recordBytes_roundtrip (T.drop (12 * n)) (by rw [List.length_drop]; omega) h4
    rw [List.drop_drop, List.drop_drop] at hr
    rw [hr, show 12 * (n + 1) = 12 * n + 12 by omega, List.take_add]

theorem chunks_concat (P : List Nat) (size : Nat → Nat) :
    ∀ n, (List.range n).flatMap
        (fun i => (P.drop (∑ j in Finset.range i, size j)).take (size i))
      = P.take (∑ j in Finset.range n, size j)
  | 0 => by simp
  | n + 1 => by
    rw [List.range_succ, List.flatMap_append, chunks_concat P size n, Finset.sum_range_succ,
      List.take_add]
    simp

theorem parsed_fields (g : EADFHeader) (s : List Nat) (h : EADFHeader) (f : FILE)
    (hok : eadfHeaderInitWithFile g (openStream s) = Except.ok (h, f)) :
    s.take 8 = magicBytes ∧ h.numTracks = longFromBigEndianBytes (s.drop 8)
      ∧ 12 + 12 * h.numTracks ≤ s.length
      ∧ (∀ i, i < h.numTracks →
          h.trackType i = longFromBigEndianBytes (s.drop (12 + 12 * i))
          ∧ h.trackSizeBytes i = longFromBigEndianBytes (s.drop (12 + 12 * i + 4))
          ∧ h.trackSizeBits i = longFromBigEndianBytes (s.drop (12 + 12 * i + 8)))
      ∧ (∀ i, i < h.numTracks →
          h.trackOffset i = 12 + 12 * h.numTracks + ∑ j in Finset.range i, h.trackSizeBytes j) := by
  obtain ⟨hc, hgood⟩ := eadfHeaderInitWithFile_ok_inv g s h f hok
  obtain ⟨h', e, _, hnum, _, hrec, hfirst, hstep⟩ := eadfHeaderInitWithFile_valid g s hc hgood
  have hh : h' = h := by
    rw [hok] at e
    injection e with e
    injection e with e1 _
    exact e1.symm
  rw [hh] at hnum hrec hfirst hstep
  exact ⟨hc.1, hnum, by rw [hnum]; exact hc.2.2, hrec,
    offset_sum_of_step h.trackOffset h.trackSizeBytes h.numTracks _ hfirst hstep⟩

theorem holdsPayload_of_length (g : EADFHeader) (s : List Nat) (h : EADFHeader) (f : FILE)
    (hok : eadfHeaderInitWithFile g (openStream s) = Except.ok (h, f))
    (hlen : 12 + 12 * h.numTracks + ∑ i in Finset.range h.numTracks, h.trackSizeBytes i
      ≤ s.length) :
    HoldsPayload h s := by
  obtain ⟨_, _, _, _, hoff⟩ := parsed_fields g s h f hok
  intro i hi
  have hmono := sum_range_mono h.trackSizeBytes (i + 1) h.numTracks (by omega)
  rw [Finset.sum_range_succ] at hmono
  rw [hoff i hi]
  omega

theorem header_bytes_roundtrip (g : EADFHeader) (s : List Nat) (h : EADFHeader) (f : FILE)
    (hok : eadfHeaderInitWithFile g (openStream s) = Except.ok (h, f))
    (hbytes : ∀ b ∈ s, b < 256) :
    headerBlock h.numTracks (fun i => (h.trackType i, h.trackSizeBytes i, h.trackSizeBits i))
      = s.take (12 + 12 * h.numTracks) := by
  obtain ⟨hm, hnum, hl, hrec, _⟩ := parsed_fields g s h f hok
  have hd : ∀ k, ∀ b ∈ s.drop k, b < 256 := fun k b hbm => hbytes b (List.mem_of_mem_drop hbm)
  have hcount : bigEndianBytesFromLong (h.numTracks : Int) = (s.drop 8).take 4 := by
    rw [hnum]
    exact decode_encode (s.drop 8) (by rw [List.length_drop]; omega) (hd 8)
  have htable : (List.range h.numTracks).flatMap
      (fun i => recordBytes (h.trackType i, h.trackSizeBytes i, h.trackSizeBits i))
      = (s.drop 12).take (12 * h.numTracks) := by
    rw [← table_roundtrip (s.drop 12) (hd 12) h.numTracks (by rw [List.length_drop]; omega)]
    apply List.flatMap_congr
    intro i hi
    obtain ⟨a, b, c⟩ := hrec i (List.mem_range.mp hi)
    rw [a, b, c, List.drop_drop, List.drop_drop, List.drop_drop]
    rw [show 12 + 12 * i + 4 = 12 + (12 * i + 4) by omega,
      show 12 + 12 * i + 8 = 12 + (12 * i + 8) by omega]
  have hmb : magicBytes = [85, 65, 69, 45, 49, 65, 68, 70] := rfl
  rw [headerBlock, ← hmb, ← hm, hcount, htable,
    show 12 + 12 * h.numTracks = 8 + (4 + 12 * h.numTracks) by omega,
    List.take_add, List.take_add, List.drop_drop, List.append_assoc]

theorem payload_concat (g : EADFHeader) (s : List Nat) (h : EADFHeader) (f : FILE)
    (hok : eadfHeaderInitWithFile g (openStream s) = Except.ok (h, f))
    (hlen : s.length
      = 12 + 12 * h.numTracks + ∑ i in Finset.range h.numTracks, h.trackSizeBytes i) :
    (List.range h.numTracks).flatMap (trackBytes h s) = s.drop (12 + 12 * h.numTracks) := by
  obtain ⟨_, _, _, _, hoff⟩ := parsed_fields g s h f hok
  have hc := chunks_concat (s.drop (12 + 12 * h.numTracks)) h.trackSizeBytes h.numTracks
  rw [List.take_of_length_le (by rw [List.length_drop]; omega)] at hc
  rw [← hc]
  apply List.flatMap_congr
  intro i hi
  unfold trackBytes
  rw [hoff i (List.mem_range.mp hi), List.drop_drop]

/-- C16. Splitting with every track included is the identity: for a well-formed source
stream (it parses, its elements are bytes, and it consists of exactly the header block
followed by the declared payload bytes), `eadfSplitFile` with every index below the track
count marked Source1 succeeds on an unbounded destination, and whenever it succeeds the
output is byte for byte the source stream. -/
theorem eadfSplitFile_all_identity (g0 : EADFHeader) (s : List Nat) (h : EADFHeader) (p : FILE)
    (hp : eadfHeaderInitWithFile g0 (openStream s) = Except.ok (h, p))
    (hbytes : ∀ b ∈ s, b < 256)
    (hlen : s.length
      = 12 + 12 * h.numTracks + ∑ i in Finset.range h.numTracks, h.trackSizeBytes i)
    (trackSources : Nat → EADFTrackSource)
    (hall : ∀ i, i < h.numTracks → trackSources i = EADFTrackSource.SOURCE1) :
    (∃ r, eadfSplitFile h p (createStream none) trackSources = Except.ok r)
      ∧ ∀ room r, eadfSplitFile h p (createStream room) trackSources = Except.ok r →
          r.2.data = s := by
  have hw := holdsPayload_of_length g0 s h p hp (by omega)
  refine ⟨eadfSplitFile_succeeds g0 s h p hp hw trackSources, ?_⟩
  intro room r hs
  obtain ⟨hl, _⟩ := eadfSplitFile_layout g0 s h p hp room trackSources r hs
  have hrec : headerBlock h.numTracks (splitRecord h trackSources)
      = headerBlock h.numTracks
          (fun i => (h.trackType i, h.trackSizeBytes i, h.trackSizeBits i)) := by
    unfold headerBlock
    congr 1
    apply List.flatMap_congr
    intro i hi
    simp only [splitRecord, if_pos (hall i (List.mem_range.mp hi))]
  have hpay : (List.range h.numTracks).flatMap (splitTrack h s trackSources)
      = (List.range h.numTracks).flatMap (trackBytes h s) := by
    apply List.flatMap_congr
    intro i hi
    simp only [splitTrack, if_pos (hall i (List.mem_range.mp hi))]
  rw [hl, hrec, hpay, header_bytes_roundtrip g0 s h p hp hbytes, payload_concat g0 s h p hp hlen,
    List.take_append_drop]

theorem eadfSplitFile_all_identity_witness :
    (splitResult (eadfSplitFile (parsedHeader sampleImage) (afterHeader sampleImage 2)
        (createStream none) (fun _ => EADFTrackSource.SOURCE1))).2.data = sampleImage :=
  (eadfSplitFile_all_identity blankHeader sampleImage (parsedHeader sampleImage)
    (afterHeader sampleImage 2) rfl (by decide) (by decide)
    (fun _ => EADFTrackSource.SOURCE1) (fun _ _ => rfl)).2 none _ rfl

/-! ## Comparing tracks -/

theorem memcmp_eq_zero_iff : ∀ (n : Nat) (a b : List Nat), a.length = n → b.length = n →
    (memcmp a b n = 0 ↔ a = b)
  | 0, a, b, ha, hb => by
    have h1 : a = [] := List.length_eq_zero.mp ha
    have h2 : b = [] := List.length_eq_zero.mp hb
    subst h1 h2
    simp [memcmp]
  | n + 1, [], _, ha, _ => by simp at ha
  | n + 1, _ :: _, [], _, hb => by simp at hb
  | n + 1, x :: a, y :: b, ha, hb => by
    have ih := memcmp_eq_zero_iff n a b (by simpa using ha) (by simpa using hb)
    by_cases hxy : x = y
    · subst hxy
      simp [memcmp, ih]
    · have : (x : Int) - (y : Int) ≠ 0 := by omega
      simp [memcmp, hxy, this]

theorem take_length_of_avail (d : List Nat) (p n : Nat) (h : n ≤ d.length - p) :
    ((d.drop p).take n).length = n := by
  rw [List.length_take, List.length_drop]
  omega

theorem compareLoop_spec :
    ∀ (fuel : Nat) (numBytes : Int) (hb : numBytes ≤ 1024 * (fuel : Int)) (f1 f2 : FILE),
      numBytes.toNat ≤ f1.data.length - f1.pos → numBytes.toNat ≤ f2.data.length - f2.pos →
      ∃ c, compareLoop fuel numBytes hb f1 f2 = Except.ok c
        ∧ c.2.1.data = f1.data ∧ c.2.2.data = f2.data
        ∧ (c.1 = 0 ∨ c.1 = 1)
        ∧ (c.1 = 0 ↔ (f1.data.drop f1.pos).take numBytes.toNat
            = (f2.data.drop f2.pos).take numBytes.toNat)
  | 0, numBytes, hb, f1, f2, _, _ => by
    have hz : numBytes.toNat = 0 := by omega
    refine ⟨(0, f1, f2), rfl, rfl, rfl, Or.inl rfl, ?_⟩
    simp [hz]
  | fuel + 1, numBytes, hb, f1, f2, ha1, ha2 => by
    rw [compareLoop]
    by_cases hpos : numBytes > 0
    swap
    · rw [if_neg hpos]
      have hz : numBytes.toNat = 0 := by omega
      refine ⟨(0, f1, f2), rfl, rfl, rfl, Or.inl rfl, ?_⟩
      simp [hz]
    rw [if_pos hpos]
    simp only []
    obtain ⟨count, hcount, hc1, hc2⟩ : ∃ count : Nat,
        (if numBytes > (COMMAND_BUFSIZE : Int) then COMMAND_BUFSIZE else numBytes.toNat) = count
        ∧ count ≤ numBytes.toNat
        ∧ numBytes.toNat = count + (numBytes - (COMMAND_BUFSIZE : Int)).toNat := by
      refine ⟨_, rfl, ?_, ?_⟩
      · split_ifs with hbig
        · simp only [COMMAND_BUFSIZE, Nat.cast_ofNat] at hbig ⊢
          omega
        · exact le_refl _
      · split_ifs with hbig
        · simp only [COMMAND_BUFSIZE, Nat.cast_ofNat] at hbig ⊢
          omega
        · simp only [COMMAND_BUFSIZE, Nat.cast_ofNat] at hbig ⊢
          omega
    rw [hcount]
    have l1 := take_length_of_avail f1.data f1.pos count (by omega)
    have l2 := take_length_of_avail f2.data f2.pos count (by omega)
    have e1 : ¬ (fread count f1).1.length ≠ count := by rw [fread_fst, l1]; exact fun h => h rfl
    have e2 : ¬ (fread count f2).1.length ≠ count := by rw [fread_fst, l2]; exact fun h => h rfl
    rw [if_neg e1, if_neg e2]
    have hm := memcmp_eq_zero_iff count (fread count f1).1 (fread count f2).1
      (by rw [fread_fst, l1]) (by rw [fread_fst, l2])
    rw [fread_fst, fread_fst] at hm
    have hsplit : ∀ (f : FILE), (f.data.drop f.pos).take numBytes.toNat
        = (f.data.drop f.pos).take count
          ++ (f.data.drop (f.pos + count)).take (numBytes - (COMMAND_BUFSIZE : Int)).toNat := by
      intro f
      rw [hc2, List.take_add, List.drop_drop]
    by_cases hne : memcmp (fread count f1).1 (fread count f2).1 count ≠ 0
    · rw [if_pos hne]
      refine ⟨_, rfl, rfl, rfl, Or.inr rfl, ?_⟩
      constructor
      · intro h
        exact absurd h (show ¬ ((1 : Int) = 0) by decide)
      · intro h
        exfalso
        apply hne
        rw [fread_fst, fread_fst, hm]
        have := congrArg (List.take count) h
        rw [List.take_take, List.take_take, Nat.min_eq_left hc1] at this
        exact this
    · rw [if_neg hne]
      have heq : (f1.data.drop f1.pos).take count = (f2.data.drop f2.pos).take count := by
        rw [← hm]
        rw [fread_fst, fread_fst] at hne
        exact not_not.mp hne
      obtain ⟨c, hc, d1, d2, hv, hiff⟩ := compareLoop_spec fuel
        (numBytes - (COMMAND_BUFSIZE : Int))
        (by simp only [COMMAND_BUFSIZE]; push_cast at hb ⊢; omega)
        (fread count f1).2 (fread count f2).2
        (by rw [fread_snd_data, fread_snd_pos, l1]; omega)
        (by rw [fread_snd_data, fread_snd_pos, l2]; omega)
      refine ⟨c, hc, d1, d2, hv, ?_⟩
      rw [hiff, fread_snd_data, fread_snd_data, fread_snd_pos, fread_snd_pos, l1, l2,
        hsplit f1, hsplit f2, heq]
      exact (List.append_right_inj _).symm

theorem compareTracks_present (g1 : EADFHeader) (s1 : List Nat) (h1 : EADFHeader) (p1 : FILE)
    (hp1 : eadfHeaderInitWithFile g1 (openStream s1) = Except.ok (h1, p1))
    (g2 : EADFHeader) (s2 : List Nat) (h2 : EADFHeader) (p2 : FILE)
    (hp2 : eadfHeaderInitWithFile g2 (openStream s2) = Except.ok (h2, p2))
    (hw1 : HoldsPayload h1 s1) (hw2 : HoldsPayload h2 s2)
    (f1 f2 : FILE) (hd1 : f1.data = s1) (hd2 : f2.data = s2)
    (i : Nat) (hi1 : i < h1.numTracks) (hi2 : i < h2.numTracks) :
    ∃ c, compareTracks h1 f1 h2 f2 i = Except.ok c
      ∧ c.2.1.data = s1 ∧ c.2.2.data = s2
      ∧ (c.1 = 0 ↔
          h1.trackType i = h2.trackType i
          ∧ h1.trackSizeBytes i = h2.trackSizeBytes i
          ∧ h1.trackSizeBits i = h2.trackSizeBits i
          ∧ trackBytes h1 s1 i = trackBytes h2 s2 i) := by
  unfold compareTracks
  by_cases hmeta : i > h1.numTracks
      ∨ i > h2.numTracks
      ∨ h1.trackType i ≠ h2.trackType i
      ∨ h1.trackSizeBytes i ≠ h2.trackSizeBytes i
      ∨ h1.trackSizeBits i ≠ h2.trackSizeBits i
  · rw [if_pos hmeta]
    refine ⟨_, rfl, hd1, hd2, ?_⟩
    constructor
    · intro h
      exact absurd h (show ¬ ((1 : Int) = 0) by decide)
    · rintro ⟨a, b, c, _⟩
      rcases hmeta with h | h | h | h | h
      · omega
      · omega
      · exact absurd a h
      · exact absurd b h
      · exact absurd c h
  · rw [if_neg hmeta]
    have hty : h1.trackType i = h2.trackType i := by
      by_contra h
      exact hmeta (Or.inr (Or.inr (Or.inl h)))
    have hsz : h1.trackSizeBytes i = h2.trackSizeBytes i := by
      by_contra h
      exact hmeta (Or.inr (Or.inr (Or.inr (Or.inl h))))
    have hbits : h1.trackSizeBits i = h2.trackSizeBits i := by
      by_contra h
      exact hmeta (Or.inr (Or.inr (Or.inr (Or.inr h))))
    obtain ⟨_, _, _, q1⟩ := parsed_facts g1 s1 h1 p1 hp1
    obtain ⟨_, _, _, q2⟩ := parsed_facts g2 s2 h2 p2 hp2
    obtain ⟨_, a1, _, b1⟩ := q1 i hi1
    obtain ⟨_, a2, _, b2⟩ := q2 i hi2
    have w1 := hw1 i hi1
    have w2 := hw2 i hi2
    have o1 := longFromULong_of_lt b1
    have o2 := longFromULong_of_lt b2
    have z1 := longFromULong_of_lt (show h1.trackSizeBytes i < 2 ^ 63 by omega)
    obtain ⟨k1, k2, k3⟩ := fseek_nonneg f1 (longFromULong (h1.trackOffset i))
      (by rw [o1]; exact Int.ofNat_nonneg _)
    obtain ⟨m1, m2, m3⟩ := fseek_nonneg f2 (longFromULong (h2.trackOffset i))
      (by rw [o2]; exact Int.ofNat_nonneg _)
    simp only [k1, m1, if_false]
    obtain ⟨c, hc, d1, d2, _, hiff⟩ := compareLoop_spec
      (longFromULong (h1.trackSizeBytes i)).toNat (longFromULong (h1.trackSizeBytes i))
      (by omega) (fseek f1 (longFromULong (h1.trackOffset i))).2
      (fseek f2 (longFromULong (h2.trackOffset i))).2
      (by rw [k2, k3, hd1, o1, z1]; simp only [Int.toNat_ofNat]; omega)
      (by rw [m2, m3, hd2, o2, z1]; simp only [Int.toNat_ofNat]; omega)
    refine ⟨c, hc, by rw [d1, k2, hd1], by rw [d2, m2, hd2], ?_⟩
    rw [hiff, k2, k3, m2, m3, hd1, hd2, o1, o2, z1]
    simp only [Int.toNat_ofNat, trackBytes, hty, hsz, hbits, true_and]

/-- C19. Windowed comparison agrees with comparing whole payloads: for two well-formed
sources and an index below both track counts, `compareTracks` succeeds, and it reports
the tracks equal (result 0) if and only if the types, the byte lengths and the bit
lengths are equal and the `byteLength` bytes of stream 1 at `offset1[i]` equal, as a
whole sequence, the `byteLength` bytes of stream 2 at `offset2[i]`; this holds for every
track length. -/
theorem compareTracks_equal_iff (g1 : EADFHeader) (s1 : List Nat) (h1 : EADFHeader) (p1 : FILE)
    (hp1 : eadfHeaderInitWithFile g1 (openStream s1) = Except.ok (h1, p1))
    (g2 : EADFHeader) (s2 : List Nat) (h2 : EADFHeader) (p2 : FILE)
    (hp2 : eadfHeaderInitWithFile g2 (openStream s2) = Except.ok (h2, p2))
    (hw1 : HoldsPayload h1 s1) (hw2 : HoldsPayload h2 s2)
    (i : Nat) (hi1 : i < h1.numTracks) (hi2 : i < h2.numTracks) :
    ∃ c, compareTracks h1 p1 h2 p2 i = Except.ok c
      ∧ (c.1 = 0 ↔
          h1.trackType i = h2.trackType i
          ∧ h1.trackSizeBytes i = h2.trackSizeBytes i
          ∧ h1.trackSizeBits i = h2.trackSizeBits i
          ∧ (s1.drop (h1.trackOffset i)).take (h1.trackSizeBytes i)
              = (s2.drop (h2.trackOffset i)).take (h2.trackSizeBytes i)) := by
  obtain ⟨_, e1, _, _⟩ := parsed_facts g1 s1 h1 p1 hp1
  obtain ⟨_, e2, _, _⟩ := parsed_facts g2 s2 h2 p2 hp2
  obtain ⟨c, hc, _, _, hiff⟩ := compareTracks_present g1 s1 h1 p1 hp1 g2 s2 h2 p2 hp2 hw1 hw2
    p1 p2 (by rw [e1]; rfl) (by rw [e2]; rfl) i hi1 hi2
  exact ⟨c, hc, hiff⟩

theorem sampleImage3_holds : HoldsPayload (parsedHeader sampleImage3) sampleImage3 := by
  intro i hi
  have h2 : i < 2 := hi
  interval_cases i <;> decide

theorem compareTracks_equal_iff_witness :
    (∃ c, compareTracks (parsedHeader sampleImage) (afterHeader sampleImage 2)
          (parsedHeader sampleImage3) (afterHeader sampleImage3 2) 1 = Except.ok c
        ∧ (c.1 = 0 ↔
            (parsedHeader sampleImage).trackType 1 = (parsedHeader sampleImage3).trackType 1
            ∧ (parsedHeader sampleImage).trackSizeBytes 1
                = (parsedHeader sampleImage3).trackSizeBytes 1
            ∧ (parsedHeader sampleImage).trackSizeBits 1
                = (parsedHeader sampleImage3).trackSizeBits 1
            ∧ (sampleImage.drop ((parsedHeader sampleImage).trackOffset 1)).take
                  ((parsedHeader sampleImage).trackSizeBytes 1)
                = (sampleImage3.drop ((parsedHeader sampleImage3).trackOffset 1)).take
                  ((parsedHeader sampleImage3).trackSizeBytes 1)))
      ∧ compareResult (compareTracks (parsedHeader sampleImage) (afterHeader sampleImage 2)
          (parsedHeader sampleImage3) (afterHeader sampleImage3 2) 0) = some 0
      ∧ compareResult (compareTracks (parsedHeader sampleImage) (afterHeader sampleImage 2)
          (parsedHeader sampleImage3) (afterHeader sampleImage3 2) 1) = some 1 :=
  ⟨compareTracks_equal_iff blankHeader sampleImage (parsedHeader sampleImage)
      (afterHeader sampleImage 2) rfl blankHeader sampleImage3 (parsedHeader sampleImage3)
      (afterHeader sampleImage3 2) rfl sampleImage_holds sampleImage3_holds 1 (by decide)
      (by decide),
    by decide, by decide⟩

theorem printComparisonLoop_self (g : EADFHeader) (s : List Nat) (h : EADFHeader) (p : FILE)
    (hp : eadfHeaderInitWithFile g (openStream s) = Except.ok (h, p)) (hw : HoldsPayload h s) :
    ∀ (k track : Nat) (f1 f2 : FILE) (rows : List ComparisonRow),
      f1.data = s → f2.data = s → track + k ≤ h.numTracks →
      ∃ c, printComparisonLoop h h k track f1 f2 rows = Except.ok c
        ∧ c.1.length = rows.length + k
        ∧ ∀ row ∈ c.1, row ∈ rows ∨ row.diff = ' '
  | 0, track, f1, f2, rows, _, _, _ =>
    ⟨(rows, f1, f2), rfl, rfl, fun row hr => Or.inl hr⟩
  | k + 1, track, f1, f2, rows, hd1, hd2, hk => by
    rw [printComparisonLoop]
    obtain ⟨c, hc, e1, e2, hiff⟩ := compareTracks_present g s h p hp g s h p hp hw hw f1 f2
      hd1 hd2 track (by omega) (by omega)
    have hzero : c.1 = 0 := hiff.mpr ⟨rfl, rfl, rfl, rfl⟩
    simp only [hc, hzero, if_true]
    obtain ⟨c', hc', hlen, hrows⟩ := printComparisonLoop_self g s h p hp hw k (track + 1)
      c.2.1 c.2.2 _ e1 e2 (by omega)
    refine ⟨c', hc', ?_, ?_⟩
    · rw [hlen, List.length_append, List.length_singleton]
      omega
    · intro row hr
      rcases hrows row hr with h1 | h1
      · rcases List.mem_append.mp h1 with h2 | h2
        · exact Or.inl h2
        · right
          rw [List.mem_singleton.mp h2]
      · exact Or.inr h1

/-- C17. Comparing a file with an identical copy: for a well-formed stream with parsed
header `h`, and two streams over the same bytes, `compareTracks` succeeds at every index
below the track count and reports the tracks equal (result 0); and `printComparison`
succeeds with one line per track, none of them flagged as different. -/
theorem compareTracks_self (g : EADFHeader) (s : List Nat) (h : EADFHeader) (p : FILE)
    (hp : eadfHeaderInitWithFile g (openStream s) = Except.ok (h, p)) (hw : HoldsPayload h s)
    (f1 f2 : FILE) (hd1 : f1.data = s) (hd2 : f2.data = s) :
    (∀ i, i < max h.numTracks h.numTracks →
        ∃ c, compareTracks h f1 h f2 i = Except.ok c ∧ c.1 = 0)
      ∧ ∃ c, printComparison h f1 h f2 = Except.ok c
          ∧ c.1.length = h.numTracks ∧ ∀ row ∈ c.1, row.diff = ' ' := by
  constructor
  · intro i hi
    have hi' : i < h.numTracks := by rw [Nat.max_self] at hi; exact hi
    obtain ⟨c, hc, _, _, hiff⟩ := compareTracks_present g s h p hp g s h p hp hw hw f1 f2
      hd1 hd2 i hi' hi'
    exact ⟨c, hc, hiff.mpr ⟨rfl, rfl, rfl, rfl⟩⟩
  · unfold printComparison
    simp only [max_numTracks, Nat.max_self]
    obtain ⟨c, hc, hlen, hrows⟩ := printComparisonLoop_self g s h p hp hw h.numTracks 0 f1 f2 []
      hd1 hd2 (by omega)
    refine ⟨c, hc, by rw [hlen]; simp, ?_⟩
    intro row hr
    rcases hrows row hr with h1 | h1
    · cases h1
    · exact h1

theorem compareTracks_self_witness :
    (∃ c, compareTracks (parsedHeader sampleImage) (afterHeader sampleImage 2)
          (parsedHeader sampleImage) (openStream sampleImage) 1 = Except.ok c ∧ c.1 = 0)
      ∧ comparisonFlags (printComparison (parsedHeader sampleImage) (afterHeader sampleImage 2)
          (parsedHeader sampleImage) (openStream sampleImage)) = some [' ', ' '] :=
  ⟨(compareTracks_self blankHeader sampleImage (parsedHeader sampleImage)
      (afterHeader sampleImage 2) rfl sampleImage_holds (afterHeader sampleImage 2)
      (openStream sampleImage) rfl rfl).1 1 (by decide),
    by decide⟩

/-- C18. A track that only one header has can be reported equal: with header memory that holds zeros, comparing `oneTrackImage` (one track)
with `twoTrackImage` (whose track 1 is an empty DOS track) at index 1, which is below
`max(count1, count2) = 2` and not below `count1 = 1`, `compareTracks` succeeds with
result 0, and `printComparison` does not flag the line.  The guard
`track > h1->numTracks` lets the index `track = h1->numTracks` through, so that the
entries of `h1` at that index, which the parser never wrote, are compared. -/
theorem compareTracks_missing_index_reported_equal :
    (parsedHeader oneTrackImage).numTracks = 1
      ∧ (parsedHeader twoTrackImage).numTracks = 2
      ∧ compareResult (compareTracks (parsedHeader oneTrackImage) (afterHeader oneTrackImage 1)
          (parsedHeader twoTrackImage) (afterHeader twoTrackImage 2) 1) = some 0
      ∧ comparisonFlags (printComparison (parsedHeader oneTrackImage)
          (afterHeader oneTrackImage 1) (parsedHeader twoTrackImage)
          (afterHeader twoTrackImage 2)) = some [' ', ' '] := by
  decide

/-! ## Track specifications -/

theorem isdigit_facts (c : Char) (h : isdigit c = true) :
    isspace c = false ∧ c ≠ '-' ∧ c ≠ '+' := by
  simp only [isdigit, decide_eq_true_eq] at h
  refine ⟨?_, ?_, ?_⟩
  · simp only [isspace, decide_eq_false_iff_not]
    omega
  · intro e
    rw [e] at h
    exact absurd h (by decide)
  · intro e
    rw [e] at h
    exact absurd h (by decide)

theorem scanDigits_stop (rest : List Char) (acc : Nat) (seen : Bool)
    (hrest : isdigit (firstChar rest) = false) :
    scanDigits rest acc seen = (acc, seen, rest) := by
  cases rest with
  | nil => rfl
  | cons c r =>
    have hc : isdigit c = false := hrest
    simp only [scanDigits, hc, Bool.false_eq_true, if_false]

theorem scanDigits_digits (rest : List Char) (hrest : isdigit (firstChar rest) = false) :
    ∀ (d : List Char) (acc : Nat) (seen : Bool), (∀ c ∈ d, isdigit c = true) →
      scanDigits (d ++ rest) acc seen
        = (d.foldl (fun a c => 10 * a + (c.toNat - 48)) acc, seen || !d.isEmpty, rest)
  | [], acc, seen, _ => by
    rw [List.nil_append, scanDigits_stop rest acc seen hrest]
    simp
  | c :: d, acc, seen, hd => by
    have hc : isdigit c = true := hd c (List.mem_cons_self c d)
    rw [List.cons_append, scanDigits, if_pos hc,
      scanDigits_digits rest hrest d _ true (fun x hx => hd x (List.mem_cons_of_mem c hx))]
    simp

theorem strtol_digits (d rest : List Char) (hd : IsDigits d)
    (hrest : isdigit (firstChar rest) = false) (hv : digitsValue d < 2 ^ 63) :
    strtol (d ++ rest) = ((digitsValue d : Int), rest) := by
  obtain ⟨hne, hall⟩ := hd
  cases d with
  | nil => exact absurd rfl hne
  | cons c d' =>
    obtain ⟨h1, h2, h3⟩ := isdigit_facts c (hall c (List.mem_cons_self c d'))
    have hskip : skipSpaces (c :: d' ++ rest) = c :: d' ++ rest := by
      rw [List.cons_append, skipSpaces]
      simp only [h1, Bool.false_eq_true, if_false]
    have hfirst : firstChar (c :: d' ++ rest) = c := rfl
    have hscan := scanDigits_digits rest hrest (c :: d') 0 false hall
    unfold strtol
    simp only [hskip, hfirst, h2, h3, or_self, if_false, decide_False, hscan]
    have hval : List.foldl (fun a c => 10 * a + (c.toNat - 48)) 0 (c :: d')
        = digitsValue (c :: d') := rfl
    rw [hval]
    have hgt : ¬ ((digitsValue (c :: d') : Int) > LONG_MAX) := by
      simp only [LONG_MAX]; omega
    have hlt : ¬ ((digitsValue (c :: d') : Int) < LONG_MIN) := by
      simp only [LONG_MIN]; omega
    simp [hgt, hlt]

theorem fillRange_apply (value : EADFTrackSource) :
    ∀ (k track : Nat) (trackSources : Nat → EADFTrackSource) (i : Nat),
      fillRange value k (track : Int) trackSources i
        = if track ≤ i ∧ i < track + k then value else trackSources i
  | 0, track, trackSources, i => by
    have : ¬ (track ≤ i ∧ i < track + 0) := by omega
    simp only [fillRange, this, if_false]
  | k + 1, track, trackSources, i => by
    have hc : ((track : Int) + 1) = ((track + 1 : Nat) : Int) := by push_cast; rfl
    rw [fillRange, hc, fillRange_apply value k (track + 1), Int.toNat_ofNat]
    by_cases hi : i = track
    · subst hi
      have h1 : ¬ (i + 1 ≤ i ∧ i < i + 1 + k) := by omega
      have h2 : i ≤ i ∧ i < i + (k + 1) := by omega
      rw [if_neg h1, if_pos h2, Function.update_same]
    · by_cases hr : track + 1 ≤ i ∧ i < track + 1 + k
      · have h2 : track ≤ i ∧ i < track + (k + 1) := by omega
        rw [if_pos hr, if_pos h2]
      · have h2 : ¬ (track ≤ i ∧ i < track + (k + 1)) := by omega
        rw [if_neg hr, if_neg h2, Function.update_noteq hi]

theorem firstChar_nil : firstChar [] = Char.ofNat 0 := rfl

theorem parseTrackSpecs_single (t : List Char) (args : List (List Char))
    (trackSources : Nat → EADFTrackSource) (value : EADFTrackSource) (a : Nat)
    (ht : IsDigits t) (ha : digitsValue t = a) (hlt : a < 166) :
    parseTrackSpecs (t :: args) trackSources value
      = parseTrackSpecs args (Function.update trackSources a value) value := by
  have hs : strtol t = ((a : Int), []) := by
    have h := strtol_digits t [] ht (by decide) (by omega)
    rw [List.append_nil, ha] at h
    exact h
  have h1 : ¬ ((a : Int) < 0) := by omega
  have h2 : ¬ ((a : Int) ≥ ((EADF_MAXTRACKS : Nat) : Int)) := by
    simp only [EADF_MAXTRACKS]; omega
  rw [parseTrackSpecs]
  simp only [hs, firstChar_nil, ne_eq, not_true_eq_false, false_and, h1, h2, or_self,
    if_false, if_true, Int.toNat_ofNat]

theorem parseTrackSpecs_range (d1 d2 : List Char) (args : List (List Char))
    (trackSources : Nat → EADFTrackSource) (value : EADFTrackSource) (a b : Nat)
    (h1 : IsDigits d1) (h2 : IsDigits d2) (ha : digitsValue d1 = a) (hb : digitsValue d2 = b)
    (hab : a ≤ b) (hlt : b < 166) :
    parseTrackSpecs ((d1 ++ '-' :: d2) :: args) trackSources value
      = parseTrackSpecs args (fillRange value (b - a + 1) (a : Int) trackSources) value := by
  have hs1 : strtol (d1 ++ '-' :: d2) = ((a : Int), '-' :: d2) := by
    have hd : isdigit '-' = false := by decide
    have h := strtol_digits d1 ('-' :: d2) h1 hd (by omega)
    rw [ha] at h
    exact h
  have hs2 : strtol d2 = ((b : Int), []) := by
    have h := strtol_digits d2 [] h2 (by decide) (by omega)
    rw [List.append_nil, hb] at h
    exact h
  have hf : firstChar ('-' :: d2) = '-' := rfl
  have hn : ¬ ('-' = Char.ofNat 0) := by decide
  have c1 : ¬ ((a : Int) < 0) := by omega
  have c2 : ¬ ((a : Int) ≥ ((EADF_MAXTRACKS : Nat) : Int)) := by
    simp only [EADF_MAXTRACKS]; omega
  have c3 : ¬ ((b : Int) < (a : Int)) := by omega
  have c4 : ¬ ((b : Int) ≥ ((EADF_MAXTRACKS : Nat) : Int)) := by
    simp only [EADF_MAXTRACKS]; omega
  have hk : ((b : Int) - (a : Int) + 1).toNat = b - a + 1 := by omega
  rw [parseTrackSpecs]
  simp only [hs1, hf, List.tail_cons, hs2, firstChar_nil, ne_eq, not_true_eq_false, hn,
    not_false_eq_true, and_false, and_true, c1, c2, c3, c4, or_self, if_false, hk]

theorem parseTrackSpecs_step (t : List Char) (args : List (List Char))
    (trackSources : Nat → EADFTrackSource) (value : EADFTrackSource) (a b : Nat)
    (hwf : WellFormedSpec t a b) :
    ∃ ts1, parseTrackSpecs (t :: args) trackSources value = parseTrackSpecs args ts1 value
      ∧ ∀ i, ts1 i = if a ≤ i ∧ i ≤ b then value else trackSources i := by
  rcases hwf with ⟨ht, ha, hb, hlt⟩ | ⟨d1, d2, ht, h1, h2, ha, hb, hab, hlt⟩
  · refine ⟨_, parseTrackSpecs_single t args trackSources value a ht ha hlt, fun i => ?_⟩
    rw [hb]
    by_cases hi : i = a
    · rw [hi, Function.update_same, if_pos ⟨le_refl _, le_refl _⟩]
    · have hn : ¬ (a ≤ i ∧ i ≤ a) := by omega
      rw [Function.update_noteq hi, if_neg hn]
  · subst ht
    refine ⟨_, parseTrackSpecs_range d1 d2 args trackSources value a b h1 h2 ha hb hab hlt,
      fun i => ?_⟩
    rw [fillRange_apply]
    by_cases hi : a ≤ i ∧ i ≤ b
    · have hj : a ≤ i ∧ i < a + (b - a + 1) := by omega
      rw [if_pos hi, if_pos hj]
    · have hj : ¬ (a ≤ i ∧ i < a + (b - a + 1)) := by omega
      rw [if_neg hi, if_neg hj]

theorem parseTrackSpecs_wellFormed :
    ∀ (specs : List (List Char)) (ranges : List (Nat × Nat)),
      List.Forall₂ (fun t ab => WellFormedSpec t ab.1 ab.2) specs ranges →
      ∀ (trackSources : Nat → EADFTrackSource) (value : EADFTrackSource),
        ∃ ts, parseTrackSpecs specs trackSources value = Except.ok ts
          ∧ (∀ i, Covered ranges i → ts i = value)
          ∧ (∀ i, ¬ Covered ranges i → ts i = trackSources i)
  | _, _, List.Forall₂.nil, trackSources, _ =>
    ⟨trackSources, rfl, (fun i hc => by
      obtain ⟨ab, hab, _⟩ := hc
      exact absurd hab (List.not_mem_nil ab)), fun _ _ => rfl⟩
  | _, _, @List.Forall₂.cons _ _ _ t ab specs ranges hwf hrest, trackSources, value => by
    obtain ⟨ts1, hstep, h1⟩ := parseTrackSpecs_step t specs trackSources value ab.1 ab.2 hwf
    obtain ⟨ts, hok, hin, hout⟩ := parseTrackSpecs_wellFormed specs ranges hrest ts1 value
    refine ⟨ts, hstep.trans hok, fun i hc => ?_, fun i hc => ?_⟩
    · by_cases hr : Covered ranges i
      · exact hin i hr
      · obtain ⟨x, hx, hxi⟩ := hc
        rcases List.mem_cons.mp hx with e | e
        · rw [hout i hr, h1 i, if_pos (e ▸ hxi)]
        · exact absurd ⟨x, e, hxi⟩ hr
    · have hr : ¬ Covered ranges i := fun ⟨x, hx, hxi⟩ =>
        hc ⟨x, List.mem_cons_of_mem ab hx, hxi⟩
      have hh : ¬ (ab.1 ≤ i ∧ i ≤ ab.2) := fun hxi => hc ⟨ab, List.mem_cons_self ab ranges, hxi⟩
      rw [hout i hr, h1 i, if_neg hh]

/-- C20. For every list of well-formed tokens (a base-10 integer `N < 166`, or a range
`A-B` with `A ≤ B < 166`), every initial array and every fill value, `parseTrackSpecs`
succeeds, and the resulting array holds the fill value at every index covered by some token
and is unchanged at every other index. -/
theorem parseTrackSpecs_marks (specs : List (List Char)) (ranges : List (Nat × Nat))
    (hwf : List.Forall₂ (fun t ab => WellFormedSpec t ab.1 ab.2) specs ranges)
    (trackSources : Nat → EADFTrackSource) (value : EADFTrackSource) :
    ∃ ts, parseTrackSpecs specs trackSources value = Except.ok ts
      ∧ (∀ i, Covered ranges i → ts i = value)
      ∧ (∀ i, ¬ Covered ranges i → ts i = trackSources i) :=
  parseTrackSpecs_wellFormed specs ranges hwf trackSources value

/-- The tokens "35" and "57-59" are well formed, and on an array of `NONE` with fill value
`SOURCE1` the parse succeeds and marks exactly the indices 35, 57, 58 and 59. -/
theorem parseTrackSpecs_marks_witness :
    List.Forall₂ (fun t ab => WellFormedSpec t ab.1 ab.2)
        [['3', '5'], ['5', '7', '-', '5', '9']] [(35, 35), (57, 59)]
      ∧ ∃ ts, parseTrackSpecs [['3', '5'], ['5', '7', '-', '5', '9']] allNone
            EADFTrackSource.SOURCE1 = Except.ok ts
          ∧ ∀ i, ts i = if i = 35 ∨ (57 ≤ i ∧ i ≤ 59) then EADFTrackSource.SOURCE1
              else EADFTrackSource.NONE := by
  have hwf : List.Forall₂ (fun t ab => WellFormedSpec t ab.1 ab.2)
      [['3', '5'], ['5', '7', '-', '5', '9']] [(35, 35), (57, 59)] :=
    List.Forall₂.cons
      (Or.inl ⟨⟨by decide, by decide⟩, by decide, rfl, by decide⟩)
      (List.Forall₂.cons
        (Or.inr ⟨['5', '7'], ['5', '9'], rfl, ⟨by decide, by decide⟩, ⟨by decide, by decide⟩,
          by decide, by decide, by decide, by decide⟩)
        List.Forall₂.nil)
  obtain ⟨ts, hok, hin, hout⟩ :=
    parseTrackSpecs_marks _ _ hwf allNone EADFTrackSource.SOURCE1
  refine ⟨hwf, ts, hok, fun i => ?_⟩
  by_cases h : i = 35 ∨ (57 ≤ i ∧ i ≤ 59)
  · rw [if_pos h]
    apply hin
    rcases h with h | h
    · exact ⟨(35, 35), List.mem_cons_self _ _, by simp only; omega⟩
    · exact ⟨(57, 59), List.mem_cons_of_mem _ (List.mem_cons_self _ _), h⟩
  · rw [if_neg h]
    have hc : ¬ Covered [(35, 35), (57, 59)] i := by
      rintro ⟨x, hx, hxi⟩
      simp only [List.mem_cons, List.mem_singleton, List.not_mem_nil, or_false] at hx
      rcases hx with e | e <;> subst e <;> simp only at hxi <;> omega
    rw [hout i hc]
    rfl

/-- C21. A token without any digit is accepted: `strtol` converts nothing, returns 0 and
leaves `endptr` at the start of the token, and `parseTrackSpecs` does not test for that.
The empty token is taken for track 0 and the token "-" for the range from 0 to 0, so on
an array of `NONE` both mark track 0 and nothing else is rejected; the tokens "200" and
"50-40" are rejected with the invalid-track-specification error. -/
theorem parseTrackSpecs_accepts_token_without_digits :
    specMark (parseTrackSpecs [[]] allNone EADFTrackSource.SOURCE1) 0
        = some EADFTrackSource.SOURCE1
      ∧ specMark (parseTrackSpecs [['-']] allNone EADFTrackSource.SOURCE1) 0
        = some EADFTrackSource.SOURCE1
      ∧ specMark (parseTrackSpecs [['0', '-']] allNone EADFTrackSource.SOURCE1) 0
        = some EADFTrackSource.SOURCE1
      ∧ specError (parseTrackSpecs [['2', '0', '0']] allNone EADFTrackSource.SOURCE1)
        = some CommandError.INVALIDTRACKSPEC
      ∧ specError (parseTrackSpecs [['5', '0', '-', '4', '0']] allNone EADFTrackSource.SOURCE1)
        = some CommandError.INVALIDTRACKSPEC := by
  decide

theorem fillTrackSources_apply (value : EADFTrackSource) :
    ∀ (k track : Nat) (array : Nat → EADFTrackSource) (i : Nat),
      fillTrackSources value k track array i
        = if track ≤ i ∧ i < track + k then value else array i
  | 0, track, array, i => by
    have : ¬ (track ≤ i ∧ i < track + 0) := by omega
    simp only [fillTrackSources, this, if_false]
  | k + 1, track, array, i => by
    rw [fillTrackSources, fillTrackSources_apply value k (track + 1)]
    by_cases hi : i = track
    · subst hi
      have h1 : ¬ (i + 1 ≤ i ∧ i < i + 1 + k) := by omega
      have h2 : i ≤ i ∧ i < i + (k + 1) := by omega
      rw [if_neg h1, if_pos h2, Function.update_same]
    · by_cases hr : track + 1 ≤ i ∧ i < track + 1 + k
      · have h2 : track ≤ i ∧ i < track + (k + 1) := by omega
        rw [if_pos hr, if_pos h2]
      · have h2 : ¬ (track ≤ i ∧ i < track + (k + 1)) := by omega
        rw [if_neg hr, if_neg h2, Function.update_noteq hi]

theorem replaceTrackSourceLoop_apply (replacements : Nat → EADFTrackSource) :
    ∀ (k track : Nat) (trackSources : Nat → EADFTrackSource) (i : Nat),
      replaceTrackSourceLoop replacements k track trackSources i
        = if track ≤ i ∧ i < track + k then replacements i else trackSources i
  | 0, track, trackSources, i => by
    have : ¬ (track ≤ i ∧ i < track + 0) := by omega
    simp only [replaceTrackSourceLoop, this, if_false]
  | k + 1, track, trackSources, i => by
    rw [replaceTrackSourceLoop, replaceTrackSourceLoop_apply replacements k (track + 1)]
    by_cases hi : i = track
    · subst hi
      have h1 : ¬ (i + 1 ≤ i ∧ i < i + 1 + k) := by omega
      have h2 : i ≤ i ∧ i < i + (k + 1) := by omega
      rw [if_neg h1, if_pos h2, Function.update_same]
    · by_cases hr : track + 1 ≤ i ∧ i < track + 1 + k
      · have h2 : track ≤ i ∧ i < track + (k + 1) := by omega
        rw [if_pos hr, if_pos h2]
      · have h2 : ¬ (track ≤ i ∧ i < track + (k + 1)) := by omega
        rw [if_neg hr, if_neg h2, Function.update_noteq hi]

theorem replacePolicy_apply (trackSources : Nat → EADFTrackSource) (h1 h2 : EADFHeader)
    (replacements : Nat → EADFTrackSource) (hn1 : h1.numTracks ≤ 166) (hn2 : h2.numTracks ≤ 166)
    (i : Nat) (hi : i < max h1.numTracks h2.numTracks) :
    (replaceTrackSourceCallback trackSources h1 h2 replacements).2 i = replacements i := by
  have hm : (if h1.numTracks > h2.numTracks then h1.numTracks else h2.numTracks)
      = max h1.numTracks h2.numTracks := max_numTracks h1 h2
  have hl : longFromULong (max h1.numTracks h2.numTracks)
      = ((max h1.numTracks h2.numTracks : Nat) : Int) :=
    longFromULong_of_lt (by omega)
  simp only [replaceTrackSourceCallback, hm, hl, Int.toNat_ofNat]
  rw [replaceTrackSourceLoop_apply, if_pos ⟨Nat.zero_le _, by omega⟩]

theorem emptyImage_facts (n : Nat) (hn : n ≤ 166) :
    eadfHeaderInitWithFile blankHeader (openStream (emptyImage n))
        = Except.ok (parsedHeader (emptyImage n), afterHeader (emptyImage n) n)
      ∧ (parsedHeader (emptyImage n)).numTracks = n
      ∧ HoldsPayload (parsedHeader (emptyImage n)) (emptyImage n) := by
  obtain ⟨a, b, _, d⟩ := parsedHeader_container n
    (fun _ => (EADFTRACKTYPE_RAW, 0, 0)) (fun _ => ([] : List Nat))
    hn (fun i _ => by refine ⟨?_, ?_, ?_⟩ <;> simp) (fun i _ => rfl)
  unfold emptyImage
  exact ⟨a, b, d⟩

/-- C23. A replaced track can come out wrong: `replace` of `oneTrackImage` (one track) by
`threeTrackImage` (three tracks) with the track spec "2" leaves the decision Source1 at
index 1, which source 1 lacks.  The header loop of `eadfMergeFiles` writes (RAW, 0, 0) for
it, but the payload loop copies `h1->trackSizeBytes[1]` bytes from `h1->trackOffset[1]`,
entries the parser never wrote.  With a byte length of 1 left in that memory, one byte of
source 1 is written before track 2, and track 2 of the output read at its recomputed
offset is not track 2 of source 2. -/
theorem replace_shifts_later_tracks :
    (parsedInto staleHeader oneTrackImage).numTracks = 1
      ∧ (parsedHeader threeTrackImage).numTracks = 3
      ∧ commandOutput (executeReplaceCommand CommandError.NOERROROR [['2']] allNone
          staleHeader blankHeader (openStream oneTrackImage) (openStream threeTrackImage)
          (createStream none) allNone) = some replaceSampleOutput
      ∧ (parsedHeader replaceSampleOutput).numTracks = 3
      ∧ trackBytes (parsedHeader replaceSampleOutput) replaceSampleOutput 2 = [85, 40]
      ∧ trackBytes (parsedHeader threeTrackImage) threeTrackImage 2 = [40, 41] := by
  set_option maxRecDepth 100000 in
  decide

/-- C26. The output need not be a well-formed container: with the decision Source1 at
index 1, which the parsed header `h1` lacks, the header loop of `eadfMergeFiles` declares
(RAW, 0, 0) but the payload loop copies `h1->trackSizeBytes[1]` bytes, an entry the parser
never wrote.  With a byte length of 1 left in that memory the output holds four payload
bytes after its header, while its records declare three. -/
theorem eadfMergeFiles_undeclared_payload :
    (parsedInto staleHeader oneTrackImage).numTracks = 1
      ∧ (parsedHeader twoTrackImage).numTracks = 2
      ∧ mergeOutput (eadfMergeFiles (parsedInto staleHeader oneTrackImage)
            (afterHeader oneTrackImage 1) (parsedHeader twoTrackImage)
            (afterHeader twoTrackImage 2) (createStream none)
            (fun _ => EADFTrackSource.SOURCE1))
          = some (magicBytes ++ [0, 0, 0, 2]
              ++ [0, 0, 0, 0, 0, 0, 0, 3, 0, 0, 0, 24]
              ++ [0, 0, 0, 1, 0, 0, 0, 0, 0, 0, 0, 0]
              ++ [10, 11, 12, 85])
      ∧ declaredPayload (parsedHeader (magicBytes ++ [0, 0, 0, 2]
              ++ [0, 0, 0, 0, 0, 0, 0, 3, 0, 0, 0, 24]
              ++ [0, 0, 0, 1, 0, 0, 0, 0, 0, 0, 0, 0]
              ++ [10, 11, 12, 85])) = 3 := by
  set_option maxRecDepth 100000 in
  decide

theorem eadfMergeFiles_phases (h1 : EADFHeader) (f1 : FILE) (h2 : EADFHeader) (f2 : FILE)
    (dest : OutFILE) (trackSources : Nat → EADFTrackSource) :
    eadfMergeFiles h1 f1 h2 f2 dest trackSources
      = (match mergeHeaderPhase h1 h2 dest trackSources with
        | Except.error e => Except.error e
        | Except.ok d =>
          mergePayloadLoop h1 h2 trackSources (max h1.numTracks h2.numTracks) 0 f1 f2 d) := by
  unfold eadfMergeFiles mergeHeaderPhase
  simp only [max_numTracks]
  generalize mergeHeaderLoop h1 h2 trackSources (max h1.numTracks h2.numTracks) 0
    (EADF_MAGIC.take EADF_MAGICLEN
      ++ bigEndianBytesFromLong (longFromULong (max h1.numTracks h2.numTracks))) dest = x
  cases x with
  | error e => rfl
  | ok hb =>
    simp only []
    split_ifs <;> rfl

theorem eadfSplitFile_phases (h : EADFHeader) (f : FILE) (dest : OutFILE)
    (trackSources : Nat → EADFTrackSource) :
    eadfSplitFile h f dest trackSources
      = (match splitHeaderPhase h dest trackSources with
        | Except.error e => Except.error e
        | Except.ok d => splitPayloadLoop h trackSources h.numTracks 0 f d) := by
  unfold eadfSplitFile splitHeaderPhase
  simp only []
  generalize splitHeaderLoop h trackSources h.numTracks 0
    (EADF_MAGIC.take EADF_MAGICLEN ++ bigEndianBytesFromLong (longFromULong h.numTracks))
    dest = x
  cases x with
  | error e => rfl
  | ok hb =>
    simp only []
    split_ifs <;> rfl

theorem mergeHeaderPhase_data (g1 : EADFHeader) (s1 : List Nat) (h1 : EADFHeader) (p1 : FILE)
    (hp1 : eadfHeaderInitWithFile g1 (openStream s1) = Except.ok (h1, p1))
    (g2 : EADFHeader) (s2 : List Nat) (h2 : EADFHeader) (p2 : FILE)
    (hp2 : eadfHeaderInitWithFile g2 (openStream s2) = Except.ok (h2, p2))
    (trackSources : Nat → EADFTrackSource) (room : Option Nat) (d : OutFILE)
    (hd : mergeHeaderPhase h1 h2 (createStream room) trackSources = Except.ok d) :
    d.data = headerBlock (max h1.numTracks h2.numTracks) (mergedRecord h1 h2 trackSources) := by
  obtain ⟨n1, _, _, q1⟩ := parsed_facts g1 s1 h1 p1 hp1
  obtain ⟨n2, _, _, q2⟩ := parsed_facts g2 s2 h2 p2 hp2
  have hrec : mergeRecordBytes h1 h2 trackSources
      = fun i => recordBytes (mergedRecord h1 h2 trackSources i) := by
    funext i
    exact mergeRecordBytes_parsed h1 h2 trackSources
      (fun j hj => ⟨(q1 j hj).2.1, (q1 j hj).2.2.1⟩)
      (fun j hj => ⟨(q2 j hj).2.1, (q2 j hj).2.2.1⟩) i
  have hn : max h1.numTracks h2.numTracks < 2 ^ 63 := by omega
  unfold mergeHeaderPhase at hd
  simp only [max_numTracks] at hd
  split at hd
  · cases hd
  · rename_i hb hhb
    split_ifs at hd with hw
    cases hd
    have hf := fwrite_full _ _ hw
    have hh := mergeHeaderLoop_data h1 h2 trackSources _ _ _ _ hb hhb
    rw [hf, hh, longFromULong_of_lt hn, hrec]
    have hmb : EADF_MAGIC.take EADF_MAGICLEN = [85, 65, 69, 45, 49, 65, 68, 70] := rfl
    simp only [createStream, List.nil_append, headerBlock, hmb, List.range_eq_range']

theorem splitHeaderPhase_data (g0 : EADFHeader) (s : List Nat) (h : EADFHeader) (p : FILE)
    (hp : eadfHeaderInitWithFile g0 (openStream s) = Except.ok (h, p))
    (trackSources : Nat → EADFTrackSource) (room : Option Nat) (d : OutFILE)
    (hd : splitHeaderPhase h (createStream room) trackSources = Except.ok d) :
    d.data = headerBlock h.numTracks (splitRecord h trackSources) := by
  obtain ⟨hn, _, _, q⟩ := parsed_facts g0 s h p hp
  have hrec : (List.range h.numTracks).flatMap (splitRecordBytes h trackSources)
      = (List.range h.numTracks).flatMap (fun i => recordBytes (splitRecord h trackSources i)) := by
    apply List.flatMap_congr
    intro i hi
    exact splitRecordBytes_parsed h trackSources (fun j hj => ⟨(q j hj).2.1, (q j hj).2.2.1⟩) i
      (List.mem_range.mp hi)
  have hnum : h.numTracks < 2 ^ 63 := by omega
  unfold splitHeaderPhase at hd
  simp only [] at hd
  split at hd
  · cases hd
  · rename_i hb hhb
    split_ifs at hd with hw
    cases hd
    have hf := fwrite_full _ _ hw
    have hh := splitHeaderLoop_data h trackSources _ _ _ _ hb hhb
    rw [hf, hh, ← List.range_eq_range', hrec, longFromULong_of_lt hnum]
    have hmb : EADF_MAGIC.take EADF_MAGICLEN = [85, 65, 69, 45, 49, 65, 68, 70] := rfl
    simp only [createStream, List.nil_append, headerBlock, hmb]

theorem mergeHeaderPhase_succeeds (h1 h2 : EADFHeader) (trackSources : Nat → EADFTrackSource) :
    ∃ d, mergeHeaderPhase h1 h2 (createStream none) trackSources = Except.ok d := by
  unfold mergeHeaderPhase
  simp only [max_numTracks]
  obtain ⟨hb, hhb, hroom⟩ := mergeHeaderLoop_succeeds h1 h2 trackSources
    (max h1.numTracks h2.numTracks) 0
    (EADF_MAGIC.take EADF_MAGICLEN
      ++ bigEndianBytesFromLong (longFromULong (max h1.numTracks h2.numTracks)))
    (createStream none) rfl
  obtain ⟨w1, w2⟩ := fwrite_none hb.1 hb.2 hroom
  have hw : ¬ (fwrite hb.1 hb.2).1 < hb.1.length := by omega
  simp only [hhb, hw, if_false]
  exact ⟨_, rfl⟩

theorem splitHeaderPhase_succeeds (h : EADFHeader) (trackSources : Nat → EADFTrackSource) :
    ∃ d, splitHeaderPhase h (createStream none) trackSources = Except.ok d := by
  unfold splitHeaderPhase
  simp only []
  obtain ⟨hb, hhb, hroom⟩ := splitHeaderLoop_succeeds h trackSources h.numTracks 0
    (EADF_MAGIC.take EADF_MAGICLEN ++ bigEndianBytesFromLong (longFromULong h.numTracks))
    (createStream none) rfl
  obtain ⟨w1, w2⟩ := fwrite_none hb.1 hb.2 hroom
  have hw : ¬ (fwrite hb.1 hb.2).1 < hb.1.length := by omega
  simp only [hhb, hw, if_false]
  exact ⟨_, rfl⟩

/-- C25. The buffered header is the unbuffered serialization.  For parsed headers (every
count is then at most 166) and any decisions, the header phase of `eadfMergeFiles`, which
stores each record in the 1024-byte buffer, flushes the buffer whenever more than
1024 - 12 bytes are unflushed and flushes the rest after the loop, succeeds on an
unbounded destination; whenever it succeeds, the bytes it has written (the concatenation of
the flushed chunks) are exactly `headerBlock n record`, the magic, the count and the `n`
records, `12 + 12 * n` bytes; and `eadfMergeFiles` is that phase followed by the payload
loop, so the whole header block is written before any payload byte.  The same holds for
`eadfSplitFile`. -/
theorem header_block_unbuffered (g1 : EADFHeader) (s1 : List Nat) (h1 : EADFHeader) (p1 : FILE)
    (hp1 : eadfHeaderInitWithFile g1 (openStream s1) = Except.ok (h1, p1))
    (g2 : EADFHeader) (s2 : List Nat) (h2 : EADFHeader) (p2 : FILE)
    (hp2 : eadfHeaderInitWithFile g2 (openStream s2) = Except.ok (h2, p2))
    (trackSources : Nat → EADFTrackSource) :
    ((∃ d, mergeHeaderPhase h1 h2 (createStream none) trackSources = Except.ok d)
      ∧ (∀ room d, mergeHeaderPhase h1 h2 (createStream room) trackSources = Except.ok d →
          d.data = headerBlock (max h1.numTracks h2.numTracks)
              (mergedRecord h1 h2 trackSources)
            ∧ d.data.length = 12 + 12 * max h1.numTracks h2.numTracks)
      ∧ ∀ f1 f2 dest, eadfMergeFiles h1 f1 h2 f2 dest trackSources
          = (match mergeHeaderPhase h1 h2 dest trackSources with
            | Except.error e => Except.error e
            | Except.ok d =>
              mergePayloadLoop h1 h2 trackSources (max h1.numTracks h2.numTracks) 0 f1 f2 d))
    ∧ ((∃ d, splitHeaderPhase h1 (createStream none) trackSources = Except.ok d)
      ∧ (∀ room d, splitHeaderPhase h1 (createStream room) trackSources = Except.ok d →
          d.data = headerBlock h1.numTracks (splitRecord h1 trackSources)
            ∧ d.data.length = 12 + 12 * h1.numTracks)
      ∧ ∀ f dest, eadfSplitFile h1 f dest trackSources
          = (match splitHeaderPhase h1 dest trackSources with
            | Except.error e => Except.error e
            | Except.ok d => splitPayloadLoop h1 trackSources h1.numTracks 0 f d)) := by
  refine ⟨⟨mergeHeaderPhase_succeeds h1 h2 trackSources, fun room d hd => ?_,
      fun f1 f2 dest => eadfMergeFiles_phases h1 f1 h2 f2 dest trackSources⟩,
    ⟨splitHeaderPhase_succeeds h1 trackSources, fun room d hd => ?_,
      fun f dest => eadfSplitFile_phases h1 f dest trackSources⟩⟩
  · have e := mergeHeaderPhase_data g1 s1 h1 p1 hp1 g2 s2 h2 p2 hp2 trackSources room d hd
    exact ⟨e, by rw [e, headerBlock_length]⟩
  · have e := splitHeaderPhase_data g1 s1 h1 p1 hp1 trackSources room d hd
    exact ⟨e, by rw [e, headerBlock_length]⟩

theorem mergeHeaderLoop_step (h1 h2 : EADFHeader) (trackSources : Nat → EADFTrackSource)
    (k track : Nat) (buffer : List Nat) (dest : OutFILE) :
    mergeHeaderLoop h1 h2 trackSources (k + 1) track buffer dest
      = (match mergeHeaderStep h1 h2 trackSources track buffer dest with
        | Except.error e => Except.error e
        | Except.ok s => mergeHeaderLoop h1 h2 trackSources k (track + 1) s.1 s.2) := by
  rw [mergeHeaderLoop_succ]
  unfold mergeHeaderStep
  simp only []
  split_ifs <;> rfl

theorem splitHeaderLoop_step (h : EADFHeader) (trackSources : Nat → EADFTrackSource)
    (k track : Nat) (buffer : List Nat) (dest : OutFILE) :
    splitHeaderLoop h trackSources (k + 1) track buffer dest
      = (match splitHeaderStep h trackSources track buffer dest with
        | Except.error e => Except.error e
        | Except.ok s => splitHeaderLoop h trackSources k (track + 1) s.1 s.2) := by
  rw [splitHeaderLoop_succ]
  unfold splitHeaderStep
  simp only []
  split_ifs <;> rfl

theorem mergeHeaderLoop_from (h1 h2 : EADFHeader) (trackSources : Nat → EADFTrackSource)
    (dest : OutFILE) :
    ∀ (k j : Nat),
      (match mergeHeaderAt h1 h2 trackSources dest j with
        | Except.error e => Except.error e
        | Except.ok s => mergeHeaderLoop h1 h2 trackSources k j s.1 s.2)
      = mergeHeaderAt h1 h2 trackSources dest (j + k)
  | 0, j => by
    cases hj : mergeHeaderAt h1 h2 trackSources dest j with
    | error e => simp only [Nat.add_zero, hj]
    | ok s => simp only [Nat.add_zero, hj, mergeHeaderLoop]
  | k + 1, j => by
    have ih := mergeHeaderLoop_from h1 h2 trackSources dest k (j + 1)
    have hjk : j + (k + 1) = j + 1 + k := by omega
    rw [hjk, ← ih, mergeHeaderAt]
    cases hj : mergeHeaderAt h1 h2 trackSources dest j with
    | error e => rfl
    | ok s =>
      simp only []
      rw [mergeHeaderLoop_step]

theorem splitHeaderLoop_from (h : EADFHeader) (trackSources : Nat → EADFTrackSource)
    (dest : OutFILE) :
    ∀ (k j : Nat),
      (match splitHeaderAt h trackSources dest j with
        | Except.error e => Except.error e
        | Except.ok s => splitHeaderLoop h trackSources k j s.1 s.2)
      = splitHeaderAt h trackSources dest (j + k)
  | 0, j => by
    cases hj : splitHeaderAt h trackSources dest j with
    | error e => simp only [Nat.add_zero, hj]
    | ok s => simp only [Nat.add_zero, hj, splitHeaderLoop]
  | k + 1, j => by
    have ih := splitHeaderLoop_from h trackSources dest k (j + 1)
    have hjk : j + (k + 1) = j + 1 + k := by omega
    rw [hjk, ← ih, splitHeaderAt]
    cases hj : splitHeaderAt h trackSources dest j with
    | error e => rfl
    | ok s =>
      simp only []
      rw [splitHeaderLoop_step]

theorem mergeHeaderStep_bound (h1 h2 : EADFHeader) (trackSources : Nat → EADFTrackSource)
    (track : Nat) (buffer : List Nat) (dest : OutFILE) (s : List Nat × OutFILE)
    (hs : mergeHeaderStep h1 h2 trackSources track buffer dest = Except.ok s) :
    s.1.length ≤ EADF_BUFSIZE - EADF_BYTESPERRECORD := by
  unfold mergeHeaderStep at hs
  simp only [] at hs
  split_ifs at hs with hbig hw
  · cases hs
    exact Nat.zero_le _
  · cases hs
    exact Nat.le_of_not_gt hbig

theorem splitHeaderStep_bound (h : EADFHeader) (trackSources : Nat → EADFTrackSource)
    (track : Nat) (buffer : List Nat) (dest : OutFILE) (s : List Nat × OutFILE)
    (hs : splitHeaderStep h trackSources track buffer dest = Except.ok s) :
    s.1.length ≤ EADF_BUFSIZE - EADF_BYTESPERRECORD := by
  unfold splitHeaderStep at hs
  simp only [] at hs
  split_ifs at hs with hbig hw
  · cases hs
    exact Nat.zero_le _
  · cases hs
    exact Nat.le_of_not_gt hbig

theorem mergeHeaderAt_bound (h1 h2 : EADFHeader) (trackSources : Nat → EADFTrackSource)
    (dest : OutFILE) (track : Nat) (s : List Nat × OutFILE)
    (hs : mergeHeaderAt h1 h2 trackSources dest track = Except.ok s) :
    s.1.length ≤ EADF_BUFSIZE - EADF_BYTESPERRECORD := by
  cases track with
  | zero =>
    rw [mergeHeaderAt] at hs
    cases hs
    exact (by decide : (12 : Nat) ≤ EADF_BUFSIZE - EADF_BYTESPERRECORD)
  | succ j =>
    rw [mergeHeaderAt] at hs
    split at hs
    · cases hs
    · exact mergeHeaderStep_bound h1 h2 trackSources j _ _ s hs

theorem splitHeaderAt_bound (h : EADFHeader) (trackSources : Nat → EADFTrackSource)
    (dest : OutFILE) (track : Nat) (s : List Nat × OutFILE)
    (hs : splitHeaderAt h trackSources dest track = Except.ok s) :
    s.1.length ≤ EADF_BUFSIZE - EADF_BYTESPERRECORD := by
  cases track with
  | zero =>
    rw [splitHeaderAt] at hs
    cases hs
    exact (by decide : (12 : Nat) ≤ EADF_BUFSIZE - EADF_BYTESPERRECORD)
  | succ j =>
    rw [splitHeaderAt] at hs
    split at hs
    · cases hs
    · exact splitHeaderStep_bound h trackSources j _ _ s hs

theorem header_block_unbuffered_witness :
    ∃ d, mergeHeaderPhase (parsedHeader (emptyImage 166)) (parsedHeader (emptyImage 166))
          (createStream none) allSource1 = Except.ok d
      ∧ d.data = headerBlock 166
          (mergedRecord (parsedHeader (emptyImage 166)) (parsedHeader (emptyImage 166))
            allSource1)
      ∧ d.data.length = 2004 := by
  obtain ⟨hp, hn, _⟩ := emptyImage_facts 166 (by decide)
  have h := header_block_unbuffered blankHeader (emptyImage 166) _ _ hp
    blankHeader (emptyImage 166) _ _ hp allSource1
  obtain ⟨d, hd⟩ := h.1.1
  obtain ⟨e1, e2⟩ := h.1.2.1 none d hd
  rw [hn, Nat.max_self] at e1 e2
  exact ⟨d, hd, e1, e2⟩

theorem mergeHeaderAt_succeeds (h1 h2 : EADFHeader) (trackSources : Nat → EADFTrackSource)
    (dest : OutFILE) (hd : dest.room = none) :
    ∀ track, ∃ s, mergeHeaderAt h1 h2 trackSources dest track = Except.ok s ∧ s.2.room = none
  | 0 => ⟨_, rfl, hd⟩
  | track + 1 => by
    obtain ⟨s, hs, hroom⟩ := mergeHeaderAt_succeeds h1 h2 trackSources dest hd track
    rw [mergeHeaderAt, hs]
    simp only [mergeHeaderStep]
    split_ifs with hbig hw
    · have := (fwrite_none (s.1 ++ mergeRecordBytes h1 h2 trackSources track) s.2 hroom).1
      omega
    · exact ⟨_, rfl, (fwrite_none _ s.2 hroom).2⟩
    · exact ⟨_, rfl, hroom⟩

/-- C27. No record is written outside the buffer.  In every state the header loop of
`eadfMergeFiles` or of `eadfSplitFile` reaches, for any header, decision array and
destination, the bytes between the start of the buffer and `upto` number at most
1024 - 12, so that `upto + 12 ≤ buffer + 1024` when the next record is stored.  The states
are those of the loops: running a header loop for `track` iterations from the buffer that
holds the magic and the count gives the state at `track`. -/
theorem record_write_within_buffer (h1 h2 : EADFHeader) (trackSources : Nat → EADFTrackSource)
    (dest : OutFILE) (track : Nat) (s : List Nat × OutFILE) :
    (mergeHeaderAt h1 h2 trackSources dest track = Except.ok s →
        s.1.length + EADF_BYTESPERRECORD ≤ EADF_BUFSIZE)
      ∧ (splitHeaderAt h1 trackSources dest track = Except.ok s →
        s.1.length + EADF_BYTESPERRECORD ≤ EADF_BUFSIZE)
      ∧ mergeHeaderLoop h1 h2 trackSources track 0
            (EADF_MAGIC.take EADF_MAGICLEN ++ bigEndianBytesFromLong (longFromULong
              (if h1.numTracks > h2.numTracks then h1.numTracks else h2.numTracks))) dest
          = mergeHeaderAt h1 h2 trackSources dest track
      ∧ splitHeaderLoop h1 trackSources track 0
            (EADF_MAGIC.take EADF_MAGICLEN
              ++ bigEndianBytesFromLong (longFromULong h1.numTracks)) dest
          = splitHeaderAt h1 trackSources dest track := by
  refine ⟨fun hs => ?_, fun hs => ?_, ?_, ?_⟩
  · have := mergeHeaderAt_bound h1 h2 trackSources dest track s hs
    simp only [EADF_BUFSIZE, EADF_BYTESPERRECORD] at this ⊢
    omega
  · have := splitHeaderAt_bound h1 trackSources dest track s hs
    simp only [EADF_BUFSIZE, EADF_BYTESPERRECORD] at this ⊢
    omega
  · have := mergeHeaderLoop_from h1 h2 trackSources dest track 0
    rw [Nat.zero_add] at this
    exact this
  · have := splitHeaderLoop_from h1 trackSources dest track 0
    rw [Nat.zero_add] at this
    exact this

theorem record_write_within_buffer_witness :
    (∃ s, mergeHeaderAt wideHeader wideHeader allNone (createStream none) 83 = Except.ok s
        ∧ s.1.length + EADF_BYTESPERRECORD ≤ EADF_BUFSIZE)
      ∧ uptoOffset (mergeHeaderAt wideHeader wideHeader allNone (createStream none) 83) = 1008
      ∧ uptoOffset (mergeHeaderAt wideHeader wideHeader allNone (createStream none) 84) = 0 := by
  obtain ⟨s, hs, _⟩ := mergeHeaderAt_succeeds wideHeader wideHeader allNone (createStream none)
    rfl 83
  refine ⟨⟨s, hs, (record_write_within_buffer wideHeader wideHeader allNone
    (createStream none) 83 s).1 hs⟩, ?_⟩
  set_option maxRecDepth 1000000 in
  decide

theorem policy_cases (c : Prop) [Decidable c] (p : Prop) (q : Prop)
    (h1 : c → p) (h2 : ¬ c → q) :
    (if c then EADFTrackSource.SOURCE1 else EADFTrackSource.SOURCE2) ≠ EADFTrackSource.NONE
      ∧ ((if c then EADFTrackSource.SOURCE1 else EADFTrackSource.SOURCE2)
          = EADFTrackSource.SOURCE1 → p)
      ∧ ((if c then EADFTrackSource.SOURCE1 else EADFTrackSource.SOURCE2)
          = EADFTrackSource.SOURCE2 → q) := by
  by_cases hc : c
  · simp only [if_pos hc]
    exact ⟨fun e => EADFTrackSource.noConfusion e, fun _ => h1 hc,
      fun e => EADFTrackSource.noConfusion e⟩
  · simp only [if_neg hc]
    exact ⟨fun e => EADFTrackSource.noConfusion e, fun e => EADFTrackSource.noConfusion e,
      fun _ => h2 hc⟩

/-- C28. The two union policies name only tracks that exist.  For every pair of headers and
every index `i` below `max(count1, count2)`, the decision of `mergeTrackSourceCallback`
and that of `dosMergeTrackSourceCallback` is never None, is Source1 only if `i < count1`
and Source2 only if `i < count2`; and the decision does not depend on any header entry at
an index at or beyond that header's count: headers with the same counts and the same
entries below them give the same decision. -/
theorem policies_name_present_tracks (trackSources : Nat → EADFTrackSource)
    (h1 h2 : EADFHeader) (i : Nat) (hi : i < max h1.numTracks h2.numTracks) :
    ((mergeTrackSourceCallback trackSources h1 h2).2 i ≠ EADFTrackSource.NONE
      ∧ ((mergeTrackSourceCallback trackSources h1 h2).2 i = EADFTrackSource.SOURCE1 →
          i < h1.numTracks)
      ∧ ((mergeTrackSourceCallback trackSources h1 h2).2 i = EADFTrackSource.SOURCE2 →
          i < h2.numTracks))
    ∧ ((dosMergeTrackSourceCallback trackSources h1 h2).2 i ≠ EADFTrackSource.NONE
      ∧ ((dosMergeTrackSourceCallback trackSources h1 h2).2 i = EADFTrackSource.SOURCE1 →
          i < h1.numTracks)
      ∧ ((dosMergeTrackSourceCallback trackSources h1 h2).2 i = EADFTrackSource.SOURCE2 →
          i < h2.numTracks))
    ∧ ∀ h1' h2', AgreeBelowCount h1 h1' → AgreeBelowCount h2 h2' →
        (mergeTrackSourceCallback trackSources h1' h2').2 i
            = (mergeTrackSourceCallback trackSources h1 h2).2 i
          ∧ (dosMergeTrackSourceCallback trackSources h1' h2').2 i
            = (dosMergeTrackSourceCallback trackSources h1 h2).2 i := by
  have hmax : i < h1.numTracks ∨ i < h2.numTracks := by
    rcases Nat.lt_or_ge i h1.numTracks with a | a
    · exact Or.inl a
    · right
      rcases Nat.lt_or_ge i h2.numTracks with b | b
      · exact b
      · have := max_le a b
        omega
  refine ⟨?_, ?_, ?_⟩
  · rw [mergePolicy_apply trackSources h1 h2 i hi]
    apply policy_cases
    · intro hc
      rcases hc with a | a | a
      · omega
      · exact a.1
      · exact a.1
    · intro hc
      by_contra hn
      exact hc (Or.inl (by omega))
  · rw [dosMergePolicy_apply trackSources h1 h2 i hi]
    apply policy_cases
    · intro hc
      rcases hc with a | a
      · omega
      · exact a.1
    · intro hc
      by_contra hn
      exact hc (Or.inl (by omega))
  · intro h1' h2' a1 a2
    obtain ⟨e1, f1⟩ := a1
    obtain ⟨e2, f2⟩ := a2
    have hi' : i < max h1'.numTracks h2'.numTracks := by rw [e1, e2]; exact hi
    rw [mergePolicy_apply trackSources h1 h2 i hi, mergePolicy_apply trackSources h1' h2' i hi',
      dosMergePolicy_apply trackSources h1 h2 i hi,
      dosMergePolicy_apply trackSources h1' h2' i hi', e1, e2]
    by_cases c2 : i < h2.numTracks
    · by_cases c1 : i < h1.numTracks
      · rw [(f1 i c1).1, (f1 i c1).2, (f2 i c2).1, (f2 i c2).2]
        exact ⟨rfl, rfl⟩
      · have n1 : ∀ p : Prop, ¬ (i < h1.numTracks ∧ p) := fun p hp => c1 hp.1
        have n2 : ¬ (i ≥ h2.numTracks) := by omega
        simp only [n1, n2, or_self, if_false, and_self]
    · have p2 : i ≥ h2.numTracks := by omega
      simp only [p2, true_or, if_true, and_self]

theorem policies_name_present_tracks_witness :
    (mergeTrackSourceCallback allNone (parsedHeader oneTrackImage)
        (parsedHeader sampleImage2)).2 1 = EADFTrackSource.SOURCE2
      ∧ ((mergeTrackSourceCallback allNone (parsedHeader oneTrackImage)
          (parsedHeader sampleImage2)).2 1 = EADFTrackSource.SOURCE2 →
            1 < (parsedHeader sampleImage2).numTracks)
      ∧ (dosMergeTrackSourceCallback allNone (parsedHeader oneTrackImage)
          (parsedHeader sampleImage2)).2 1 ≠ EADFTrackSource.NONE
      ∧ (parsedInto staleHeader oneTrackImage).trackSizeBytes 1 = 1
      ∧ (parsedHeader oneTrackImage).trackSizeBytes 1 = 0
      ∧ (mergeTrackSourceCallback allNone (parsedInto staleHeader oneTrackImage)
          (parsedHeader sampleImage2)).2 1
        = (mergeTrackSourceCallback allNone (parsedHeader oneTrackImage)
          (parsedHeader sampleImage2)).2 1 :=
  have h := policies_name_present_tracks allNone (parsedHeader oneTrackImage)
    (parsedHeader sampleImage2) 1 (by decide)
  ⟨by decide, h.1.2.2, h.2.1.1, by decide, by decide,
    (h.2.2 (parsedInto staleHeader oneTrackImage) (parsedHeader sampleImage2)
      ⟨by decide, fun i hi => by
        have h2 : i < 1 := hi
        interval_cases i
        decide⟩
      ⟨rfl, fun _ _ => ⟨rfl, rfl⟩⟩).1⟩

theorem headerBlock_congr (n : Nat) (r r' : Nat → Nat × Nat × Nat)
    (h : ∀ i, i < n → r i = r' i) : headerBlock n r = headerBlock n r' := by
  unfold headerBlock
  congr 1
  apply List.flatMap_congr
  intro i hi
  rw [h i (List.mem_range.mp hi)]

/-- C29. Split is idempotent: for a well-formed source and any decision array, the split
succeeds on an unbounded destination; whenever it succeeds its output parses, splitting
that output again with the same decisions succeeds on an unbounded destination, and
whenever the second split succeeds its output is byte for byte the first output. -/
theorem eadfSplitFile_idempotent (g0 : EADFHeader) (s : List Nat) (h : EADFHeader) (p : FILE)
    (hp : eadfHeaderInitWithFile g0 (openStream s) = Except.ok (h, p))
    (hw : HoldsPayload h s) (trackSources : Nat → EADFTrackSource) :
    (∃ r, eadfSplitFile h p (createStream none) trackSources = Except.ok r)
      ∧ ∀ room r, eadfSplitFile h p (createStream room) trackSources = Except.ok r →
          ∀ g, ∃ h' p', eadfHeaderInitWithFile g (openStream r.2.data) = Except.ok (h', p')
            ∧ (∃ r', eadfSplitFile h' p' (createStream none) trackSources = Except.ok r')
            ∧ ∀ room' r', eadfSplitFile h' p' (createStream room') trackSources = Except.ok r' →
                r'.2.data = r.2.data := by
  refine ⟨eadfSplitFile_succeeds g0 s h p hp hw trackSources, ?_⟩
  intro room r hs g
  obtain ⟨hn, _, _, q⟩ := parsed_facts g0 s h p hp
  obtain ⟨hl, hlen⟩ := eadfSplitFile_layout g0 s h p hp room trackSources r hs
  obtain ⟨h', p', hp', hnum, ht⟩ := eadfSplitFile_tracks g0 s h p hp room trackSources r hs g
  have hbounds : ∀ i, i < h.numTracks →
      (splitRecord h trackSources i).1 ≤ 1 ∧ (splitRecord h trackSources i).2.1 < 2 ^ 32
        ∧ (splitRecord h trackSources i).2.2 < 2 ^ 32 :=
    fun i hi => splitRecord_bounds h trackSources
      (fun j hj => ⟨(q j hj).1, (q j hj).2.1, (q j hj).2.2.1⟩) i hi
  have hw' : HoldsPayload h' r.2.data := by
    have hp2 := hp'
    rw [hl] at hp2 ⊢
    exact container_holds g h.numTracks (splitRecord h trackSources)
      (splitTrack h s trackSources) hn hbounds hlen h' p' hp2
  refine ⟨h', p', hp', eadfSplitFile_succeeds g r.2.data h' p' hp' hw' trackSources, ?_⟩
  intro room' r' hs'
  obtain ⟨hl', _⟩ := eadfSplitFile_layout g r.2.data h' p' hp' room' trackSources r' hs'
  have hrec : ∀ i, i < h.numTracks →
      splitRecord h' trackSources i = splitRecord h trackSources i := by
    intro i hi
    obtain ⟨a, _⟩ := ht i hi
    unfold splitRecord at a ⊢
    by_cases hts : trackSources i = EADFTrackSource.SOURCE1
    · simp only [hts, if_true] at a ⊢
      exact a
    · simp only [hts, if_false]
  have htr : ∀ i, i < h.numTracks →
      splitTrack h' r.2.data trackSources i = splitTrack h s trackSources i := by
    intro i hi
    obtain ⟨_, b⟩ := ht i hi
    unfold splitTrack at b ⊢
    by_cases hts : trackSources i = EADFTrackSource.SOURCE1
    · simp only [hts, if_true] at b ⊢
      exact b
    · simp only [hts, if_false]
  rw [hl', hnum, headerBlock_congr h.numTracks _ _ hrec, hl]
  congr 1
  apply List.flatMap_congr
  intro i hi
  rw [← hl]
  exact htr i (List.mem_range.mp hi)

theorem eadfSplitFile_idempotent_witness :
    (splitResult (eadfSplitFile (parsedHeader sampleImage) (afterHeader sampleImage 2)
          (createStream none) sampleSources)).2.data
        = [85, 65, 69, 45, 49, 65, 68, 70, 0, 0, 0, 2,
           0, 0, 0, 0, 0, 0, 0, 3, 0, 0, 0, 24,
           0, 0, 0, 1, 0, 0, 0, 0, 0, 0, 0, 0,
           10, 11, 12]
      ∧ ∃ h' p', eadfHeaderInitWithFile blankHeader
            (openStream (splitResult (eadfSplitFile (parsedHeader sampleImage)
              (afterHeader sampleImage 2) (createStream none) sampleSources)).2.data)
            = Except.ok (h', p')
          ∧ (∃ r', eadfSplitFile h' p' (createStream none) sampleSources = Except.ok r')
          ∧ ∀ room' r', eadfSplitFile h' p' (createStream room') sampleSources = Except.ok r' →
              r'.2.data = (splitResult (eadfSplitFile (parsedHeader sampleImage)
                (afterHeader sampleImage 2) (createStream none) sampleSources)).2.data :=
  ⟨by decide,
    (eadfSplitFile_idempotent blankHeader sampleImage (parsedHeader sampleImage)
      (afterHeader sampleImage 2) rfl sampleImage_holds sampleSources).2 none _ rfl blankHeader⟩

theorem merge_self_of_decisions (g1 g2 : EADFHeader) (s : List Nat) (h1 h2 : EADFHeader)
    (p1 p2 : FILE)
    (hp1 : eadfHeaderInitWithFile g1 (openStream s) = Except.ok (h1, p1))
    (hp2 : eadfHeaderInitWithFile g2 (openStream s) = Except.ok (h2, p2))
    (hbytes : ∀ b ∈ s, b < 256)
    (hlen : s.length
      = 12 + 12 * h1.numTracks + ∑ i in Finset.range h1.numTracks, h1.trackSizeBytes i)
    (decisions : Nat → EADFTrackSource)
    (hdec : ∀ i, i < h1.numTracks →
      decisions i = EADFTrackSource.SOURCE1 ∨ decisions i = EADFTrackSource.SOURCE2) :
    (∃ r, eadfMergeFiles h1 p1 h2 p2 (createStream none) decisions = Except.ok r)
      ∧ ∀ room r, eadfMergeFiles h1 p1 h2 p2 (createStream room) decisions = Except.ok r →
          r.2.2.data = s := by
  obtain ⟨_, a1, _, a3, a4⟩ := parsed_fields g1 s h1 p1 hp1
  obtain ⟨_, b1, _, b3, b4⟩ := parsed_fields g2 s h2 p2 hp2
  obtain ⟨_, e1, _, _⟩ := parsed_facts g1 s h1 p1 hp1
  obtain ⟨_, e2, _, _⟩ := parsed_facts g2 s h2 p2 hp2
  have d1 : p1.data = s := by rw [e1]; rfl
  have d2 : p2.data = s := by rw [e2]; rfl
  have hn : h2.numTracks = h1.numTracks := by rw [a1, b1]
  have hmax : max h1.numTracks h2.numTracks = h1.numTracks := by rw [hn, Nat.max_self]
  have hty : ∀ i, i < h1.numTracks → h2.trackType i = h1.trackType i := by
    intro i hi
    rw [(a3 i hi).1, (b3 i (by omega)).1]
  have hsz : ∀ i, i < h1.numTracks → h2.trackSizeBytes i = h1.trackSizeBytes i := by
    intro i hi
    rw [(a3 i hi).2.1, (b3 i (by omega)).2.1]
  have hbt : ∀ i, i < h1.numTracks → h2.trackSizeBits i = h1.trackSizeBits i := by
    intro i hi
    rw [(a3 i hi).2.2, (b3 i (by omega)).2.2]
  have hoff : ∀ i, i < h1.numTracks → h2.trackOffset i = h1.trackOffset i := by
    intro i hi
    rw [a4 i hi, b4 i (by omega), hn]
    congr 1
    apply Finset.sum_congr rfl
    intro j hj
    exact hsz j (by have := Finset.mem_range.mp hj; omega)
  have hw1 : HoldsPayload h1 s := holdsPayload_of_length g1 s h1 p1 hp1 (by omega)
  have hw2 : HoldsPayload h2 s := by
    intro i hi
    have hi1 : i < h1.numTracks := by omega
    rw [hoff i hi1, hsz i hi1]
    exact hw1 i hi1
  have hin : InRange h1 h2 decisions (max h1.numTracks h2.numTracks) := by
    intro i hi
    rw [hmax] at hi
    exact ⟨fun _ => hi, fun _ => by omega⟩
  refine ⟨eadfMergeFiles_succeeds g1 s h1 p1 hp1 g2 s h2 p2 hp2 hw1 hw2 decisions hin, ?_⟩
  intro room r hm
  have hl := eadfMergeFiles_layout g1 s h1 p1 hp1 g2 s h2 p2 hp2 p1 p2 room decisions r hm
  rw [hmax, d1, d2] at hl
  have hrec : headerBlock h1.numTracks (mergedRecord h1 h2 decisions)
      = headerBlock h1.numTracks
          (fun i => (h1.trackType i, h1.trackSizeBytes i, h1.trackSizeBits i)) := by
    apply headerBlock_congr
    intro i hi
    unfold mergedRecord
    rcases hdec i hi with hd | hd
    · simp only [hd, hi, and_self, if_true]
    · have hi2 : i < h2.numTracks := by omega
      simp only [hd, reduceCtorEq, false_and, if_false, hi2, and_self, if_true, hty i hi,
        hsz i hi, hbt i hi]
  have hpay : (List.range h1.numTracks).flatMap (mergedPayload h1 s h2 s decisions)
      = (List.range h1.numTracks).flatMap (trackBytes h1 s) := by
    apply List.flatMap_congr
    intro i hi'
    have hi := List.mem_range.mp hi'
    unfold mergedPayload
    rcases hdec i hi with hd | hd
    · simp only [hd]
      exact (copiedBytes_parsed g1 s h1 p1 hp1 s i hi).1
    · simp only [hd]
      rw [(copiedBytes_parsed g2 s h2 p2 hp2 s i (by omega)).1]
      unfold trackBytes
      rw [hoff i hi, hsz i hi]
  rw [hl, hrec, hpay, header_bytes_roundtrip g1 s h1 p1 hp1 hbytes,
    payload_concat g1 s h1 p1 hp1 hlen, List.take_append_drop]

theorem policy_is_source (c : Prop) [Decidable c] :
    (if c then EADFTrackSource.SOURCE1 else EADFTrackSource.SOURCE2) = EADFTrackSource.SOURCE1
      ∨ (if c then EADFTrackSource.SOURCE1 else EADFTrackSource.SOURCE2)
          = EADFTrackSource.SOURCE2 := by
  by_cases hc : c
  · left; rw [if_pos hc]
  · right; rw [if_neg hc]

/-- C30. Merging a file with itself is the identity: for a stream of bytes that parses
(into any two header memories) and consists of exactly the header block followed by the
declared payload, the merge of the stream with an identical copy under the prefer-nonempty
policy, and likewise under the prefer-DOS policy, succeeds on an unbounded destination,
and whenever it succeeds its output is byte for byte the stream. -/
theorem merge_self_identity (g1 g2 : EADFHeader) (s : List Nat) (h1 h2 : EADFHeader)
    (p1 p2 : FILE)
    (hp1 : eadfHeaderInitWithFile g1 (openStream s) = Except.ok (h1, p1))
    (hp2 : eadfHeaderInitWithFile g2 (openStream s) = Except.ok (h2, p2))
    (hbytes : ∀ b ∈ s, b < 256)
    (hlen : s.length
      = 12 + 12 * h1.numTracks + ∑ i in Finset.range h1.numTracks, h1.trackSizeBytes i)
    (trackSources : Nat → EADFTrackSource) :
    ((∃ r, eadfMergeFiles h1 p1 h2 p2 (createStream none)
          (mergeTrackSourceCallback trackSources h1 h2).2 = Except.ok r)
      ∧ ∀ room r, eadfMergeFiles h1 p1 h2 p2 (createStream room)
            (mergeTrackSourceCallback trackSources h1 h2).2 = Except.ok r →
          r.2.2.data = s)
    ∧ ((∃ r, eadfMergeFiles h1 p1 h2 p2 (createStream none)
          (dosMergeTrackSourceCallback trackSources h1 h2).2 = Except.ok r)
      ∧ ∀ room r, eadfMergeFiles h1 p1 h2 p2 (createStream room)
            (dosMergeTrackSourceCallback trackSources h1 h2).2 = Except.ok r →
          r.2.2.data = s) := by
  constructor
  · apply merge_self_of_decisions g1 g2 s h1 h2 p1 p2 hp1 hp2 hbytes hlen
    intro i hi
    rw [mergePolicy_apply trackSources h1 h2 i (lt_of_lt_of_le hi (le_max_left _ _))]
    exact policy_is_source _
  · apply merge_self_of_decisions g1 g2 s h1 h2 p1 p2 hp1 hp2 hbytes hlen
    intro i hi
    rw [dosMergePolicy_apply trackSources h1 h2 i (lt_of_lt_of_le hi (le_max_left _ _))]
    exact policy_is_source _

theorem merge_self_identity_witness :
    (mergeResult (eadfMergeFiles (parsedHeader sampleImage) (afterHeader sampleImage 2)
        (parsedHeader sampleImage) (afterHeader sampleImage 2) (createStream none)
        (mergeTrackSourceCallback allNone (parsedHeader sampleImage)
          (parsedHeader sampleImage)).2)).2.2.data = sampleImage
      ∧ (mergeResult (eadfMergeFiles (parsedHeader sampleImage2) (afterHeader sampleImage2 2)
        (parsedHeader sampleImage2) (afterHeader sampleImage2 2) (createStream none)
        (dosMergeTrackSourceCallback allNone (parsedHeader sampleImage2)
          (parsedHeader sampleImage2)).2)).2.2.data = sampleImage2 :=
  ⟨(merge_self_identity blankHeader blankHeader sampleImage (parsedHeader sampleImage)
      (parsedHeader sampleImage) (afterHeader sampleImage 2) (afterHeader sampleImage 2)
      rfl rfl (by decide) (by decide) allNone).1.2 none _ rfl,
    (merge_self_identity blankHeader blankHeader sampleImage2 (parsedHeader sampleImage2)
      (parsedHeader sampleImage2) (afterHeader sampleImage2 2) (afterHeader sampleImage2 2)
      rfl rfl (by decide) (by decide) allNone).2.2 none _ rfl⟩

theorem covered_iff_any (ranges : List (Nat × Nat)) (i : Nat) :
    ranges.any (fun ab => decide (ab.1 ≤ i ∧ i ≤ ab.2)) = true ↔ Covered ranges i := by
  unfold Covered
  simp only [List.any_eq_true, decide_eq_true_eq]

theorem replaceCallback_apply (trackSources : Nat → EADFTrackSource) (h1 h2 : EADFHeader)
    (replacements : Nat → EADFTrackSource) (hn1 : h1.numTracks ≤ 166) (hn2 : h2.numTracks ≤ 166)
    (i : Nat) :
    (replaceTrackSourceCallback trackSources h1 h2 replacements).2 i
      = if i < max h1.numTracks h2.numTracks then replacements i else trackSources i := by
  have hm : (if h1.numTracks > h2.numTracks then h1.numTracks else h2.numTracks)
      = max h1.numTracks h2.numTracks := max_numTracks h1 h2
  have hl : longFromULong (max h1.numTracks h2.numTracks)
      = ((max h1.numTracks h2.numTracks : Nat) : Int) :=
    longFromULong_of_lt (by omega)
  simp only [replaceTrackSourceCallback, hm, hl, Int.toNat_ofNat]
  rw [replaceTrackSourceLoop_apply]
  by_cases hi : i < max h1.numTracks h2.numTracks
  · rw [if_pos hi, if_pos ⟨Nat.zero_le _, by omega⟩]
  · rw [if_neg hi, if_neg (fun hc => hi (by omega))]

/-- C22. The decisions of the replace command.  For a list of valid track specs and two
sources that parse, the decision array `executeReplaceCommand` hands to the merge engine is
`replaceDecisions`: at every index below `max(count1, count2)` it holds Source2 if some
spec covers the index and Source1 otherwise, so never None (beyond that bound the array is
left as it was).  The array is identified through the call itself: whatever engine stands
in the place of `eadfMergeFiles`, the command calls it on the two parsed headers, the two
streams, the destination and exactly this array; and `executeReplaceCommand` is the
command with `eadfMergeFiles` as the engine. -/
theorem executeReplaceCommand_decisions (specs : List (List Char)) (ranges : List (Nat × Nat))
    (hwf : List.Forall₂ (fun t ab => WellFormedSpec t ab.1 ab.2) specs ranges)
    (hne : specs ≠ [])
    (g1 : EADFHeader) (s1 : List Nat) (h1 : EADFHeader) (p1 : FILE)
    (hp1 : eadfHeaderInitWithFile g1 (openStream s1) = Except.ok (h1, p1))
    (g2 : EADFHeader) (s2 : List Nat) (h2 : EADFHeader) (p2 : FILE)
    (hp2 : eadfHeaderInitWithFile g2 (openStream s2) = Except.ok (h2, p2))
    (command_errno : CommandError) (replacements trackSources : Nat → EADFTrackSource)
    (f3 : OutFILE) :
    (∀ engine, executeReplaceCommandWith engine command_errno specs replacements g1 g2
          (openStream s1) (openStream s2) f3 trackSources
        = (match engine h1 p1 h2 p2 f3
              (replaceDecisions ranges (max h1.numTracks h2.numTracks) trackSources) with
          | Except.error _ => Except.error CommandError.MERGEERROR
          | Except.ok r => Except.ok r))
      ∧ executeReplaceCommand command_errno specs replacements g1 g2 (openStream s1)
            (openStream s2) f3 trackSources
          = executeReplaceCommandWith eadfMergeFiles command_errno specs replacements g1 g2
              (openStream s1) (openStream s2) f3 trackSources
      ∧ ∀ i, i < max h1.numTracks h2.numTracks →
          (Covered ranges i →
            replaceDecisions ranges (max h1.numTracks h2.numTracks) trackSources i
              = EADFTrackSource.SOURCE2)
          ∧ (¬ Covered ranges i →
            replaceDecisions ranges (max h1.numTracks h2.numTracks) trackSources i
              = EADFTrackSource.SOURCE1)
          ∧ replaceDecisions ranges (max h1.numTracks h2.numTracks) trackSources i
              ≠ EADFTrackSource.NONE := by
  obtain ⟨rep, hrep, hin, hout⟩ := parseTrackSpecs_wellFormed specs ranges hwf
    (fillTrackSources EADFTrackSource.SOURCE1 EADF_MAXTRACKS 0 replacements)
    EADFTrackSource.SOURCE2
  obtain ⟨hn1, _⟩ := parsed_facts g1 s1 h1 p1 hp1
  obtain ⟨hn2, _⟩ := parsed_facts g2 s2 h2 p2 hp2
  have hargc : ¬ (5 + specs.length < 6) := by
    cases specs with
    | nil => exact absurd rfl hne
    | cons a l => simp only [List.length_cons]; omega
  have hdec : (replaceTrackSourceCallback trackSources h1 h2 rep).2
      = replaceDecisions ranges (max h1.numTracks h2.numTracks) trackSources := by
    funext i
    rw [replaceCallback_apply trackSources h1 h2 rep hn1 hn2 i]
    unfold replaceDecisions
    by_cases hi : i < max h1.numTracks h2.numTracks
    · rw [if_pos hi, if_pos hi]
      by_cases hc : Covered ranges i
      · rw [if_pos ((covered_iff_any ranges i).mpr hc)]
        exact hin i hc
      · rw [if_neg (fun ha => hc ((covered_iff_any ranges i).mp ha)), hout i hc,
          fillTrackSources_apply,
          if_pos ⟨Nat.zero_le _, by simp only [EADF_MAXTRACKS]; omega⟩]
    · rw [if_neg hi, if_neg hi]
  refine ⟨fun engine => ?_, rfl, fun i hi => ?_⟩
  · simp only [executeReplaceCommandWith, hargc, if_false, hrep, mergeFilesWith, hp1, hp2]
    rw [← hdec]
    rfl
  · unfold replaceDecisions
    rw [if_pos hi]
    by_cases hc : Covered ranges i
    · rw [if_pos ((covered_iff_any ranges i).mpr hc)]
      exact ⟨fun _ => rfl, fun hn => absurd hc hn, fun e => EADFTrackSource.noConfusion e⟩
    · rw [if_neg (fun ha => hc ((covered_iff_any ranges i).mp ha))]
      exact ⟨fun hp => absurd hp hc, fun _ => rfl, fun e => EADFTrackSource.noConfusion e⟩

theorem filledImage_facts (n v : Nat) (hn : n ≤ 166) :
    eadfHeaderInitWithFile blankHeader (openStream (filledImage n v))
        = Except.ok (parsedHeader (filledImage n v), afterHeader (filledImage n v) n)
      ∧ (parsedHeader (filledImage n v)).numTracks = n
      ∧ (∀ i, i < n →
          (parsedHeader (filledImage n v)).trackType i = EADFTRACKTYPE_RAW
          ∧ (parsedHeader (filledImage n v)).trackSizeBytes i = 1
          ∧ (parsedHeader (filledImage n v)).trackSizeBits i = 8)
      ∧ HoldsPayload (parsedHeader (filledImage n v)) (filledImage n v)
      ∧ ∀ i, i < n → trackBytes (parsedHeader (filledImage n v)) (filledImage n v) i = [v] := by
  have hrec : ∀ i, i < n →
      ((fun _ => (EADFTRACKTYPE_RAW, 1, 8)) i : Nat × Nat × Nat).1 ≤ 1
      ∧ ((fun _ => (EADFTRACKTYPE_RAW, 1, 8)) i : Nat × Nat × Nat).2.1 < 2 ^ 32
      ∧ ((fun _ => (EADFTRACKTYPE_RAW, 1, 8)) i : Nat × Nat × Nat).2.2 < 2 ^ 32 :=
    fun i _ => by refine ⟨?_, ?_, ?_⟩ <;> simp
  obtain ⟨a, b, c, d⟩ := parsedHeader_container n
    (fun _ => (EADFTRACKTYPE_RAW, 1, 8)) (fun _ => [v]) hn hrec (fun i _ => rfl)
  obtain ⟨h, f, e, _, _, t⟩ := container_parse blankHeader n
    (fun _ => (EADFTRACKTYPE_RAW, 1, 8)) (fun _ => [v]) hn hrec (fun i _ => rfl)
  have hh : h = parsedHeader (headerBlock n (fun _ => (EADFTRACKTYPE_RAW, 1, 8))
      ++ (List.range n).flatMap (fun _ => [v])) := by
    rw [a] at e
    cases e
    rfl
  rw [hh] at t
  unfold filledImage
  exact ⟨a, b, c, d, t⟩

theorem replace_filled_output (ranges : List (Nat × Nat)) (n : Nat) (hn : n ≤ 166)
    (trackSources : Nat → EADFTrackSource) :
    ∃ r, eadfMergeFiles (parsedHeader (filledImage n 1)) (afterHeader (filledImage n 1) n)
          (parsedHeader (filledImage n 2)) (afterHeader (filledImage n 2) n)
          (createStream none) (replaceDecisions ranges n trackSources) = Except.ok r
      ∧ r.2.2.data = headerBlock n (fun _ => (EADFTRACKTYPE_RAW, 1, 8))
          ++ (List.range n).flatMap (fun i =>
              if ranges.any (fun ab => decide (ab.1 ≤ i ∧ i ≤ ab.2)) then [2] else [1]) := by
  obtain ⟨pa, na, fa, wa, ta⟩ := filledImage_facts n 1 hn
  obtain ⟨pb, nb, fb, wb, tb⟩ := filledImage_facts n 2 hn
  have hmax : max (parsedHeader (filledImage n 1)).numTracks
      (parsedHeader (filledImage n 2)).numTracks = n := by rw [na, nb, Nat.max_self]
  have hin : InRange (parsedHeader (filledImage n 1)) (parsedHeader (filledImage n 2))
      (replaceDecisions ranges n trackSources)
      (max (parsedHeader (filledImage n 1)).numTracks
        (parsedHeader (filledImage n 2)).numTracks) := by
    intro i hi
    rw [hmax] at hi
    exact ⟨fun _ => by rw [na]; exact hi, fun _ => by rw [nb]; exact hi⟩
  obtain ⟨r, hr⟩ := eadfMergeFiles_succeeds blankHeader (filledImage n 1) _ _ pa
    blankHeader (filledImage n 2) _ _ pb wa wb _ hin
  refine ⟨r, hr, ?_⟩
  have hl := eadfMergeFiles_layout blankHeader (filledImage n 1) _ _ pa
    blankHeader (filledImage n 2) _ _ pb _ _ none _ r hr
  rw [hmax] at hl
  rw [hl]
  have hrec : headerBlock n (mergedRecord (parsedHeader (filledImage n 1))
        (parsedHeader (filledImage n 2)) (replaceDecisions ranges n trackSources))
      = headerBlock n (fun _ => (EADFTRACKTYPE_RAW, 1, 8)) := by
    apply headerBlock_congr
    intro i hi
    have h1 : i < (parsedHeader (filledImage n 1)).numTracks := by rw [na]; exact hi
    have h2 : i < (parsedHeader (filledImage n 2)).numTracks := by rw [nb]; exact hi
    unfold mergedRecord replaceDecisions
    rw [if_pos hi]
    by_cases hc : ranges.any (fun ab => decide (ab.1 ≤ i ∧ i ≤ ab.2)) = true
    · simp only [hc, if_true, reduceCtorEq, false_and, if_false, h2, and_self,
        (fb i hi).1, (fb i hi).2.1, (fb i hi).2.2]
    · simp only [hc, Bool.false_eq_true, if_false, h1, and_self, if_true,
        (fa i hi).1, (fa i hi).2.1, (fa i hi).2.2]
  rw [hrec]
  congr 1
  apply List.flatMap_congr
  intro i hi'
  have hi := List.mem_range.mp hi'
  have h1 : i < (parsedHeader (filledImage n 1)).numTracks := by rw [na]; exact hi
  have h2 : i < (parsedHeader (filledImage n 2)).numTracks := by rw [nb]; exact hi
  have d1 : (afterHeader (filledImage n 1) n).data = filledImage n 1 := rfl
  have d2 : (afterHeader (filledImage n 2) n).data = filledImage n 2 := rfl
  unfold mergedPayload replaceDecisions
  rw [if_pos hi, d1, d2]
  by_cases hc : ranges.any (fun ab => decide (ab.1 ≤ i ∧ i ≤ ab.2)) = true
  · simp only [hc, if_true]
    rw [(copiedBytes_parsed blankHeader (filledImage n 2) _ _ pb _ i h2).1, tb i hi]
  · simp only [hc, Bool.false_eq_true, if_false]
    rw [(copiedBytes_parsed blankHeader (filledImage n 1) _ _ pa _ i h1).1, ta i hi]

theorem sampleRanges_any (i : Nat) :
    [(15, 15), (57, 59), (77, 77)].any (fun ab : Nat × Nat => decide (ab.1 ≤ i ∧ i ≤ ab.2))
      = decide (i = 15 ∨ (57 ≤ i ∧ i ≤ 59) ∨ i = 77) := by
  simp only [List.any_cons, List.any_nil, Bool.or_false]
  by_cases h : i = 15 ∨ (57 ≤ i ∧ i ≤ 59) ∨ i = 77
  · rw [decide_eq_true h]
    rcases h with h | h | h
    · have : 15 ≤ i ∧ i ≤ 15 := by omega
      simp only [this, and_self, decide_True, Bool.true_or]
    · simp only [h, and_self, decide_True, Bool.true_or, Bool.or_true]
    · have : 77 ≤ i ∧ i ≤ 77 := by omega
      simp only [this, and_self, decide_True, Bool.or_true]
  · rw [decide_eq_false h]
    have h1 : ¬ (15 ≤ i ∧ i ≤ 15) := by omega
    have h2 : ¬ (57 ≤ i ∧ i ≤ 59) := by omega
    have h3 : ¬ (77 ≤ i ∧ i ≤ 77) := by omega
    simp only [h1, h2, h3, decide_False, Bool.or_self]

/-- The example of the help text, `15 57-59 77`, on two images of 80 one-byte tracks (the
bytes of source 1 are 1, those of source 2 are 2): the array handed to any engine, the
decisions a recording engine writes down, and the output of the command itself, which
takes exactly the tracks 15, 57, 58, 59 and 77 from source 2.  The last part is the output
of `replace` with the spec `1` on the two sample images. -/
theorem executeReplaceCommand_decisions_witness :
    (∀ engine, executeReplaceCommandWith engine CommandError.NOERROROR
          [['1', '5'], ['5', '7', '-', '5', '9'], ['7', '7']] allNone blankHeader blankHeader
          (openStream (filledImage 80 1)) (openStream (filledImage 80 2)) (createStream none)
          allNone
        = (match engine (parsedHeader (filledImage 80 1)) (afterHeader (filledImage 80 1) 80)
              (parsedHeader (filledImage 80 2)) (afterHeader (filledImage 80 2) 80)
              (createStream none)
              (replaceDecisions [(15, 15), (57, 59), (77, 77)] 80 allNone) with
          | Except.error _ => Except.error CommandError.MERGEERROR
          | Except.ok r => Except.ok r))
      ∧ (∀ i, replaceDecisions [(15, 15), (57, 59), (77, 77)] 80 allNone i
          = if i < 80 then
              if i = 15 ∨ (57 ≤ i ∧ i ≤ 59) ∨ i = 77 then EADFTrackSource.SOURCE2
              else EADFTrackSource.SOURCE1
            else EADFTrackSource.NONE)
      ∧ commandOutput (executeReplaceCommandWith (recordDecisions 80) CommandError.NOERROROR
          [['1', '5'], ['5', '7', '-', '5', '9'], ['7', '7']] allNone blankHeader blankHeader
          (openStream (filledImage 80 1)) (openStream (filledImage 80 2)) (createStream none)
          allNone)
        = some ((List.range 80).map
            (fun i => if i = 15 ∨ (57 ≤ i ∧ i ≤ 59) ∨ i = 77 then 2 else 1))
      ∧ commandOutput (executeReplaceCommand CommandError.NOERROROR
          [['1', '5'], ['5', '7', '-', '5', '9'], ['7', '7']] allNone blankHeader blankHeader
          (openStream (filledImage 80 1)) (openStream (filledImage 80 2)) (createStream none)
          allNone)
        = some (headerBlock 80 (fun _ => (EADFTRACKTYPE_RAW, 1, 8))
            ++ (List.range 80).flatMap
              (fun i => if i = 15 ∨ (57 ≤ i ∧ i ≤ 59) ∨ i = 77 then [2] else [1]))
      ∧ commandOutput (executeReplaceCommand CommandError.NOERROROR [['1']] allNone
          blankHeader blankHeader (openStream sampleImage) (openStream sampleImage2)
          (createStream none) allNone)
        = some (magicBytes ++ [0, 0, 0, 2]
            ++ [0, 0, 0, 0, 0, 0, 0, 3, 0, 0, 0, 24]
            ++ [0, 0, 0, 0, 0, 0, 0, 4, 0, 0, 0, 32]
            ++ [10, 11, 12, 30, 31, 32, 33]) := by
  have hwf : List.Forall₂ (fun t ab => WellFormedSpec t ab.1 ab.2)
      [['1', '5'], ['5', '7', '-', '5', '9'], ['7', '7']] [(15, 15), (57, 59), (77, 77)] :=
    List.Forall₂.cons
      (Or.inl ⟨⟨by decide, by decide⟩, by decide, rfl, by decide⟩)
      (List.Forall₂.cons
        (Or.inr ⟨['5', '7'], ['5', '9'], rfl, ⟨by decide, by decide⟩, ⟨by decide, by decide⟩,
          by decide, by decide, by decide, by decide⟩)
        (List.Forall₂.cons
          (Or.inl ⟨⟨by decide, by decide⟩, by decide, rfl, by decide⟩)
          List.Forall₂.nil))
  obtain ⟨pa, na, _⟩ := filledImage_facts 80 1 (by decide)
  obtain ⟨pb, nb, _⟩ := filledImage_facts 80 2 (by decide)
  have h := executeReplaceCommand_decisions _ _ hwf (by simp)
    blankHeader (filledImage 80 1) _ _ pa blankHeader (filledImage 80 2) _ _ pb
    CommandError.NOERROROR allNone allNone (createStream none)
  rw [na, nb, Nat.max_self] at h
  obtain ⟨hcall, hcmd, _⟩ := h
  have hdec : ∀ i, replaceDecisions [(15, 15), (57, 59), (77, 77)] 80 allNone i
      = if i < 80 then
          if i = 15 ∨ (57 ≤ i ∧ i ≤ 59) ∨ i = 77 then EADFTrackSource.SOURCE2
          else EADFTrackSource.SOURCE1
        else EADFTrackSource.NONE := by
    intro i
    unfold replaceDecisions
    rw [sampleRanges_any]
    by_cases hi : i < 80
    · simp only [hi, if_true, decide_eq_true_eq]
    · simp only [hi, if_false, allNone]
  refine ⟨hcall, hdec, ?_, ?_, ?_⟩
  · rw [hcall (recordDecisions 80)]
    simp only [recordDecisions, commandOutput, fwrite, createStream, List.nil_append]
    rfl
  · obtain ⟨r, hr, hdata⟩ := replace_filled_output [(15, 15), (57, 59), (77, 77)] 80
      (by decide) allNone
    rw [hcmd, hcall eadfMergeFiles, hr]
    simp only [commandOutput]
    rw [hdata]
    rfl
  · set_option maxRecDepth 100000 in
    decide

end Rawadf
